import Mathlib

/-!
Verification development for the tournament scheduling engine of the
repository (BACKEND/app/services/scheduling_service.py and the stage
orchestration slice of BACKEND/app/services/data_service.py).

The Python code is shallowly embedded: dataclasses become structures,
Python `int` becomes `Int` (team counts and list lengths become `Nat`),
`datetime.date` is embedded as an `Int` day ordinal, `datetime.time` as an
hour/minute pair (`Fin 24`/`Fin 60`, matching the range invariant of the
Python `time` type), raised exceptions become `Except String`, and Python
dicts keyed by ids become insertion-ordered association lists with
last-write-wins update, which reproduces CPython dict semantics.
-/

namespace Scheduling


instance exceptDecEq [DecidableEq ε] [DecidableEq α] : DecidableEq (Except ε α) := fun x y =>
  match x, y with
  | .ok a, .ok b =>
    if h : a = b then isTrue (by rw [h])
    else isFalse (by intro hc; cases hc; exact h rfl)
  | .error a, .error b =>
    if h : a = b then isTrue (by rw [h])
    else isFalse (by intro hc; cases hc; exact h rfl)
  | .ok _, .error _ => isFalse (by intro hc; cases hc)
  | .error _, .ok _ => isFalse (by intro hc; cases hc)

/-- Embeds dataclass `Team` (scheduling_service.py): `id` is `None` for a
placeholder slot awaiting seeding. -/
structure Team where
  id : Option Int
  nombre : String
deriving DecidableEq, Repr

/-- Embeds the `Team.is_placeholder` property. -/
def Team.is_placeholder (t : Team) : Bool := t.id.isNone

/-- Embeds dataclass `TeamStanding` (all counters are Python ints). -/
structure TeamStanding where
  team : Team
  serie : Option String
  points : Int
  goals_for : Int
  goals_against : Int
  wins : Int
  draws : Int
  losses : Int
deriving DecidableEq, Repr

/-- Embeds the `TeamStanding.goal_diff` property. -/
def TeamStanding.goal_diff (s : TeamStanding) : Int := s.goals_for - s.goals_against

/-- Embeds dataclass `Venue`. -/
structure Venue where
  id : Int
  nombre : String
deriving DecidableEq, Repr

/-- Time of day, embedding Python `datetime.time` (hour in [0,23], minute
in [0,59]; seconds are unused by the scheduler). -/
structure TimeOfDay where
  hour : Fin 24
  minute : Fin 60
deriving DecidableEq, Repr

/-- Minutes after midnight, as computed by
`config.hora_inicio.hour * 60 + config.hora_inicio.minute` in `build_slots`. -/
def TimeOfDay.minutes (t : TimeOfDay) : Int := (t.hour : Int) * 60 + (t.minute : Int)

/-- Embeds dataclass `ScheduleConfig`. -/
structure ScheduleConfig where
  hora_inicio : TimeOfDay
  hora_fin : TimeOfDay
  duracion_horas : Int
  descanso_min_dias : Int
deriving DecidableEq, Repr

/-- Embeds dataclass `Slot`; `fecha` is a date ordinal and the two `hora`
fields are minutes after midnight, exactly the quantities `build_slots`
computes before converting back to `datetime.time`. -/
structure Slot where
  index : Nat
  day_index : Nat
  time_index : Nat
  fecha : Int
  hora_inicio : Int
  hora_fin : Int
  venue : Venue
deriving DecidableEq, Repr

/-- Embeds dataclass `MatchDefinition`. -/
structure MatchDefinition where
  internal_id : Nat
  code : String
  fase : String
  serie : Option String
  ronda : String
  «local» : Option Team
  visitante : Option Team
  placeholder_local : Option String
  placeholder_visitante : Option String
  is_playoff : Bool
deriving DecidableEq, Repr

/-- Embeds dataclass `TournamentStructure`. -/
structure TournamentStructure where
  series : Nat
  playoff_teams : Nat
deriving DecidableEq, Repr

/-- Embeds `determine_tournament_structure` (scheduling_service.py lines
135-148); the `raise ApplicationError` branch becomes `Except.error`. -/
def determine_tournament_structure (num_teams : Nat) : Except String TournamentStructure :=
  if 2 ≤ num_teams ∧ num_teams ≤ 7 then .ok ⟨1, 0⟩
  else if 8 ≤ num_teams ∧ num_teams ≤ 11 then .ok ⟨2, 4⟩
  else if 12 ≤ num_teams ∧ num_teams ≤ 15 then .ok ⟨3, 8⟩
  else if 16 ≤ num_teams ∧ num_teams ≤ 19 then .ok ⟨4, 8⟩
  else if 20 ≤ num_teams ∧ num_teams ≤ 25 then .ok ⟨5, 8⟩
  else .error "La generación automática solo está soportada para eventos entre 2 y 25 equipos"

/-- Embeds `resolve_stage_sequence`. -/
def resolve_stage_sequence (playoff_teams : Nat) : List String :=
  if playoff_teams = 4 then ["group", "semifinal", "final", "third_place"]
  else if playoff_teams = 8 then ["group", "quarterfinal", "semifinal", "final", "third_place"]
  else ["group", "final"]

/-- The capacity property claimed for a successfully resolved structure:
playoff size in {0,4,8} and `series * ceil(N / series) ≥ N`. -/
def StructureCovers (st : TournamentStructure) (n : Nat) : Prop :=
  (st.playoff_teams = 0 ∨ st.playoff_teams = 4 ∨ st.playoff_teams = 8) ∧
    n ≤ st.series * ((n + st.series - 1) / st.series)

/-- C3: for 2 ≤ N ≤ 25, `determine_tournament_structure` returns exactly the
documented band structure, every returned structure has playoff size in
{0,4,8} and covers N (`series * ceil(N/series) ≥ N`); for N < 2 or N > 25 it
raises the capacity error. -/
theorem c3_determine_tournament_structure_bands (n : Nat) :
    ((2 ≤ n ∧ n ≤ 7) → determine_tournament_structure n = .ok ⟨1, 0⟩) ∧
    ((8 ≤ n ∧ n ≤ 11) → determine_tournament_structure n = .ok ⟨2, 4⟩) ∧
    ((12 ≤ n ∧ n ≤ 15) → determine_tournament_structure n = .ok ⟨3, 8⟩) ∧
    ((16 ≤ n ∧ n ≤ 19) → determine_tournament_structure n = .ok ⟨4, 8⟩) ∧
    ((20 ≤ n ∧ n ≤ 25) → determine_tournament_structure n = .ok ⟨5, 8⟩) ∧
    (∀ st, determine_tournament_structure n = .ok st → StructureCovers st n) ∧
    ((n < 2 ∨ 25 < n) → determine_tournament_structure n =
      .error "La generación automática solo está soportada para eventos entre 2 y 25 equipos") := by
  unfold determine_tournament_structure
  refine ⟨?_, ?_, ?_, ?_, ?_, ?_, ?_⟩
  · intro h; rw [if_pos h]
  · intro h; rw [if_neg (by omega), if_pos h]
  · intro h; rw [if_neg (by omega), if_neg (by omega), if_pos h]
  · intro h; rw [if_neg (by omega), if_neg (by omega), if_neg (by omega), if_pos h]
  · intro h
    rw [if_neg (by omega), if_neg (by omega), if_neg (by omega), if_neg (by omega), if_pos h]
  · intro st h
    unfold StructureCovers
    split at h
    · cases h; constructor
      · left; rfl
      · simp only; omega
    · split at h
      · cases h; constructor
        · right; left; rfl
        · simp only; omega
      · split at h
        · cases h; constructor
          · right; right; rfl
          · simp only; omega
        · split at h
          · cases h; constructor
            · right; right; rfl
            · simp only; omega
          · split at h
            · cases h; constructor
              · right; right; rfl
              · simp only; omega
            · cases h
  · intro h
    rw [if_neg (by omega), if_neg (by omega), if_neg (by omega), if_neg (by omega),
      if_neg (by omega)]

/-- Witness for C3: the theorem applied at concrete team counts 10 (a band
with playoffs) and 30 (over capacity). -/
theorem c3_witness :
    determine_tournament_structure 10 = .ok ⟨2, 4⟩ ∧
    determine_tournament_structure 30 =
      .error "La generación automática solo está soportada para eventos entre 2 y 25 equipos" := by
  constructor
  · exact (c3_determine_tournament_structure_bands 10).2.1 (by omega)
  · exact (c3_determine_tournament_structure_bands 30).2.2.2.2.2.2 (by omega)

/-- Embeds Python `str.lower()` (character-wise lowercasing; all strings the
engine lowercases are ASCII phase/state names). Implemented over the
character list so that it evaluates by kernel reduction. -/
def strLower (s : String) : String := String.mk (s.data.map Char.toLower)

/-- Lexicographic comparison of character lists by code point, embedding
Python string `<=` semantics. -/
def charListLe : List Char → List Char → Bool
  | [], _ => true
  | _ :: _, [] => false
  | a :: as, b :: bs => if a < b then true else if b < a then false else charListLe as bs

/-- Embeds Python string `<=` (lexicographic by code point). -/
def strLe (a b : String) : Bool := charListLe a.data b.data

/-- Stable insertion of an element after every existing element that
compares `le` to it. -/
def insertS (le : α → α → Bool) (x : α) : List α → List α
  | [] => [x]
  | y :: ys => if le y x then y :: insertS le x ys else x :: y :: ys

/-- Stable ascending sort, embedding Python `list.sort(key=...)` (Python's
sort is stable; a stable sort is uniquely determined by the total preorder
`le`, so insertion sort reproduces it). -/
def stableSort (le : α → α → Bool) (l : List α) : List α :=
  l.foldl (fun acc x => insertS le x acc) []

/-- Membership is preserved by stable insertion. -/
theorem mem_insertS (le : α → α → Bool) (x : α) (l : List α) :
    ∀ z, z ∈ insertS le x l ↔ z = x ∨ z ∈ l := by
  induction l with
  | nil => intro z; simp [insertS]
  | cons y ys ih =>
    intro z
    unfold insertS
    by_cases h : le y x = true
    · rw [if_pos h]
      simp only [List.mem_cons, ih]
      try tauto
    · rw [if_neg h]
      simp only [List.mem_cons]
      try tauto

/-- Membership is preserved by the stable sort. -/
theorem mem_stableSort (le : α → α → Bool) (l : List α) :
    ∀ z, z ∈ stableSort le l ↔ z ∈ l := by
  unfold stableSort
  have haux : ∀ (l2 : List α) (acc : List α) (z : α),
      z ∈ l2.foldl (fun acc x => insertS le x acc) acc ↔ z ∈ acc ∨ z ∈ l2 := by
    intro l2
    induction l2 with
    | nil => intro acc z; simp
    | cons y ys ih =>
      intro acc z
      simp only [List.foldl_cons, ih, mem_insertS, List.mem_cons]
      tauto
  intro z
  rw [haux l [] z]
  simp

/-- Embeds the fields of the ORM row `EventoPartido` that the scheduling
engine reads (all nullable columns become `Option`). -/
structure Partido where
  fase : Option String
  serie : Option String
  equipo_local_id : Option Int
  equipo_visitante_id : Option Int
  puntaje_local : Option Int
  puntaje_visitante : Option Int
  estado : Option String
  llave : Option String
  ganador_inscripcion_id : Option Int
  fecha : Option Int
  hora : Option Int
  escenario_evento_id : Option Int
deriving DecidableEq, Repr

/-- Lookup in an insertion-ordered association list, embedding Python
`dict.get` / `dict.__getitem__` (keys are kept unique by `dictSet`). -/
def dictGet [BEq κ] (st : List (κ × α)) (k : κ) : Option α :=
  (st.find? (fun p => p.1 == k)).map (·.2)

/-- Embeds Python `dict.__setitem__`: replace the value in place if the key
exists, otherwise append, preserving insertion order. -/
def dictSet [BEq κ] : List (κ × α) → κ → α → List (κ × α)
  | [], k, v => [(k, v)]
  | p :: rest, k, v => if p.1 == k then (k, v) :: rest else p :: dictSet rest k v

/-- Embeds an in-place mutation `d[k].field = ...` of the value stored at a
key (a no-op when the key is absent; all call sites guarantee presence,
matching the Python code which would raise `KeyError` otherwise). -/
def dictUpdate [BEq κ] : List (κ × α) → κ → (α → α) → List (κ × α)
  | [], _, _ => []
  | p :: rest, k, f => (if p.1 == k then (p.1, f p.2) else p) :: dictUpdate rest k f

/-- Embeds `team_lookup.get(team_id, Team(id=team_id, nombre="Equipo"))`. -/
def lookupTeam (lookup : List (Int × Team)) (tid : Int) : Team :=
  match dictGet lookup tid with
  | some t => t
  | none => ⟨some tid, "Equipo"⟩

/-- Embeds the `if team_id not in standings: standings[team_id] = TeamStanding(...)`
pattern of `compute_group_standings`. -/
def ensureEntry (lookup : List (Int × Team)) (serie : Option String)
    (st : List (Int × TeamStanding)) (tid : Int) : List (Int × TeamStanding) :=
  match dictGet st tid with
  | some _ => st
  | none => dictSet st tid ⟨lookupTeam lookup tid, serie, 0, 0, 0, 0, 0, 0⟩

/-- Embeds `standing.goals_for += scored or 0; standing.goals_against += conceded or 0`
(`x or 0` maps `None` and `0` to `0` and is the identity otherwise, which is
exactly `Option.getD 0`). -/
def addGoals (st : List (Int × TeamStanding)) (tid : Int) (scored conceded : Option Int) :
    List (Int × TeamStanding) :=
  dictUpdate st tid (fun s =>
    { s with goals_for := s.goals_for + scored.getD 0,
             goals_against := s.goals_against + conceded.getD 0 })

/-- One iteration of the `for team_id, scored, conceded in pairs` loop of
`compute_group_standings`. -/
def goalsStep (lookup : List (Int × Team)) (serie : Option String)
    (st : List (Int × TeamStanding)) (pair : Option Int × Option Int × Option Int) :
    List (Int × TeamStanding) :=
  match pair.1 with
  | none => st
  | some tid => addGoals (ensureEntry lookup serie st tid) tid pair.2.1 pair.2.2

/-- The `for team_id, scored, conceded in pairs` loop of
`compute_group_standings`: goals accumulate for both sides of a group match
whether or not the match is finalized. -/
def goalsPhase (team_lookup : List (Int × Team)) (m : Partido)
    (st : List (Int × TeamStanding)) : List (Int × TeamStanding) :=
  [(m.equipo_local_id, m.puntaje_local, m.puntaje_visitante),
   (m.equipo_visitante_id, m.puntaje_visitante, m.puntaje_local)].foldl
    (goalsStep team_lookup m.serie) st

/-- The finalized-match block of `compute_group_standings` (lines 203-233):
win/draw/loss/points updates, applied only when both team ids are present,
with score updates only when both scores are present. -/
def outcomePhase (team_lookup : List (Int × Team)) (m : Partido)
    (st : List (Int × TeamStanding)) : List (Int × TeamStanding) :=
  match m.equipo_local_id, m.equipo_visitante_id with
  | some local_id, some visitor_id =>
    let st := ensureEntry team_lookup m.serie st local_id
    let st := ensureEntry team_lookup m.serie st visitor_id
    match m.puntaje_local, m.puntaje_visitante with
    | some local_score, some visitor_score =>
      if local_score = visitor_score then
        let st := dictUpdate st local_id (fun s => { s with draws := s.draws + 1 })
        let st := dictUpdate st visitor_id (fun s => { s with draws := s.draws + 1 })
        let st := dictUpdate st local_id (fun s => { s with points := s.points + 1 })
        dictUpdate st visitor_id (fun s => { s with points := s.points + 1 })
      else if local_score > visitor_score then
        let st := dictUpdate st local_id (fun s => { s with wins := s.wins + 1 })
        let st := dictUpdate st visitor_id (fun s => { s with losses := s.losses + 1 })
        dictUpdate st local_id (fun s => { s with points := s.points + 3 })
      else
        let st := dictUpdate st visitor_id (fun s => { s with wins := s.wins + 1 })
        let st := dictUpdate st local_id (fun s => { s with losses := s.losses + 1 })
        dictUpdate st visitor_id (fun s => { s with points := s.points + 3 })
    | _, _ => st
  | _, _ => st

/-- Embeds one iteration of the main `for match in matches` loop of
`compute_group_standings` (scheduling_service.py lines 174-233). -/
def process_match (team_lookup : List (Int × Team)) (st : List (Int × TeamStanding))
    (m : Partido) : List (Int × TeamStanding) :=
  if (strLower (m.fase.getD "")) ≠ "group" then st
  else if (strLower (m.estado.getD "")) ≠ "finalizado" then goalsPhase team_lookup m st
  else outcomePhase team_lookup m (goalsPhase team_lookup m st)

/-- The accumulation state of `compute_group_standings` after the main loop
(the `standings` dict, keyed by team id). -/
def standingsState (ms : List Partido) (team_lookup : List (Int × Team)) :
    List (Int × TeamStanding) :=
  ms.foldl (process_match team_lookup) []

/-- Embeds `_standing_sort_key`: Python sorts ascending by the tuple
`(-points, -goal_diff, -goals_for, -wins, name.lower())`; this is the
corresponding ≤ test used with a stable sort. -/
def _standing_sort_le (a b : TeamStanding) : Bool :=
  if a.points ≠ b.points then b.points < a.points
  else if a.goal_diff ≠ b.goal_diff then b.goal_diff < a.goal_diff
  else if a.goals_for ≠ b.goals_for then b.goals_for < a.goals_for
  else if a.wins ≠ b.wins then b.wins < a.wins
  else strLe (strLower a.team.nombre) (strLower b.team.nombre)

/-- Embeds `standing.serie or "Serie"` (Python `or` also replaces the empty
string). -/
def serieLabel (o : Option String) : String :=
  match o with
  | some s => if s = "" then "Serie" else s
  | none => "Serie"

/-- Embeds `compute_group_standings` (scheduling_service.py lines 169-241):
fold all matches into the standings dict, group by series label, and sort
each series with the standing sort key (Python `list.sort` is stable, as is
`List.mergeSort`). -/
def compute_group_standings (ms : List Partido) (team_lookup : List (Int × Team)) :
    List (String × List TeamStanding) :=
  let st := standingsState ms team_lookup
  let by_serie := st.foldl (fun acc p =>
    let label := serieLabel p.2.serie
    match dictGet acc label with
    | some l => dictSet acc label (l ++ [p.2])
    | none => dictSet acc label [p.2]) ([] : List (String × List TeamStanding))
  by_serie.map (fun p => (p.1, stableSort _standing_sort_le p.2))

/-- Reading a `dictGet` through a cons cell. -/
theorem dictGet_cons [BEq κ] (p : κ × α) (st : List (κ × α)) (k : κ) :
    dictGet (p :: st) k = if p.1 == k then some p.2 else dictGet st k := by
  simp only [dictGet, List.find?_cons]
  cases h : p.1 == k <;> simp [h]

/-- `dictSet` followed by `dictGet`. -/
theorem dictGet_dictSet [BEq κ] [LawfulBEq κ] (st : List (κ × α)) (k k2 : κ) (v : α) :
    dictGet (dictSet st k v) k2 = if k == k2 then some v else dictGet st k2 := by
  induction st with
  | nil => rw [dictSet, dictGet_cons]
  | cons p rest ih =>
    rw [dictSet]
    cases hpk : p.1 == k
    · simp only [hpk, Bool.false_eq_true, if_false]
      rw [dictGet_cons, ih, dictGet_cons]
      cases hk : k == k2
      · simp [hk]
      · have hkeq : k = k2 := eq_of_beq hk
        have : (p.1 == k2) = false := by rw [← hkeq]; exact hpk
        simp [hk, this]
    · have hp : p.1 = k := eq_of_beq hpk
      simp only [hpk, if_true]
      rw [dictGet_cons, dictGet_cons]
      cases hk : k == k2
      · simp [hk, hp]
      · simp [hk]

/-- `dictUpdate` followed by `dictGet`. -/
theorem dictGet_dictUpdate [BEq κ] [LawfulBEq κ] (st : List (κ × α)) (k k2 : κ) (f : α → α) :
    dictGet (dictUpdate st k f) k2 =
      if k == k2 then (dictGet st k2).map f else dictGet st k2 := by
  induction st with
  | nil => simp [dictUpdate, dictGet]
  | cons p rest ih =>
    rw [dictUpdate]
    cases hpk : p.1 == k
    · simp only [hpk, Bool.false_eq_true, if_false]
      rw [dictGet_cons, ih, dictGet_cons]
      cases hk : k == k2
      · simp [hk]
      · have hkeq : k = k2 := eq_of_beq hk
        have hne : (p.1 == k2) = false := by rw [← hkeq]; exact hpk
        simp [hk, hne]
    · have hp : p.1 = k := eq_of_beq hpk
      simp only [hpk, if_true]
      rw [dictGet_cons, dictGet_cons]
      cases hk : k == k2
      · have : (p.1 == k2) = false := by rw [hp]; exact hk
        simp [hk, this, ih]
      · have : (p.1 == k2) = true := by rw [hp]; exact hk
        simp [hk, this, ih]

/-- Members of `dictSet` come from the original dict or are the new pair. -/
theorem mem_dictSet [BEq κ] (st : List (κ × α)) (k : κ) (v : α) :
    ∀ p ∈ dictSet st k v, p ∈ st ∨ p = (k, v) := by
  induction st with
  | nil => intro p hp; simp [dictSet] at hp; right; exact hp
  | cons q rest ih =>
    intro p hp
    rw [dictSet] at hp
    by_cases hqk : (q.1 == k) = true
    · rw [if_pos hqk] at hp
      rcases List.mem_cons.mp hp with h | h
      · right; exact h
      · left; exact List.mem_cons_of_mem _ h
    · rw [if_neg hqk] at hp
      rcases List.mem_cons.mp hp with h | h
      · left; exact h ▸ List.mem_cons_self _ _
      · rcases ih p h with h2 | h2
        · left; exact List.mem_cons_of_mem _ h2
        · right; exact h2

/-- A successful `dictGet` exhibits a member of the dict. -/
theorem dictGet_mem [BEq κ] [LawfulBEq κ] {st : List (κ × α)} {k : κ} {v : α}
    (h : dictGet st k = some v) : (k, v) ∈ st := by
  simp only [dictGet, Option.map_eq_some'] at h
  obtain ⟨p, hp, hv⟩ := h
  have hmem := List.mem_of_find?_eq_some hp
  have hpred := List.find?_some hp
  have : p.1 = k := eq_of_beq hpred
  have : p = (k, v) := by
    cases p
    simp_all
  exact this ▸ hmem

/-- The keys of an association-list dict. -/
def dictKeys (st : List (κ × α)) : List κ := st.map Prod.fst

/-- The dict invariant: keys are pairwise distinct. -/
def KeysNodup [BEq κ] (st : List (κ × α)) : Prop := (dictKeys st).Nodup

/-- `dictUpdate` does not change the key list. -/
theorem dictKeys_dictUpdate [BEq κ] (st : List (κ × α)) (k : κ) (f : α → α) :
    dictKeys (dictUpdate st k f) = dictKeys st := by
  induction st with
  | nil => rfl
  | cons p rest ih =>
    rw [dictUpdate]
    cases hpk : p.1 == k
    · simp only [hpk, Bool.false_eq_true, if_false, dictKeys, List.map_cons]
      exact congrArg _ ih
    · simp only [hpk, if_true, dictKeys, List.map_cons]
      exact congrArg _ ih

/-- Keys after `dictSet` come from the original keys or are the new key. -/
theorem mem_dictKeys_dictSet [BEq κ] (st : List (κ × α)) (k x : κ) (v : α) :
    x ∈ dictKeys (dictSet st k v) → x ∈ dictKeys st ∨ x = k := by
  intro hx
  simp only [dictKeys, List.mem_map] at hx
  obtain ⟨p, hp, hfst⟩ := hx
  rcases mem_dictSet st k v p hp with h | h
  · left; exact List.mem_map.mpr ⟨p, h, hfst⟩
  · right; rw [h] at hfst; exact hfst.symm

/-- `dictSet` preserves key distinctness. -/
theorem keysNodup_dictSet [BEq κ] [LawfulBEq κ] (st : List (κ × α)) (k : κ) (v : α)
    (h : KeysNodup st) : KeysNodup (dictSet st k v) := by
  induction st with
  | nil => simp [KeysNodup, dictKeys, dictSet]
  | cons p rest ih =>
    rw [KeysNodup, dictSet]
    cases hpk : p.1 == k
    · rw [if_neg (by simp [hpk])]
      simp only [dictKeys, List.map_cons, List.nodup_cons]
      constructor
      · intro hmem
        rcases mem_dictKeys_dictSet rest k p.1 v hmem with h2 | h2
        · exact (List.nodup_cons.mp h).1 h2
        · rw [h2] at hpk; simp at hpk
      · exact ih (List.nodup_cons.mp h).2
    · have hp : p.1 = k := eq_of_beq hpk
      rw [if_pos (by simp [hpk])]
      simp only [dictKeys, List.map_cons, List.nodup_cons]
      refine ⟨?_, (List.nodup_cons.mp h).2⟩
      rw [← hp]
      exact (List.nodup_cons.mp h).1

/-- With distinct keys, every member of the dict is found by `dictGet`. -/
theorem dictGet_of_mem_nodup [BEq κ] [LawfulBEq κ] {st : List (κ × α)}
    (hnd : KeysNodup st) {p : κ × α} (hp : p ∈ st) : dictGet st p.1 = some p.2 := by
  induction st with
  | nil => cases hp
  | cons q rest ih =>
    simp only [KeysNodup, dictKeys, List.map_cons, List.nodup_cons] at hnd
    rw [dictGet_cons]
    rcases List.mem_cons.mp hp with h | h
    · subst h; simp
    · have hkey : p.1 ∈ rest.map Prod.fst := List.mem_map.mpr ⟨p, h, rfl⟩
      have hq : (q.1 == p.1) = false := by
        cases hqe : q.1 == p.1
        · rfl
        · exact absurd (eq_of_beq hqe ▸ hkey) hnd.1
      rw [hq]
      simp only [Bool.false_eq_true, if_false]
      exact ih hnd.2 h

/-- Reads one numeric accumulator of the standings dict (0 when the team has
no entry yet). -/
def stField (st : List (Int × TeamStanding)) (tid : Int) (f : TeamStanding → Int) : Int :=
  match dictGet st tid with
  | some s => f s
  | none => 0

/-- Embeds the group-phase test `(match.fase or "").lower() == "group"`. -/
def isGroupMatch (m : Partido) : Bool := strLower (m.fase.getD "") == "group"

/-- Embeds the finalized test `(match.estado or "").lower() == "finalizado"`. -/
def isFinalizado (m : Partido) : Bool := strLower (m.estado.getD "") == "finalizado"

/-- Reference definition following the spec (§4.6): a match can contribute
to win/draw/loss/points only when it is a group match marked finalized with
both team ids and both scores recorded. -/
def resultReady (m : Partido) : Bool :=
  isGroupMatch m && isFinalizado m && m.equipo_local_id.isSome &&
    m.equipo_visitante_id.isSome && m.puntaje_local.isSome && m.puntaje_visitante.isSome

/-- Reference definition following the spec: the number of wins a single
match awards to team `tid`. -/
def winContrib (tid : Int) (m : Partido) : Int :=
  if resultReady m then
    (if m.equipo_local_id = some tid ∧ m.puntaje_visitante.getD 0 < m.puntaje_local.getD 0
      then 1 else 0) +
    (if m.equipo_visitante_id = some tid ∧ m.puntaje_local.getD 0 < m.puntaje_visitante.getD 0
      then 1 else 0)
  else 0

/-- Reference definition following the spec: the number of draws a single
match awards to team `tid`. -/
def drawContrib (tid : Int) (m : Partido) : Int :=
  if resultReady m ∧ m.puntaje_local.getD 0 = m.puntaje_visitante.getD 0 then
    (if m.equipo_local_id = some tid then 1 else 0) +
      (if m.equipo_visitante_id = some tid then 1 else 0)
  else 0

/-- Reference definition following the spec: the number of losses a single
match awards to team `tid`. -/
def lossContrib (tid : Int) (m : Partido) : Int :=
  if resultReady m then
    (if m.equipo_local_id = some tid ∧ m.puntaje_local.getD 0 < m.puntaje_visitante.getD 0
      then 1 else 0) +
    (if m.equipo_visitante_id = some tid ∧ m.puntaje_visitante.getD 0 < m.puntaje_local.getD 0
      then 1 else 0)
  else 0

/-- Reference definition following the spec: points awarded by one match
(win = 3, draw = 1 each, loss = 0). -/
def pointsContrib (tid : Int) (m : Partido) : Int :=
  3 * winContrib tid m + drawContrib tid m

/-- Reference definition following the spec: goals scored by team `tid` in
one group match (counted whenever a score is entered, finalized or not). -/
def goalsForContrib (tid : Int) (m : Partido) : Int :=
  if isGroupMatch m then
    (if m.equipo_local_id = some tid then m.puntaje_local.getD 0 else 0) +
      (if m.equipo_visitante_id = some tid then m.puntaje_visitante.getD 0 else 0)
  else 0

/-- Reference definition following the spec: goals conceded by team `tid` in
one group match. -/
def goalsAgainstContrib (tid : Int) (m : Partido) : Int :=
  if isGroupMatch m then
    (if m.equipo_local_id = some tid then m.puntaje_visitante.getD 0 else 0) +
      (if m.equipo_visitante_id = some tid then m.puntaje_local.getD 0 else 0)
  else 0

/-- An update that does not touch the observed field keeps `stField`. -/
theorem stField_dictUpdate_keep (st : List (Int × TeamStanding)) (k tid : Int)
    (u : TeamStanding → TeamStanding) (f : TeamStanding → Int)
    (hf : ∀ s, f (u s) = f s) :
    stField (dictUpdate st k u) tid f = stField st tid f := by
  unfold stField
  rw [dictGet_dictUpdate]
  cases hk : k == tid
  · simp [hk]
  · simp only [hk, if_true]
    cases dictGet st tid <;> simp [hf]

/-- An update adding `c` to the observed field of a present key shifts
`stField` by `c` at that key. -/
theorem stField_dictUpdate_shift (st : List (Int × TeamStanding)) (k tid : Int)
    (u : TeamStanding → TeamStanding) (f : TeamStanding → Int) (c : Int)
    (hpres : (dictGet st k).isSome = true)
    (hf : ∀ s, f (u s) = f s + c) :
    stField (dictUpdate st k u) tid f = stField st tid f + (if tid = k then c else 0) := by
  unfold stField
  rw [dictGet_dictUpdate]
  cases hk : k == tid
  · have hne : ¬tid = k := by
      intro h
      subst h
      simp at hk
    simp [hk, hne]
  · have heq : k = tid := eq_of_beq hk
    subst heq
    obtain ⟨s, hs⟩ := Option.isSome_iff_exists.mp hpres
    simp [hk, hs, hf]

/-- `ensureEntry` keeps every field whose value on a fresh entry is 0. -/
theorem stField_ensureEntry (lookup : List (Int × Team)) (serie : Option String)
    (st : List (Int × TeamStanding)) (tid tid2 : Int) (f : TeamStanding → Int)
    (hf : ∀ t sr, f ⟨t, sr, 0, 0, 0, 0, 0, 0⟩ = 0) :
    stField (ensureEntry lookup serie st tid) tid2 f = stField st tid2 f := by
  unfold ensureEntry
  cases hget : dictGet st tid
  · unfold stField
    rw [dictGet_dictSet]
    cases hk : tid == tid2
    · simp [hk]
    · have heq : tid = tid2 := eq_of_beq hk
      subst heq
      simp [hk, hget, hf]
  · rfl

/-- After `ensureEntry` the ensured key is present. -/
theorem isSome_ensureEntry_self (lookup : List (Int × Team)) (serie : Option String)
    (st : List (Int × TeamStanding)) (tid : Int) :
    (dictGet (ensureEntry lookup serie st tid) tid).isSome = true := by
  unfold ensureEntry
  cases hget : dictGet st tid
  · rw [dictGet_dictSet]; simp
  · simp [hget]

/-- `ensureEntry` never removes a present key. -/
theorem isSome_ensureEntry_mono (lookup : List (Int × Team)) (serie : Option String)
    (st : List (Int × TeamStanding)) (tid tid2 : Int)
    (h : (dictGet st tid2).isSome = true) :
    (dictGet (ensureEntry lookup serie st tid) tid2).isSome = true := by
  unfold ensureEntry
  cases hget : dictGet st tid
  · rw [dictGet_dictSet]
    cases hk : tid == tid2 <;> simp [hk, h]
  · simpa [hget] using h

/-- `dictUpdate` preserves key presence. -/
theorem isSome_dictUpdate (st : List (Int × TeamStanding)) (k tid : Int)
    (u : TeamStanding → TeamStanding) :
    (dictGet (dictUpdate st k u) tid).isSome = (dictGet st tid).isSome := by
  rw [dictGet_dictUpdate]
  cases hk : k == tid
  · simp [hk]
  · simp only [hk, if_true]
    cases dictGet st tid <;> simp

/-- The goals loop keeps every accumulator that is 0 on fresh entries and
untouched by goal updates. -/
theorem stField_goalsStep_keep (lookup : List (Int × Team)) (serie : Option String)
    (st : List (Int × TeamStanding)) (pair : Option Int × Option Int × Option Int)
    (tid : Int) (f : TeamStanding → Int)
    (hfresh : ∀ t sr, f ⟨t, sr, 0, 0, 0, 0, 0, 0⟩ = 0)
    (hgoals : ∀ s x y, f { s with goals_for := x, goals_against := y } = f s) :
    stField (goalsStep lookup serie st pair) tid f = stField st tid f := by
  unfold goalsStep
  cases hp : pair.1
  · rfl
  · unfold addGoals
    rw [stField_dictUpdate_keep]
    · exact stField_ensureEntry lookup serie st _ tid f hfresh
    · intro s; exact hgoals s _ _

/-- Effect of one goals-loop iteration on `goals_for`. -/
theorem stField_goalsStep_gf (lookup : List (Int × Team)) (serie : Option String)
    (st : List (Int × TeamStanding)) (sid : Option Int) (scored conceded : Option Int)
    (tid : Int) :
    stField (goalsStep lookup serie st (sid, scored, conceded)) tid (fun s => s.goals_for) =
      stField st tid (fun s => s.goals_for) +
        (if sid = some tid then scored.getD 0 else 0) := by
  unfold goalsStep
  cases sid with
  | none => simp
  | some j =>
    unfold addGoals
    rw [stField_dictUpdate_shift _ _ _ _ _ (scored.getD 0)
      (isSome_ensureEntry_self lookup serie st j) (fun s => rfl)]
    rw [stField_ensureEntry lookup serie st _ tid _ (fun t sr => rfl)]
    by_cases h : tid = j
    · subst h; simp
    · have h2 : ¬(some j = some tid) := by
        intro hc
        exact h (Option.some.inj hc).symm
      simp [h, h2]

/-- Effect of one goals-loop iteration on `goals_against`. -/
theorem stField_goalsStep_ga (lookup : List (Int × Team)) (serie : Option String)
    (st : List (Int × TeamStanding)) (sid : Option Int) (scored conceded : Option Int)
    (tid : Int) :
    stField (goalsStep lookup serie st (sid, scored, conceded)) tid (fun s => s.goals_against) =
      stField st tid (fun s => s.goals_against) +
        (if sid = some tid then conceded.getD 0 else 0) := by
  unfold goalsStep
  cases sid with
  | none => simp
  | some j =>
    unfold addGoals
    rw [stField_dictUpdate_shift _ _ _ _ _ (conceded.getD 0)
      (isSome_ensureEntry_self lookup serie st j) (fun s => rfl)]
    rw [stField_ensureEntry lookup serie st _ tid _ (fun t sr => rfl)]
    by_cases h : tid = j
    · subst h; simp
    · have h2 : ¬(some j = some tid) := by
        intro hc
        exact h (Option.some.inj hc).symm
      simp [h, h2]

/-- The goals loop keeps all four result counters. -/
theorem counters_goalsPhase (lookup : List (Int × Team)) (m : Partido)
    (st : List (Int × TeamStanding)) (tid : Int) (f : TeamStanding → Int)
    (hfresh : ∀ t sr, f ⟨t, sr, 0, 0, 0, 0, 0, 0⟩ = 0)
    (hgoals : ∀ s x y, f { s with goals_for := x, goals_against := y } = f s) :
    stField (goalsPhase lookup m st) tid f = stField st tid f := by
  unfold goalsPhase
  simp only [List.foldl_cons, List.foldl_nil]
  rw [stField_goalsStep_keep _ _ _ _ _ _ hfresh hgoals,
    stField_goalsStep_keep _ _ _ _ _ _ hfresh hgoals]

/-- Effect of the goals loop on `goals_for`. -/
theorem gf_goalsPhase (lookup : List (Int × Team)) (m : Partido)
    (st : List (Int × TeamStanding)) (tid : Int) :
    stField (goalsPhase lookup m st) tid (fun s => s.goals_for) =
      stField st tid (fun s => s.goals_for) +
        ((if m.equipo_local_id = some tid then m.puntaje_local.getD 0 else 0) +
          (if m.equipo_visitante_id = some tid then m.puntaje_visitante.getD 0 else 0)) := by
  unfold goalsPhase
  simp only [List.foldl_cons, List.foldl_nil]
  rw [stField_goalsStep_gf, stField_goalsStep_gf]
  ring

/-- Effect of the goals loop on `goals_against`. -/
theorem ga_goalsPhase (lookup : List (Int × Team)) (m : Partido)
    (st : List (Int × TeamStanding)) (tid : Int) :
    stField (goalsPhase lookup m st) tid (fun s => s.goals_against) =
      stField st tid (fun s => s.goals_against) +
        ((if m.equipo_local_id = some tid then m.puntaje_visitante.getD 0 else 0) +
          (if m.equipo_visitante_id = some tid then m.puntaje_local.getD 0 else 0)) := by
  unfold goalsPhase
  simp only [List.foldl_cons, List.foldl_nil]
  rw [stField_goalsStep_ga, stField_goalsStep_ga]
  ring

/-- The outcome block keeps every accumulator that the result updates do not
touch and that is 0 on fresh entries (in particular the two goal columns). -/
theorem stField_outcomePhase_keep (lookup : List (Int × Team)) (m : Partido)
    (st : List (Int × TeamStanding)) (tid : Int) (f : TeamStanding → Int)
    (hfresh : ∀ t sr, f ⟨t, sr, 0, 0, 0, 0, 0, 0⟩ = 0)
    (hw : ∀ s x, f { s with wins := x } = f s)
    (hd : ∀ s x, f { s with draws := x } = f s)
    (hl : ∀ s x, f { s with losses := x } = f s)
    (hp : ∀ s x, f { s with points := x } = f s) :
    stField (outcomePhase lookup m st) tid f = stField st tid f := by
  unfold outcomePhase
  rcases m.equipo_local_id with _ | lid
  · rfl
  · rcases m.equipo_visitante_id with _ | vid
    · rfl
    · dsimp only
      rcases m.puntaje_local with _ | ls
      · rw [stField_ensureEntry _ _ _ _ _ _ hfresh, stField_ensureEntry _ _ _ _ _ _ hfresh]
      · rcases m.puntaje_visitante with _ | vs
        · rw [stField_ensureEntry _ _ _ _ _ _ hfresh, stField_ensureEntry _ _ _ _ _ _ hfresh]
        · dsimp only
          by_cases hcmp : ls = vs
          · rw [if_pos hcmp]
            rw [stField_dictUpdate_keep _ _ _ _ _ (fun s => hp s _),
              stField_dictUpdate_keep _ _ _ _ _ (fun s => hp s _),
              stField_dictUpdate_keep _ _ _ _ _ (fun s => hd s _),
              stField_dictUpdate_keep _ _ _ _ _ (fun s => hd s _),
              stField_ensureEntry _ _ _ _ _ _ hfresh, stField_ensureEntry _ _ _ _ _ _ hfresh]
          · rw [if_neg hcmp]
            by_cases hgt : ls > vs
            · rw [if_pos hgt]
              rw [stField_dictUpdate_keep _ _ _ _ _ (fun s => hp s _),
                stField_dictUpdate_keep _ _ _ _ _ (fun s => hl s _),
                stField_dictUpdate_keep _ _ _ _ _ (fun s => hw s _),
                stField_ensureEntry _ _ _ _ _ _ hfresh, stField_ensureEntry _ _ _ _ _ _ hfresh]
            · rw [if_neg hgt]
              rw [stField_dictUpdate_keep _ _ _ _ _ (fun s => hp s _),
                stField_dictUpdate_keep _ _ _ _ _ (fun s => hl s _),
                stField_dictUpdate_keep _ _ _ _ _ (fun s => hw s _),
                stField_ensureEntry _ _ _ _ _ _ hfresh, stField_ensureEntry _ _ _ _ _ _ hfresh]

/-- Auxiliary: `==` is false on provably distinct values. -/
theorem beq_false_of_ne [BEq κ] [LawfulBEq κ] {a b : κ} (h : a ≠ b) : (a == b) = false := by
  cases hx : a == b
  · rfl
  · exact absurd (eq_of_beq hx) h

/-- Incrementing draws keeps wins. -/
theorem stK_d_w (st : List (Int × TeamStanding)) (k tid : Int) :
    stField (dictUpdate st k (fun s => { s with draws := s.draws + 1 })) tid (fun s => s.wins) =
      stField st tid (fun s => s.wins) :=
  stField_dictUpdate_keep _ _ _ _ _ (fun s => rfl)

/-- Incrementing draws keeps losses. -/
theorem stK_d_l (st : List (Int × TeamStanding)) (k tid : Int) :
    stField (dictUpdate st k (fun s => { s with draws := s.draws + 1 })) tid (fun s => s.losses) =
      stField st tid (fun s => s.losses) :=
  stField_dictUpdate_keep _ _ _ _ _ (fun s => rfl)

/-- Incrementing draws keeps points. -/
theorem stK_d_p (st : List (Int × TeamStanding)) (k tid : Int) :
    stField (dictUpdate st k (fun s => { s with draws := s.draws + 1 })) tid (fun s => s.points) =
      stField st tid (fun s => s.points) :=
  stField_dictUpdate_keep _ _ _ _ _ (fun s => rfl)

/-- Incrementing draws shifts draws at the updated key. -/
theorem stS_d (st : List (Int × TeamStanding)) (k tid : Int)
    (hpres : (dictGet st k).isSome = true) :
    stField (dictUpdate st k (fun s => { s with draws := s.draws + 1 })) tid (fun s => s.draws) =
      stField st tid (fun s => s.draws) + (if tid = k then 1 else 0) :=
  stField_dictUpdate_shift _ _ _ _ _ 1 hpres (fun s => rfl)

/-- Adding one point keeps wins. -/
theorem stK_p1_w (st : List (Int × TeamStanding)) (k tid : Int) :
    stField (dictUpdate st k (fun s => { s with points := s.points + 1 })) tid (fun s => s.wins) =
      stField st tid (fun s => s.wins) :=
  stField_dictUpdate_keep _ _ _ _ _ (fun s => rfl)

/-- Adding one point keeps draws. -/
theorem stK_p1_d (st : List (Int × TeamStanding)) (k tid : Int) :
    stField (dictUpdate st k (fun s => { s with points := s.points + 1 })) tid (fun s => s.draws) =
      stField st tid (fun s => s.draws) :=
  stField_dictUpdate_keep _ _ _ _ _ (fun s => rfl)

/-- Adding one point keeps losses. -/
theorem stK_p1_l (st : List (Int × TeamStanding)) (k tid : Int) :
    stField (dictUpdate st k (fun s => { s with points := s.points + 1 })) tid (fun s => s.losses) =
      stField st tid (fun s => s.losses) :=
  stField_dictUpdate_keep _ _ _ _ _ (fun s => rfl)

/-- Adding one point shifts points at the updated key. -/
theorem stS_p1 (st : List (Int × TeamStanding)) (k tid : Int)
    (hpres : (dictGet st k).isSome = true) :
    stField (dictUpdate st k (fun s => { s with points := s.points + 1 })) tid (fun s => s.points) =
      stField st tid (fun s => s.points) + (if tid = k then 1 else 0) :=
  stField_dictUpdate_shift _ _ _ _ _ 1 hpres (fun s => rfl)

/-- Incrementing wins keeps draws. -/
theorem stK_w_d (st : List (Int × TeamStanding)) (k tid : Int) :
    stField (dictUpdate st k (fun s => { s with wins := s.wins + 1 })) tid (fun s => s.draws) =
      stField st tid (fun s => s.draws) :=
  stField_dictUpdate_keep _ _ _ _ _ (fun s => rfl)

/-- Incrementing wins keeps losses. -/
theorem stK_w_l (st : List (Int × TeamStanding)) (k tid : Int) :
    stField (dictUpdate st k (fun s => { s with wins := s.wins + 1 })) tid (fun s => s.losses) =
      stField st tid (fun s => s.losses) :=
  stField_dictUpdate_keep _ _ _ _ _ (fun s => rfl)

/-- Incrementing wins keeps points. -/
theorem stK_w_p (st : List (Int × TeamStanding)) (k tid : Int) :
    stField (dictUpdate st k (fun s => { s with wins := s.wins + 1 })) tid (fun s => s.points) =
      stField st tid (fun s => s.points) :=
  stField_dictUpdate_keep _ _ _ _ _ (fun s => rfl)

/-- Incrementing wins shifts wins at the updated key. -/
theorem stS_w (st : List (Int × TeamStanding)) (k tid : Int)
    (hpres : (dictGet st k).isSome = true) :
    stField (dictUpdate st k (fun s => { s with wins := s.wins + 1 })) tid (fun s => s.wins) =
      stField st tid (fun s => s.wins) + (if tid = k then 1 else 0) :=
  stField_dictUpdate_shift _ _ _ _ _ 1 hpres (fun s => rfl)

/-- Incrementing losses keeps wins. -/
theorem stK_l_w (st : List (Int × TeamStanding)) (k tid : Int) :
    stField (dictUpdate st k (fun s => { s with losses := s.losses + 1 })) tid (fun s => s.wins) =
      stField st tid (fun s => s.wins) :=
  stField_dictUpdate_keep _ _ _ _ _ (fun s => rfl)

/-- Incrementing losses keeps draws. -/
theorem stK_l_d (st : List (Int × TeamStanding)) (k tid : Int) :
    stField (dictUpdate st k (fun s => { s with losses := s.losses + 1 })) tid (fun s => s.draws) =
      stField st tid (fun s => s.draws) :=
  stField_dictUpdate_keep _ _ _ _ _ (fun s => rfl)

/-- Incrementing losses keeps points. -/
theorem stK_l_p (st : List (Int × TeamStanding)) (k tid : Int) :
    stField (dictUpdate st k (fun s => { s with losses := s.losses + 1 })) tid (fun s => s.points) =
      stField st tid (fun s => s.points) :=
  stField_dictUpdate_keep _ _ _ _ _ (fun s => rfl)

/-- Incrementing losses shifts losses at the updated key. -/
theorem stS_l (st : List (Int × TeamStanding)) (k tid : Int)
    (hpres : (dictGet st k).isSome = true) :
    stField (dictUpdate st k (fun s => { s with losses := s.losses + 1 })) tid (fun s => s.losses) =
      stField st tid (fun s => s.losses) + (if tid = k then 1 else 0) :=
  stField_dictUpdate_shift _ _ _ _ _ 1 hpres (fun s => rfl)

/-- Adding three points keeps wins. -/
theorem stK_p3_w (st : List (Int × TeamStanding)) (k tid : Int) :
    stField (dictUpdate st k (fun s => { s with points := s.points + 3 })) tid (fun s => s.wins) =
      stField st tid (fun s => s.wins) :=
  stField_dictUpdate_keep _ _ _ _ _ (fun s => rfl)

/-- Adding three points keeps draws. -/
theorem stK_p3_d (st : List (Int × TeamStanding)) (k tid : Int) :
    stField (dictUpdate st k (fun s => { s with points := s.points + 3 })) tid (fun s => s.draws) =
      stField st tid (fun s => s.draws) :=
  stField_dictUpdate_keep _ _ _ _ _ (fun s => rfl)

/-- Adding three points keeps losses. -/
theorem stK_p3_l (st : List (Int × TeamStanding)) (k tid : Int) :
    stField (dictUpdate st k (fun s => { s with points := s.points + 3 })) tid (fun s => s.losses) =
      stField st tid (fun s => s.losses) :=
  stField_dictUpdate_keep _ _ _ _ _ (fun s => rfl)

/-- Adding three points shifts points at the updated key. -/
theorem stS_p3 (st : List (Int × TeamStanding)) (k tid : Int)
    (hpres : (dictGet st k).isSome = true) :
    stField (dictUpdate st k (fun s => { s with points := s.points + 3 })) tid (fun s => s.points) =
      stField st tid (fun s => s.points) + (if tid = k then 3 else 0) :=
  stField_dictUpdate_shift _ _ _ _ _ 3 hpres (fun s => rfl)

/-- `ensureEntry` keeps wins. -/
theorem stE_w (lookup : List (Int × Team)) (serie : Option String)
    (st : List (Int × TeamStanding)) (tid tid2 : Int) :
    stField (ensureEntry lookup serie st tid) tid2 (fun s => s.wins) =
      stField st tid2 (fun s => s.wins) :=
  stField_ensureEntry _ _ _ _ _ _ (fun t sr => rfl)

/-- `ensureEntry` keeps draws. -/
theorem stE_d (lookup : List (Int × Team)) (serie : Option String)
    (st : List (Int × TeamStanding)) (tid tid2 : Int) :
    stField (ensureEntry lookup serie st tid) tid2 (fun s => s.draws) =
      stField st tid2 (fun s => s.draws) :=
  stField_ensureEntry _ _ _ _ _ _ (fun t sr => rfl)

/-- `ensureEntry` keeps losses. -/
theorem stE_l (lookup : List (Int × Team)) (serie : Option String)
    (st : List (Int × TeamStanding)) (tid tid2 : Int) :
    stField (ensureEntry lookup serie st tid) tid2 (fun s => s.losses) =
      stField st tid2 (fun s => s.losses) :=
  stField_ensureEntry _ _ _ _ _ _ (fun t sr => rfl)

/-- `ensureEntry` keeps points. -/
theorem stE_p (lookup : List (Int × Team)) (serie : Option String)
    (st : List (Int × TeamStanding)) (tid tid2 : Int) :
    stField (ensureEntry lookup serie st tid) tid2 (fun s => s.points) =
      stField st tid2 (fun s => s.points) :=
  stField_ensureEntry _ _ _ _ _ _ (fun t sr => rfl)

/-- Effect of the outcome block on the four result counters when both team
ids and both scores are recorded. -/
theorem stField_outcomePhase_resolved (lookup : List (Int × Team)) (m : Partido)
    (st : List (Int × TeamStanding)) (tid lid vid ls vs : Int)
    (hlid : m.equipo_local_id = some lid) (hvid : m.equipo_visitante_id = some vid)
    (hpl : m.puntaje_local = some ls) (hpv : m.puntaje_visitante = some vs) :
    stField (outcomePhase lookup m st) tid (fun s => s.wins) =
      stField st tid (fun s => s.wins) +
        ((if lid = tid ∧ vs < ls then 1 else 0) + (if vid = tid ∧ ls < vs then 1 else 0)) ∧
    stField (outcomePhase lookup m st) tid (fun s => s.draws) =
      stField st tid (fun s => s.draws) +
        (if ls = vs then (if lid = tid then 1 else 0) + (if vid = tid then 1 else 0) else 0) ∧
    stField (outcomePhase lookup m st) tid (fun s => s.losses) =
      stField st tid (fun s => s.losses) +
        ((if lid = tid ∧ ls < vs then 1 else 0) + (if vid = tid ∧ vs < ls then 1 else 0)) ∧
    stField (outcomePhase lookup m st) tid (fun s => s.points) =
      stField st tid (fun s => s.points) +
        (3 * ((if lid = tid ∧ vs < ls then 1 else 0) + (if vid = tid ∧ ls < vs then 1 else 0)) +
          (if ls = vs then (if lid = tid then 1 else 0) + (if vid = tid then 1 else 0) else 0)) := by
  unfold outcomePhase
  rw [hlid, hvid, hpl, hpv]
  dsimp only
  have hp1 : (dictGet (ensureEntry lookup m.serie (ensureEntry lookup m.serie st lid) vid)
      lid).isSome = true :=
    isSome_ensureEntry_mono _ _ _ _ _ (isSome_ensureEntry_self _ _ _ _)
  have hp2 : (dictGet (ensureEntry lookup m.serie (ensureEntry lookup m.serie st lid) vid)
      vid).isSome = true :=
    isSome_ensureEntry_self _ _ _ _
  by_cases hcmp : ls = vs
  · rw [if_pos hcmp]
    refine ⟨?_, ?_, ?_, ?_⟩
    · rw [stK_p1_w, stK_p1_w, stK_d_w, stK_d_w, stE_w, stE_w]
      split_ifs <;> omega
    · rw [stK_p1_d, stK_p1_d,
        stS_d _ _ _ (by rw [isSome_dictUpdate]; exact hp2),
        stS_d _ _ _ hp1, stE_d, stE_d]
      split_ifs <;> omega
    · rw [stK_p1_l, stK_p1_l, stK_d_l, stK_d_l, stE_l, stE_l]
      split_ifs <;> omega
    · rw [stS_p1 _ _ _
          (by rw [isSome_dictUpdate, isSome_dictUpdate, isSome_dictUpdate]; exact hp2),
        stS_p1 _ _ _ (by rw [isSome_dictUpdate, isSome_dictUpdate]; exact hp1),
        stK_d_p, stK_d_p, stE_p, stE_p]
      split_ifs <;> omega
  · rw [if_neg hcmp]
    by_cases hgt : ls > vs
    · rw [if_pos hgt]
      refine ⟨?_, ?_, ?_, ?_⟩
      · rw [stK_p3_w, stK_l_w, stS_w _ _ _ hp1, stE_w, stE_w]
        split_ifs <;> omega
      · rw [stK_p3_d, stK_l_d, stK_w_d, stE_d, stE_d]
        split_ifs <;> omega
      · rw [stK_p3_l, stS_l _ _ _ (by rw [isSome_dictUpdate]; exact hp2),
          stK_w_l, stE_l, stE_l]
        split_ifs <;> omega
      · rw [stS_p3 _ _ _ (by rw [isSome_dictUpdate, isSome_dictUpdate]; exact hp1),
          stK_l_p, stK_w_p, stE_p, stE_p]
        split_ifs <;> omega
    · rw [if_neg hgt]
      have hlt : ls < vs := lt_of_le_of_ne (not_lt.mp hgt) hcmp
      refine ⟨?_, ?_, ?_, ?_⟩
      · rw [stK_p3_w, stK_l_w, stS_w _ _ _ hp2, stE_w, stE_w]
        split_ifs <;> omega
      · rw [stK_p3_d, stK_l_d, stK_w_d, stE_d, stE_d]
        split_ifs <;> omega
      · rw [stK_p3_l, stS_l _ _ _ (by rw [isSome_dictUpdate]; exact hp1),
          stK_w_l, stE_l, stE_l]
        split_ifs <;> omega
      · rw [stS_p3 _ _ _ (by rw [isSome_dictUpdate, isSome_dictUpdate]; exact hp2),
          stK_l_p, stK_w_p, stE_p, stE_p]
        split_ifs <;> omega

/-- The outcome block keeps `goals_for`. -/
theorem stOK_gf (lookup : List (Int × Team)) (m : Partido)
    (st : List (Int × TeamStanding)) (tid : Int) :
    stField (outcomePhase lookup m st) tid (fun s => s.goals_for) =
      stField st tid (fun s => s.goals_for) :=
  stField_outcomePhase_keep _ _ _ _ _ (fun t sr => rfl) (fun s x => rfl) (fun s x => rfl)
    (fun s x => rfl) (fun s x => rfl)

/-- The outcome block keeps `goals_against`. -/
theorem stOK_ga (lookup : List (Int × Team)) (m : Partido)
    (st : List (Int × TeamStanding)) (tid : Int) :
    stField (outcomePhase lookup m st) tid (fun s => s.goals_against) =
      stField st tid (fun s => s.goals_against) :=
  stField_outcomePhase_keep _ _ _ _ _ (fun t sr => rfl) (fun s x => rfl) (fun s x => rfl)
    (fun s x => rfl) (fun s x => rfl)

/-- Step lemma: one `process_match` shifts the two goal columns by the
reference goal contributions. -/
theorem stField_process_goals (lookup : List (Int × Team)) (st : List (Int × TeamStanding))
    (m : Partido) (tid : Int) :
    stField (process_match lookup st m) tid (fun s => s.goals_for) =
      stField st tid (fun s => s.goals_for) + goalsForContrib tid m ∧
    stField (process_match lookup st m) tid (fun s => s.goals_against) =
      stField st tid (fun s => s.goals_against) + goalsAgainstContrib tid m := by
  unfold process_match
  by_cases hg : (strLower (m.fase.getD "")) = "group"
  case neg =>
    have hgm : isGroupMatch m = false := beq_false_of_ne hg
    rw [if_pos hg]
    unfold goalsForContrib goalsAgainstContrib
    rw [hgm]
    simp
  case pos =>
    have hgm : isGroupMatch m = true := beq_iff_eq.mpr hg
    rw [if_neg (not_not_intro hg)]
    have hfor : ∀ st2, stField (goalsPhase lookup m st2) tid (fun s => s.goals_for) =
        stField st2 tid (fun s => s.goals_for) + goalsForContrib tid m := by
      intro st2
      rw [gf_goalsPhase]
      unfold goalsForContrib
      rw [hgm]
      simp
    have hagainst : ∀ st2, stField (goalsPhase lookup m st2) tid (fun s => s.goals_against) =
        stField st2 tid (fun s => s.goals_against) + goalsAgainstContrib tid m := by
      intro st2
      rw [ga_goalsPhase]
      unfold goalsAgainstContrib
      rw [hgm]
      simp
    by_cases he : (strLower (m.estado.getD "")) = "finalizado"
    case neg =>
      rw [if_pos he]
      exact ⟨hfor st, hagainst st⟩
    case pos =>
      rw [if_neg (not_not_intro he)]
      constructor
      · rw [stOK_gf]
        exact hfor st
      · rw [stOK_ga]
        exact hagainst st

/-- Step lemma: one `process_match` shifts the four result counters by the
reference win/draw/loss/points contributions. -/
theorem stField_process_results (lookup : List (Int × Team)) (st : List (Int × TeamStanding))
    (m : Partido) (tid : Int) :
    stField (process_match lookup st m) tid (fun s => s.wins) =
      stField st tid (fun s => s.wins) + winContrib tid m ∧
    stField (process_match lookup st m) tid (fun s => s.draws) =
      stField st tid (fun s => s.draws) + drawContrib tid m ∧
    stField (process_match lookup st m) tid (fun s => s.losses) =
      stField st tid (fun s => s.losses) + lossContrib tid m ∧
    stField (process_match lookup st m) tid (fun s => s.points) =
      stField st tid (fun s => s.points) + pointsContrib tid m := by
  have hkeepW : ∀ st2, stField (goalsPhase lookup m st2) tid (fun s => s.wins) =
      stField st2 tid (fun s => s.wins) :=
    fun st2 => counters_goalsPhase _ _ _ _ _ (fun t sr => rfl) (fun s x y => rfl)
  have hkeepD : ∀ st2, stField (goalsPhase lookup m st2) tid (fun s => s.draws) =
      stField st2 tid (fun s => s.draws) :=
    fun st2 => counters_goalsPhase _ _ _ _ _ (fun t sr => rfl) (fun s x y => rfl)
  have hkeepL : ∀ st2, stField (goalsPhase lookup m st2) tid (fun s => s.losses) =
      stField st2 tid (fun s => s.losses) :=
    fun st2 => counters_goalsPhase _ _ _ _ _ (fun t sr => rfl) (fun s x y => rfl)
  have hkeepP : ∀ st2, stField (goalsPhase lookup m st2) tid (fun s => s.points) =
      stField st2 tid (fun s => s.points) :=
    fun st2 => counters_goalsPhase _ _ _ _ _ (fun t sr => rfl) (fun s x y => rfl)
  unfold process_match
  by_cases hg : (strLower (m.fase.getD "")) = "group"
  case neg =>
    have hgm : isGroupMatch m = false := beq_false_of_ne hg
    have hrr : resultReady m = false := by
      unfold resultReady
      rw [hgm]
      simp
    rw [if_pos hg]
    unfold winContrib drawContrib lossContrib pointsContrib winContrib drawContrib
    rw [hrr]
    simp
  case pos =>
    have hgm : isGroupMatch m = true := beq_iff_eq.mpr hg
    rw [if_neg (not_not_intro hg)]
    by_cases he : (strLower (m.estado.getD "")) = "finalizado"
    case neg =>
      have hfm : isFinalizado m = false := beq_false_of_ne he
      have hrr : resultReady m = false := by
        unfold resultReady
        rw [hfm]
        simp
      rw [if_pos he]
      unfold winContrib drawContrib lossContrib pointsContrib winContrib drawContrib
      rw [hrr]
      simp [hkeepW st, hkeepD st, hkeepL st, hkeepP st]
    case pos =>
      have hfm : isFinalizado m = true := beq_iff_eq.mpr he
      rw [if_neg (not_not_intro he)]
      rcases hlid : m.equipo_local_id with _ | lid
      · have hrr : resultReady m = false := by
          unfold resultReady
          rw [hlid]
          simp
        have houtcome : outcomePhase lookup m (goalsPhase lookup m st) =
            goalsPhase lookup m st := by
          unfold outcomePhase
          rw [hlid]
        rw [houtcome]
        unfold winContrib drawContrib lossContrib pointsContrib winContrib drawContrib
        rw [hrr]
        simp [hkeepW st, hkeepD st, hkeepL st, hkeepP st]
      · rcases hvid : m.equipo_visitante_id with _ | vid
        · have hrr : resultReady m = false := by
            unfold resultReady
            rw [hvid]
            simp
          have houtcome : outcomePhase lookup m (goalsPhase lookup m st) =
              goalsPhase lookup m st := by
            unfold outcomePhase
            rw [hlid, hvid]
          rw [houtcome]
          unfold winContrib drawContrib lossContrib pointsContrib winContrib drawContrib
          rw [hrr]
          simp [hkeepW st, hkeepD st, hkeepL st, hkeepP st]
        · rcases hpl : m.puntaje_local with _ | ls
          · have hrr : resultReady m = false := by
              unfold resultReady
              rw [hpl]
              simp
            have houtcome : outcomePhase lookup m (goalsPhase lookup m st) =
                ensureEntry lookup m.serie
                  (ensureEntry lookup m.serie (goalsPhase lookup m st) lid) vid := by
              unfold outcomePhase
              rw [hlid, hvid, hpl]
            rw [houtcome]
            unfold winContrib drawContrib lossContrib pointsContrib winContrib drawContrib
            rw [hrr]
            simp [stE_w, stE_d, stE_l, stE_p,
              hkeepW st, hkeepD st, hkeepL st, hkeepP st]
          · rcases hpv : m.puntaje_visitante with _ | vs
            · have hrr : resultReady m = false := by
                unfold resultReady
                rw [hpv]
                simp
              have houtcome : outcomePhase lookup m (goalsPhase lookup m st) =
                  ensureEntry lookup m.serie
                    (ensureEntry lookup m.serie (goalsPhase lookup m st) lid) vid := by
                unfold outcomePhase
                rw [hlid, hvid, hpl, hpv]
              rw [houtcome]
              unfold winContrib drawContrib lossContrib pointsContrib winContrib drawContrib
              rw [hrr]
              simp [stE_w, stE_d, stE_l, stE_p,
                hkeepW st, hkeepD st, hkeepL st, hkeepP st]
            · have hrr : resultReady m = true := by
                unfold resultReady
                rw [hgm, hfm, hlid, hvid, hpl, hpv]
                rfl
              obtain ⟨hW, hD, hL, hP⟩ :=
                stField_outcomePhase_resolved lookup m (goalsPhase lookup m st) tid lid vid
                  ls vs hlid hvid hpl hpv
              refine ⟨?_, ?_, ?_, ?_⟩
              · rw [hW, hkeepW st]
                unfold winContrib
                rw [hrr, hlid, hvid, hpl, hpv]
                simp only [Option.getD_some, Option.some.injEq, if_true]
              · rw [hD, hkeepD st]
                unfold drawContrib
                rw [hrr, hlid, hvid, hpl, hpv]
                simp only [Option.getD_some, Option.some.injEq, true_and, if_true]
              · rw [hL, hkeepL st]
                unfold lossContrib
                rw [hrr, hlid, hvid, hpl, hpv]
                simp only [Option.getD_some, Option.some.injEq, if_true]
              · rw [hP, hkeepP st]
                unfold pointsContrib winContrib drawContrib
                rw [hrr, hlid, hvid, hpl, hpv]
                simp only [Option.getD_some, Option.some.injEq, true_and, if_true]

/-- Folding `process_match` over a match list accumulates the per-match
contributions of any accumulator having a step lemma. -/
theorem stField_foldl_process (lookup : List (Int × Team)) (f : TeamStanding → Int)
    (contrib : Int → Partido → Int)
    (hstep : ∀ st m tid, stField (process_match lookup st m) tid f =
      stField st tid f + contrib tid m) :
    ∀ (ms : List Partido) (st : List (Int × TeamStanding)) (tid : Int),
      stField (ms.foldl (process_match lookup) st) tid f =
        stField st tid f + (ms.map (contrib tid)).sum := by
  intro ms
  induction ms with
  | nil => intro st tid; simp
  | cons m rest ih =>
    intro st tid
    simp only [List.foldl_cons, List.map_cons, List.sum_cons]
    rw [ih, hstep]
    ring

/-- The standings accumulator of `compute_group_standings` computes, for
every team id, exactly the spec-side sums of the per-match contributions. -/
theorem standingsState_spec (ms : List Partido) (lookup : List (Int × Team)) (tid : Int) :
    stField (standingsState ms lookup) tid (fun s => s.wins) =
      (ms.map (winContrib tid)).sum ∧
    stField (standingsState ms lookup) tid (fun s => s.draws) =
      (ms.map (drawContrib tid)).sum ∧
    stField (standingsState ms lookup) tid (fun s => s.losses) =
      (ms.map (lossContrib tid)).sum ∧
    stField (standingsState ms lookup) tid (fun s => s.points) =
      (ms.map (pointsContrib tid)).sum ∧
    stField (standingsState ms lookup) tid (fun s => s.goals_for) =
      (ms.map (goalsForContrib tid)).sum ∧
    stField (standingsState ms lookup) tid (fun s => s.goals_against) =
      (ms.map (goalsAgainstContrib tid)).sum := by
  unfold standingsState
  refine ⟨?_, ?_, ?_, ?_, ?_, ?_⟩
  · rw [stField_foldl_process lookup _ _
      (fun st m t => (stField_process_results lookup st m t).1) ms [] tid]
    simp [stField, dictGet]
  · rw [stField_foldl_process lookup _ _
      (fun st m t => (stField_process_results lookup st m t).2.1) ms [] tid]
    simp [stField, dictGet]
  · rw [stField_foldl_process lookup _ _
      (fun st m t => (stField_process_results lookup st m t).2.2.1) ms [] tid]
    simp [stField, dictGet]
  · rw [stField_foldl_process lookup _ _
      (fun st m t => (stField_process_results lookup st m t).2.2.2) ms [] tid]
    simp [stField, dictGet]
  · rw [stField_foldl_process lookup _ _
      (fun st m t => (stField_process_goals lookup st m t).1) ms [] tid]
    simp [stField, dictGet]
  · rw [stField_foldl_process lookup _ _
      (fun st m t => (stField_process_goals lookup st m t).2) ms [] tid]
    simp [stField, dictGet]

/-- `dictUpdate` preserves key distinctness. -/
theorem keysNodup_dictUpdate [BEq κ] (st : List (κ × α)) (k : κ) (f : α → α)
    (h : KeysNodup st) : KeysNodup (dictUpdate st k f) := by
  unfold KeysNodup
  rw [dictKeys_dictUpdate]
  exact h

/-- `ensureEntry` preserves key distinctness. -/
theorem keysNodup_ensureEntry (lookup : List (Int × Team)) (serie : Option String)
    (st : List (Int × TeamStanding)) (tid : Int)
    (h : KeysNodup st) : KeysNodup (ensureEntry lookup serie st tid) := by
  unfold ensureEntry
  cases dictGet st tid
  · exact keysNodup_dictSet _ _ _ h
  · exact h

/-- `goalsStep` preserves key distinctness. -/
theorem keysNodup_goalsStep (lookup : List (Int × Team)) (serie : Option String)
    (st : List (Int × TeamStanding)) (pair : Option Int × Option Int × Option Int)
    (h : KeysNodup st) : KeysNodup (goalsStep lookup serie st pair) := by
  unfold goalsStep
  cases pair.1
  · exact h
  · exact keysNodup_dictUpdate _ _ _ (keysNodup_ensureEntry _ _ _ _ h)

/-- The goals loop preserves key distinctness. -/
theorem keysNodup_goalsPhase (lookup : List (Int × Team)) (m : Partido)
    (st : List (Int × TeamStanding)) (h : KeysNodup st) :
    KeysNodup (goalsPhase lookup m st) := by
  unfold goalsPhase
  simp only [List.foldl_cons, List.foldl_nil]
  exact keysNodup_goalsStep _ _ _ _ (keysNodup_goalsStep _ _ _ _ h)

/-- The outcome block preserves key distinctness. -/
theorem keysNodup_outcomePhase (lookup : List (Int × Team)) (m : Partido)
    (st : List (Int × TeamStanding)) (h : KeysNodup st) :
    KeysNodup (outcomePhase lookup m st) := by
  unfold outcomePhase
  rcases m.equipo_local_id with _ | lid
  · exact h
  · rcases m.equipo_visitante_id with _ | vid
    · exact h
    · dsimp only
      have h2 : KeysNodup (ensureEntry lookup m.serie
          (ensureEntry lookup m.serie st lid) vid) :=
        keysNodup_ensureEntry _ _ _ _ (keysNodup_ensureEntry _ _ _ _ h)
      rcases m.puntaje_local with _ | ls
      · exact h2
      · rcases m.puntaje_visitante with _ | vs
        · exact h2
        · dsimp only
          by_cases hcmp : ls = vs
          · rw [if_pos hcmp]
            exact keysNodup_dictUpdate _ _ _ (keysNodup_dictUpdate _ _ _
              (keysNodup_dictUpdate _ _ _ (keysNodup_dictUpdate _ _ _ h2)))
          · rw [if_neg hcmp]
            by_cases hgt : ls > vs
            · rw [if_pos hgt]
              exact keysNodup_dictUpdate _ _ _ (keysNodup_dictUpdate _ _ _
                (keysNodup_dictUpdate _ _ _ h2))
            · rw [if_neg hgt]
              exact keysNodup_dictUpdate _ _ _ (keysNodup_dictUpdate _ _ _
                (keysNodup_dictUpdate _ _ _ h2))

/-- `process_match` preserves key distinctness. -/
theorem keysNodup_process_match (lookup : List (Int × Team))
    (st : List (Int × TeamStanding)) (m : Partido) (h : KeysNodup st) :
    KeysNodup (process_match lookup st m) := by
  unfold process_match
  by_cases hg : (strLower (m.fase.getD "")) ≠ "group"
  · rw [if_pos hg]; exact h
  · rw [if_neg hg]
    by_cases he : (strLower (m.estado.getD "")) ≠ "finalizado"
    · rw [if_pos he]
      exact keysNodup_goalsPhase _ _ _ h
    · rw [if_neg he]
      exact keysNodup_outcomePhase _ _ _ (keysNodup_goalsPhase _ _ _ h)

/-- The standings accumulator always has pairwise distinct team-id keys. -/
theorem keysNodup_standingsState (ms : List Partido) (lookup : List (Int × Team)) :
    KeysNodup (standingsState ms lookup) := by
  unfold standingsState
  have : ∀ (l : List Partido) (st : List (Int × TeamStanding)), KeysNodup st →
      KeysNodup (l.foldl (process_match lookup) st) := by
    intro l
    induction l with
    | nil => intro st h; exact h
    | cons m rest ih =>
      intro st h
      simp only [List.foldl_cons]
      exact ih _ (keysNodup_process_match _ _ _ h)
  exact this ms [] (by simp [KeysNodup, dictKeys])

/-- Every standing in the grouped-and-sorted output originates from the
standings accumulator. -/
theorem mem_compute_group_standings (ms : List Partido) (lookup : List (Int × Team)) :
    ∀ pr ∈ compute_group_standings ms lookup, ∀ s ∈ pr.2,
      ∃ p ∈ standingsState ms lookup, p.2 = s := by
  have hfold : ∀ (P : TeamStanding → Prop) (entries : List (Int × TeamStanding))
      (acc : List (String × List TeamStanding)),
      (∀ pr ∈ acc, ∀ s ∈ pr.2, P s) → (∀ p ∈ entries, P p.2) →
      ∀ pr ∈ entries.foldl (fun acc p =>
          let label := serieLabel p.2.serie
          match dictGet acc label with
          | some l => dictSet acc label (l ++ [p.2])
          | none => dictSet acc label [p.2]) acc, ∀ s ∈ pr.2, P s := by
    intro P entries
    induction entries with
    | nil => intro acc hacc _ pr hpr s hs; exact hacc pr hpr s hs
    | cons p rest ih =>
      intro acc hacc hentries
      simp only [List.foldl_cons]
      apply ih
      · intro pr hpr s hs
        have hmem := hpr
        rcases hcase : dictGet acc (serieLabel p.2.serie) with _ | l
        · rw [hcase] at hmem
          rcases mem_dictSet _ _ _ pr hmem with hin | hnew
          · exact hacc pr hin s hs
          · rw [hnew] at hs
            simp only at hs
            rcases List.mem_singleton.mp hs with h
            rw [h]
            exact hentries p (List.mem_cons_self _ _)
        · rw [hcase] at hmem
          rcases mem_dictSet _ _ _ pr hmem with hin | hnew
          · exact hacc pr hin s hs
          · rw [hnew] at hs
            simp only at hs
            rcases List.mem_append.mp hs with h | h
            · exact hacc _ (dictGet_mem hcase) s h
            · rw [List.mem_singleton.mp h]
              exact hentries p (List.mem_cons_self _ _)
      · intro q hq
        exact hentries q (List.mem_cons_of_mem _ hq)
  intro pr hpr s hs
  unfold compute_group_standings at hpr
  simp only [List.mem_map] at hpr
  obtain ⟨q, hq, hqep⟩ := hpr
  rw [← hqep] at hs
  simp only at hs
  have hs2 := (mem_stableSort _standing_sort_le q.2 s).mp hs
  exact hfold (fun s => ∃ p ∈ standingsState ms lookup, p.2 = s)
    (standingsState ms lookup) [] (by intro pr h; cases h)
    (fun p hp => ⟨p, hp, rfl⟩) q hq s hs2

/-- Per-match win contribution is non-negative. -/
theorem winContrib_nonneg (tid : Int) (m : Partido) : 0 ≤ winContrib tid m := by
  unfold winContrib
  split_ifs <;> omega

/-- Per-match draw contribution is non-negative. -/
theorem drawContrib_nonneg (tid : Int) (m : Partido) : 0 ≤ drawContrib tid m := by
  unfold drawContrib
  split_ifs <;> omega

/-- Per-match loss contribution is non-negative. -/
theorem lossContrib_nonneg (tid : Int) (m : Partido) : 0 ≤ lossContrib tid m := by
  unfold lossContrib
  split_ifs <;> omega

/-- Splitting a mapped sum of the shape `3 * w + d`. -/
theorem sum_map_three_mul_add (ms : List Partido) (w d : Partido → Int) :
    (ms.map (fun m => 3 * w m + d m)).sum = 3 * (ms.map w).sum + (ms.map d).sum := by
  induction ms with
  | nil => simp
  | cons m rest ih =>
    simp only [List.map_cons, List.sum_cons, ih]
    ring

/-- The concrete finalized 2-1 match of the C7 scenario. -/
def c7_match : Partido :=
  ⟨some "group", some "Serie A", some 1, some 2, some 2, some 1, some "finalizado",
    none, some 1, none, none, none⟩

/-- The team lookup of the C7 scenario. -/
def c7_lookup : List (Int × Team) :=
  [(1, ⟨some 1, "Alpha"⟩), (2, ⟨some 2, "Beta"⟩)]

/-- C7: the concrete 2-team series with one finalized 2-1 group match yields
3 pts/1 win/0 draws/0 losses and goal difference +1 for the winner and
0 pts/0/0/1 and -1 for the loser; and in general the win/draw/loss/points
accumulators of `compute_group_standings` equal the spec-side sums that
count only finalized group matches (win = 3 points, draw = 1 each,
loss = 0). -/
theorem c7_compute_group_standings :
    (compute_group_standings [c7_match] c7_lookup =
      [("Serie A",
        [⟨⟨some 1, "Alpha"⟩, some "Serie A", 3, 2, 1, 1, 0, 0⟩,
         ⟨⟨some 2, "Beta"⟩, some "Serie A", 0, 1, 2, 0, 0, 1⟩])]) ∧
    (⟨⟨some 1, "Alpha"⟩, some "Serie A", 3, 2, 1, 1, 0, 0⟩ : TeamStanding).goal_diff = 1 ∧
    (⟨⟨some 2, "Beta"⟩, some "Serie A", 0, 1, 2, 0, 0, 1⟩ : TeamStanding).goal_diff = -1 ∧
    (∀ (ms : List Partido) (lookup : List (Int × Team)) (tid : Int),
      stField (standingsState ms lookup) tid (fun s => s.wins) =
        (ms.map (winContrib tid)).sum ∧
      stField (standingsState ms lookup) tid (fun s => s.draws) =
        (ms.map (drawContrib tid)).sum ∧
      stField (standingsState ms lookup) tid (fun s => s.losses) =
        (ms.map (lossContrib tid)).sum ∧
      stField (standingsState ms lookup) tid (fun s => s.points) =
        3 * (ms.map (winContrib tid)).sum + (ms.map (drawContrib tid)).sum) := by
  refine ⟨by decide, by decide, by decide, ?_⟩
  intro ms lookup tid
  obtain ⟨hw, hd, hl, hp, _, _⟩ := standingsState_spec ms lookup tid
  refine ⟨hw, hd, hl, ?_⟩
  rw [hp]
  have : ms.map (pointsContrib tid) =
      ms.map (fun m => 3 * winContrib tid m + drawContrib tid m) := rfl
  rw [this, sum_map_three_mul_add]

/-- A group match with a negative recorded score (nothing in
`compute_group_standings` restricts score signs). -/
def c10_cex_match : Partido :=
  ⟨some "group", some "Serie A", some 1, some 2, some (-1), some 0, some "programado",
    none, none, none, none, none⟩

/-- Counterexample for C10 as stated: on an input with a negative recorded
score, the output contains a standing with negative `goals_for`, so the
non-negativity part of the claim fails for unrestricted inputs. -/
theorem c10_counterexample :
    ∃ pr ∈ compute_group_standings [c10_cex_match] [], ∃ s ∈ pr.2, s.goals_for < 0 := by
  decide

/-- C10 (amended): for every input, every output standing satisfies
`points = 3 * wins + draws` with non-negative `wins`, `draws`, `losses`;
and when all recorded scores are non-negative (which the result-registration
schema `MatchResultPayload` enforces with `ge=0`), `goals_for` and
`goals_against` are non-negative as well. -/
theorem c10_standings_invariants (ms : List Partido) (lookup : List (Int × Team)) :
    (∀ pr ∈ compute_group_standings ms lookup, ∀ s ∈ pr.2,
      s.points = 3 * s.wins + s.draws ∧ 0 ≤ s.wins ∧ 0 ≤ s.draws ∧ 0 ≤ s.losses) ∧
    ((∀ m ∈ ms, 0 ≤ m.puntaje_local.getD 0 ∧ 0 ≤ m.puntaje_visitante.getD 0) →
      ∀ pr ∈ compute_group_standings ms lookup, ∀ s ∈ pr.2,
        0 ≤ s.goals_for ∧ 0 ≤ s.goals_against) := by
  constructor
  · intro pr hpr s hs
    obtain ⟨p, hp, hps⟩ := mem_compute_group_standings ms lookup pr hpr s hs
    have hget := dictGet_of_mem_nodup (keysNodup_standingsState ms lookup) hp
    have hfld : ∀ f : TeamStanding → Int, stField (standingsState ms lookup) p.1 f = f p.2 := by
      intro f
      unfold stField
      rw [hget]
    obtain ⟨hw, hd, hl, hpts, _, _⟩ := standingsState_spec ms lookup p.1
    simp only [hfld] at hw hd hl hpts
    have hwn : 0 ≤ (ms.map (winContrib p.1)).sum :=
      List.sum_nonneg (by
        intro x hx
        obtain ⟨m, _, hmx⟩ := List.mem_map.mp hx
        rw [← hmx]
        exact winContrib_nonneg _ _)
    have hdn : 0 ≤ (ms.map (drawContrib p.1)).sum :=
      List.sum_nonneg (by
        intro x hx
        obtain ⟨m, _, hmx⟩ := List.mem_map.mp hx
        rw [← hmx]
        exact drawContrib_nonneg _ _)
    have hln : 0 ≤ (ms.map (lossContrib p.1)).sum :=
      List.sum_nonneg (by
        intro x hx
        obtain ⟨m, _, hmx⟩ := List.mem_map.mp hx
        rw [← hmx]
        exact lossContrib_nonneg _ _)
    have hpts2 : p.2.points = 3 * p.2.wins + p.2.draws := by
      rw [hw, hd, hpts]
      have : ms.map (pointsContrib p.1) =
          ms.map (fun m => 3 * winContrib p.1 m + drawContrib p.1 m) := rfl
      rw [this, sum_map_three_mul_add]
    rw [← hps]
    exact ⟨hpts2, hw ▸ hwn, hd ▸ hdn, hl ▸ hln⟩
  · intro hscores pr hpr s hs
    obtain ⟨p, hp, hps⟩ := mem_compute_group_standings ms lookup pr hpr s hs
    have hget := dictGet_of_mem_nodup (keysNodup_standingsState ms lookup) hp
    have hfld : ∀ f : TeamStanding → Int, stField (standingsState ms lookup) p.1 f = f p.2 := by
      intro f
      unfold stField
      rw [hget]
    obtain ⟨_, _, _, _, hgf, hga⟩ := standingsState_spec ms lookup p.1
    simp only [hfld] at hgf hga
    have hgfn : 0 ≤ (ms.map (goalsForContrib p.1)).sum :=
      List.sum_nonneg (by
        intro x hx
        obtain ⟨m, hm, hmx⟩ := List.mem_map.mp hx
        rw [← hmx]
        unfold goalsForContrib
        have := hscores m hm
        split_ifs <;> omega)
    have hgan : 0 ≤ (ms.map (goalsAgainstContrib p.1)).sum :=
      List.sum_nonneg (by
        intro x hx
        obtain ⟨m, hm, hmx⟩ := List.mem_map.mp hx
        rw [← hmx]
        unfold goalsAgainstContrib
        have := hscores m hm
        split_ifs <;> omega)
    rw [← hps]
    exact ⟨hgf ▸ hgfn, hga ▸ hgan⟩

/-- Witness for C10 (amended): the theorem applied to the concrete finalized
2-1 match, whose scores are non-negative. -/
theorem c10_witness :
    (∀ m ∈ [c7_match], 0 ≤ m.puntaje_local.getD 0 ∧ 0 ≤ m.puntaje_visitante.getD 0) ∧
    (∀ pr ∈ compute_group_standings [c7_match] [], ∀ s ∈ pr.2,
      0 ≤ s.goals_for ∧ 0 ≤ s.goals_against) :=
  ⟨by decide, (c10_standings_invariants [c7_match] []).2 (by decide)⟩

/-- Embeds Python `str.startswith`. -/
def strStartsWith (s pat : String) : Bool := pat.data.isPrefixOf s.data

/-- Embeds Python `str.strip()` (drop leading and trailing whitespace). -/
def strTrim (s : String) : String :=
  String.mk (((s.data.dropWhile Char.isWhitespace).reverse.dropWhile Char.isWhitespace).reverse)

/-- Fuel-indexed core of Python `str.replace`: scan left to right, replace
each non-overlapping occurrence (the engine only replaces non-empty
patterns, for which the fuel `s.length` always suffices). -/
def replaceAllAux (pat rep : List Char) : Nat → List Char → List Char
  | _, [] => []
  | 0, s => s
  | Nat.succ fuel, c :: rest =>
    if pat.isPrefixOf (c :: rest) then
      rep ++ replaceAllAux pat rep fuel ((c :: rest).drop pat.length)
    else c :: replaceAllAux pat rep fuel rest

/-- Embeds Python `str.replace` (all occurrences). -/
def strReplace (s pat rep : String) : String :=
  String.mk (replaceAllAux pat.data rep.data s.data.length s.data)

/-- Embeds Python `str.split(sep)` for a one-character separator. -/
def splitOnCharList (c : Char) : List Char → List (List Char)
  | [] => [[]]
  | x :: rest =>
    match splitOnCharList c rest with
    | [] => [[]]
    | acc :: accs => if x = c then [] :: acc :: accs else (x :: acc) :: accs

/-- Parses a non-empty all-digit character list. -/
def digitsToNat (ds : List Char) : Option Nat :=
  match ds with
  | [] => none
  | _ =>
    if ds.all Char.isDigit then
      some (ds.foldl (fun n c => n * 10 + (c.toNat - 48)) 0)
    else none

/-- Embeds Python `int(str)` on the label formats the engine produces
(optional surrounding whitespace, optional sign, decimal digits). -/
def parseInt (s : String) : Option Int :=
  let t := ((s.data.dropWhile Char.isWhitespace).reverse.dropWhile Char.isWhitespace).reverse
  match t with
  | '-' :: rest => (digitsToNat rest).map (fun n => -(n : Int))
  | '+' :: rest => (digitsToNat rest).map (fun n => (n : Int))
  | _ => (digitsToNat t).map (fun n => (n : Int))

/-- Embeds `used_ids.add(x)` on the Python set (modelled as the list of
inserted ids; only membership is observable). -/
def usedAdd (used : List (Option Int)) (x : Option Int) : List (Option Int) :=
  if used.contains x then used else x :: used

/-- Embeds the `Clasificado #k` scan of `resolve_seed_team`: walk the global
ranking, skip consumed teams, count the remaining index down. -/
def pickGlobal (rankings : List TeamStanding) (used : List (Option Int)) (index : Int) :
    Option Team :=
  match rankings with
  | [] => none
  | s :: rest =>
    if used.contains s.team.id then pickGlobal rest used index
    else if index = 0 then some s.team
    else pickGlobal rest used (index - 1)

/-- The three seed-label resolution attempts of `resolve_seed_team`, tried
in source order (each Python branch falls through to the next check when it
does not return). -/
def resolve_core (seed_label : String)
    (standings_by_serie : List (String × List TeamStanding))
    (global_rankings : List TeamStanding)
    (used_ids : List (Option Int)) : Option Team :=
  let try1 : Option Team :=
    if strStartsWith seed_label "1° Serie " then
      match ((dictGet standings_by_serie
          (strTrim (strReplace seed_label "1° Serie " ""))).getD []).take 1 with
      | [standing] =>
        if used_ids.contains standing.team.id then none else some standing.team
      | _ => none
    else none
  match try1 with
  | some t => some t
  | none =>
    let try2 : Option Team :=
      if strStartsWith seed_label "2° Serie " then
        match ((dictGet standings_by_serie
            (strTrim (strReplace seed_label "2° Serie " ""))).getD []).get? 1 with
        | some second =>
          if used_ids.contains second.team.id then none else some second.team
        | none => none
      else none
    match try2 with
    | some t => some t
    | none =>
      if strStartsWith (strLower seed_label) "clasificado #" then
        match (splitOnCharList '#' seed_label.data).getLast? with
        | some lastPart =>
          match parseInt (String.mk lastPart) with
          | some k => pickGlobal global_rankings used_ids (k - 1)
          | none => none
        | none => none
      else none

/-- Embeds `resolve_seed_team` (scheduling_service.py lines 244-279); the
mutated `used_ids` set is threaded explicitly, and the id of a returned team
is added exactly as the Python code does right before each `return`. -/
def resolve_seed_team (seed_label : String)
    (standings_by_serie : List (String × List TeamStanding))
    (global_rankings : List TeamStanding)
    (used_ids : List (Option Int)) : Option Team × List (Option Int) :=
  if strStartsWith (strLower seed_label) "ganador" ∨
      strStartsWith (strLower seed_label) "perdedor" then
    (none, used_ids)
  else
    match resolve_core (strTrim seed_label) standings_by_serie global_rankings used_ids with
    | some t => (some t, usedAdd used_ids t.id)
    | none => (none, used_ids)

/-- A team returned by the global-ranking scan is not yet consumed. -/
theorem pickGlobal_not_used (rankings : List TeamStanding) (used : List (Option Int))
    (index : Int) :
    ∀ t, pickGlobal rankings used index = some t → used.contains t.id = false := by
  induction rankings generalizing index with
  | nil => intro t h; cases h
  | cons s rest ih =>
    intro t h
    unfold pickGlobal at h
    by_cases hc : used.contains s.team.id = true
    · rw [if_pos hc] at h
      exact ih index t h
    · rw [if_neg hc] at h
      by_cases hz : index = 0
      · rw [if_pos hz] at h
        cases h
        exact Bool.not_eq_true _ ▸ (Bool.eq_false_iff.mpr hc)
      · rw [if_neg hz] at h
        exact ih (index - 1) t h

/-- A team produced by the resolution core is not yet consumed. -/
theorem resolve_core_not_used (seed_label : String)
    (standings : List (String × List TeamStanding)) (global : List TeamStanding)
    (used : List (Option Int)) :
    ∀ t, resolve_core seed_label standings global used = some t →
      used.contains t.id = false := by
  intro t h
  unfold resolve_core at h
  rcases h1 : (if strStartsWith seed_label "1° Serie " then
      match ((dictGet standings
          (strTrim (strReplace seed_label "1° Serie " ""))).getD []).take 1 with
      | [standing] =>
        if used.contains standing.team.id then none else some standing.team
      | _ => none
    else none) with _ | t1
  · rw [h1] at h
    dsimp only at h
    rcases h2 : (if strStartsWith seed_label "2° Serie " then
        match ((dictGet standings
            (strTrim (strReplace seed_label "2° Serie " ""))).getD []).get? 1 with
        | some second =>
          if used.contains second.team.id then none else some second.team
        | none => none
      else none) with _ | t2
    · rw [h2] at h
      dsimp only at h
      split at h
      · split at h
        · split at h
          · exact pickGlobal_not_used _ _ _ t h
          · cases h
        · cases h
      · cases h
    · rw [h2] at h
      dsimp only at h
      cases h
      split at h2
      · split at h2
        · split at h2
          · cases h2
          · cases h2
            rename_i hc
            exact Bool.eq_false_iff.mpr hc
        · cases h2
      · cases h2
  · rw [h1] at h
    dsimp only at h
    cases h
    split at h1
    · split at h1
      · split at h1
        · cases h1
        · cases h1
          rename_i hc
          exact Bool.eq_false_iff.mpr hc
      · cases h1
    · cases h1

/-- Single-call contract of `resolve_seed_team`: a returned team was not in
`used_ids` and its id is recorded; a `None` result leaves the set unchanged. -/
theorem resolve_seed_team_spec (seed_label : String)
    (standings : List (String × List TeamStanding)) (global : List TeamStanding)
    (used : List (Option Int)) :
    (∀ t used2, resolve_seed_team seed_label standings global used = (some t, used2) →
      used.contains t.id = false ∧ used2 = t.id :: used) ∧
    (∀ used2, resolve_seed_team seed_label standings global used = (none, used2) →
      used2 = used) := by
  unfold resolve_seed_team
  split
  · constructor
    · intro t used2 h
      cases h
    · intro used2 h
      cases h
      rfl
  · rcases hcore : resolve_core (strTrim seed_label) standings global used with _ | t0
    · constructor
      · intro t used2 h
        cases h
      · intro used2 h
        cases h
        rfl
    · have hnu : used.contains t0.id = false :=
        resolve_core_not_used _ _ _ _ t0 hcore
      constructor
      · intro t used2 h
        cases h
        refine ⟨hnu, ?_⟩
        unfold usedAdd
        rw [if_neg (by rw [hnu]; exact Bool.false_ne_true)]
      · intro used2 h
        cases h

/-- One seed-resolution pass: a sequence of `resolve_seed_team` calls
threading one `used_ids` set (as `generate_event_schedule` does over the
placeholders of a stage). -/
def resolve_seed_pass (labels : List String)
    (standings : List (String × List TeamStanding)) (global : List TeamStanding)
    (used : List (Option Int)) : List (Option Team) × List (Option Int) :=
  match labels with
  | [] => ([], used)
  | l :: rest =>
    let r := resolve_seed_team l standings global used
    let rec2 := resolve_seed_pass rest standings global r.2
    (r.1 :: rec2.1, rec2.2)

/-- `resolve_seed_team` only grows the consumed set. -/
theorem resolve_seed_team_mono (seed_label : String)
    (standings : List (String × List TeamStanding)) (global : List TeamStanding)
    (used : List (Option Int)) (x : Option Int) (hx : used.contains x = true) :
    (resolve_seed_team seed_label standings global used).2.contains x = true := by
  rcases hr : resolve_seed_team seed_label standings global used with ⟨r1, used2⟩
  rcases r1 with _ | t
  · rw [(resolve_seed_team_spec seed_label standings global used).2 used2 hr]
    exact hx
  · rw [((resolve_seed_team_spec seed_label standings global used).1 t used2 hr).2]
    simp only [List.contains_cons, hx, Bool.or_true]

/-- A whole pass only grows the consumed set. -/
theorem resolve_seed_pass_mono (labels : List String)
    (standings : List (String × List TeamStanding)) (global : List TeamStanding) :
    ∀ (used : List (Option Int)) (x : Option Int), used.contains x = true →
      (resolve_seed_pass labels standings global used).2.contains x = true := by
  induction labels with
  | nil => intro used x hx; exact hx
  | cons l rest ih =>
    intro used x hx
    simp only [resolve_seed_pass]
    exact ih _ x (resolve_seed_team_mono l standings global used x hx)

/-- Every team returned during a pass was unconsumed before the pass started
and is consumed when the pass ends. -/
theorem resolve_seed_pass_returned (labels : List String)
    (standings : List (String × List TeamStanding)) (global : List TeamStanding) :
    ∀ (used : List (Option Int)) (i : Nat) (t : Team),
      (resolve_seed_pass labels standings global used).1.get? i = some (some t) →
      used.contains t.id = false ∧
        (resolve_seed_pass labels standings global used).2.contains t.id = true := by
  induction labels with
  | nil =>
    intro used i t h
    cases h
  | cons l rest ih =>
    intro used i t h
    rcases hr : resolve_seed_team l standings global used with ⟨r1, used2⟩
    simp only [resolve_seed_pass, hr] at h ⊢
    cases i with
    | zero =>
      simp only [List.get?_cons_zero, Option.some.injEq] at h
      rcases r1 with _ | t0
      · cases h
      · cases h
        obtain ⟨hnu, hadd⟩ := (resolve_seed_team_spec l standings global used).1 t used2 hr
        refine ⟨hnu, ?_⟩
        apply resolve_seed_pass_mono
        rw [hadd]
        simp
    | succ i2 =>
      simp only [List.get?_cons_succ] at h
      obtain ⟨hnu2, hend⟩ := ih used2 i2 t h
      constructor
      · cases hc : used.contains t.id
        · rfl
        · have hmono := resolve_seed_team_mono l standings global used t.id hc
          rw [hr] at hmono
          exact absurd hmono (by rw [hnu2]; exact Bool.false_ne_true)
      · exact hend

/-- C8: across one resolution pass threading a single `used_ids` set, no
concrete team id is returned twice: every returned team was unconsumed at
the start of its call and is recorded in `used_ids`, and ids already in
`used_ids` are never returned later. -/
theorem c8_resolve_seed_uniqueness (labels : List String)
    (standings : List (String × List TeamStanding)) (global : List TeamStanding)
    (used0 : List (Option Int)) :
    (∀ i j ti tj, i < j →
      (resolve_seed_pass labels standings global used0).1.get? i = some (some ti) →
      (resolve_seed_pass labels standings global used0).1.get? j = some (some tj) →
      ti.id ≠ tj.id) ∧
    (∀ i t, (resolve_seed_pass labels standings global used0).1.get? i = some (some t) →
      used0.contains t.id = false ∧
        (resolve_seed_pass labels standings global used0).2.contains t.id = true) := by
  constructor
  · induction labels generalizing used0 with
    | nil =>
      intro i j ti tj hij hi hj
      cases hi
    | cons l rest ih =>
      intro i j ti tj hij hi hj
      rcases hr : resolve_seed_team l standings global used0 with ⟨r1, used2⟩
      simp only [resolve_seed_pass, hr] at hi hj
      cases i with
      | zero =>
        simp only [List.get?_cons_zero, Option.some.injEq] at hi
        rcases r1 with _ | t0
        · cases hi
        · cases hi
          obtain ⟨hnu, hadd⟩ :=
            (resolve_seed_team_spec l standings global used0).1 ti used2 hr
          cases j with
          | zero => cases hij
          | succ j2 =>
            simp only [List.get?_cons_succ] at hj
            obtain ⟨hnu2, _⟩ := resolve_seed_pass_returned rest standings global used2 j2 tj hj
            intro heq
            rw [hadd] at hnu2
            simp only [List.contains_cons] at hnu2
            rw [← heq] at hnu2
            simp at hnu2
      | succ i2 =>
        cases j with
        | zero => cases hij
        | succ j2 =>
          simp only [List.get?_cons_succ] at hi hj
          exact ih used2 i2 j2 ti tj (Nat.lt_of_succ_lt_succ hij) hi hj
  · exact resolve_seed_pass_returned labels standings global used0

/-- Concrete standings for the C8 witness (one series with two teams). -/
def c8_standings : List (String × List TeamStanding) :=
  [("A",
    [⟨⟨some 10, "Alpha"⟩, some "A", 0, 0, 0, 0, 0, 0⟩,
     ⟨⟨some 20, "Beta"⟩, some "A", 0, 0, 0, 0, 0, 0⟩])]

/-- Witness for C8: a concrete two-label pass resolves two distinct teams,
and the theorem applied at positions 0 < 1 certifies their ids differ. -/
theorem c8_witness :
    (0 : Nat) < 1 ∧
    (resolve_seed_pass ["1° Serie A", "2° Serie A"] c8_standings [] []).1.get? 0 =
      some (some ⟨some 10, "Alpha"⟩) ∧
    (resolve_seed_pass ["1° Serie A", "2° Serie A"] c8_standings [] []).1.get? 1 =
      some (some ⟨some 20, "Beta"⟩) ∧
    (⟨some 10, "Alpha"⟩ : Team).id ≠ (⟨some 20, "Beta"⟩ : Team).id :=
  ⟨by decide, by decide, by decide,
    (c8_resolve_seed_uniqueness ["1° Serie A", "2° Serie A"] c8_standings [] []).1 0 1 _ _
      (by decide) (by decide) (by decide)⟩

/-- Embeds `build_slots` (scheduling_service.py lines 491-535). Dates are
day ordinals, times are minutes after midnight; the two raised
`ApplicationError`s and the `ZeroDivisionError` that Python raises for a
zero match duration become `Except.error`. Python `//` on ints is floor
division, i.e. `Int.fdiv`. -/
def build_slots (start_date end_date : Int) (config : ScheduleConfig)
    (venues : List Venue) : Except String (List Slot) :=
  if start_date > end_date then
    .error "La fecha de inicio del campeonato debe ser anterior al final"
  else
    let start_minutes := config.hora_inicio.minutes
    let end_minutes := config.hora_fin.minutes
    let available_minutes := end_minutes - start_minutes
    let duration_minutes : Int := 60 * config.duracion_horas
    if available_minutes < duration_minutes then
      .error "La ventana horaria diaria es insuficiente para al menos un partido"
    else if duration_minutes = 0 then
      .error "ZeroDivisionError"
    else
      let slots_per_day := max (available_minutes.fdiv duration_minutes) 1
      let total_days := (end_date - start_date).toNat + 1
      (List.range total_days).foldlM (fun acc (day_offset : Nat) =>
        (List.range slots_per_day.toNat).foldlM (fun acc2 (time_index : Nat) =>
          let start_total := start_minutes + (time_index : Int) * duration_minutes
          let end_total := start_total + duration_minutes
          if end_total > 24 * 60 then
            .error "La configuración horaria no puede superar el límite diario de 24 horas"
          else
            .ok (acc2 ++ venues.enum.map (fun p =>
              ({ index := acc2.length + p.1,
                 day_index := day_offset,
                 time_index := time_index,
                 fecha := start_date + (day_offset : Int),
                 hora_inicio := start_total,
                 hora_fin := end_total,
                 venue := p.2 } : Slot)))) acc) ([] : List Slot)

/-- A fold in the `Except` monad whose step never errors returns `ok`. -/
theorem foldlM_ok {β γ : Type} (f : γ → β → Except String γ) (l : List β)
    (h : ∀ b ∈ l, ∀ acc, ∃ r, f acc b = .ok r) :
    ∀ acc, ∃ r, l.foldlM f acc = .ok r := by
  induction l with
  | nil => intro acc; exact ⟨acc, rfl⟩
  | cons b rest ih =>
    intro acc
    obtain ⟨r1, hr1⟩ := h b (List.mem_cons_self _ _) acc
    obtain ⟨r2, hr2⟩ := ih (fun x hx acc2 => h x (List.mem_cons_of_mem _ hx) acc2) r1
    refine ⟨r2, ?_⟩
    rw [List.foldlM_cons, hr1]
    simpa using hr2

/-- C9: whenever the match duration is at least one hour, the date range is
ordered, and the daily window fits one match (the preconditions under which
`build_slots` passes its initial checks), the 24-hour-limit error branch is
unreachable: `build_slots` returns `ok`. -/
theorem c9_build_slots_no_24h_error (start_date end_date : Int) (config : ScheduleConfig)
    (venues : List Venue)
    (hdur : 1 ≤ config.duracion_horas)
    (hrange : start_date ≤ end_date)
    (hwindow : 60 * config.duracion_horas ≤
      config.hora_fin.minutes - config.hora_inicio.minutes) :
    ∃ slots, build_slots start_date end_date config venues = .ok slots := by
  unfold build_slots
  rw [if_neg (not_lt.mpr hrange), if_neg (not_lt.mpr hwindow), if_neg (by
    intro hzero
    omega)]
  set sm := config.hora_inicio.minutes with hsm
  set em := config.hora_fin.minutes with hem
  set dm : Int := 60 * config.duracion_horas with hdm
  set av : Int := em - sm with hav
  have hdm_pos : 0 < dm := by omega
  have hav_dm : dm ≤ av := hwindow
  have hsm_nonneg : 0 ≤ sm := by
    rw [hsm]
    unfold TimeOfDay.minutes
    positivity
  have hem_le : em ≤ 1439 := by
    rw [hem]
    unfold TimeOfDay.minutes
    have h1 := config.hora_fin.hour.isLt
    have h2 := config.hora_fin.minute.isLt
    omega
  have hq1 : 1 ≤ av.fdiv dm := by
    rw [Int.fdiv_eq_ediv _ (le_of_lt hdm_pos)]
    rw [Int.le_ediv_iff_mul_le hdm_pos]
    omega
  have hqmul : (av.fdiv dm) * dm ≤ av := by
    rw [Int.fdiv_eq_ediv _ (le_of_lt hdm_pos)]
    exact Int.ediv_mul_le av (ne_of_gt hdm_pos)
  have hspd : max (av.fdiv dm) 1 = av.fdiv dm := max_eq_left hq1
  apply foldlM_ok
  intro day _ acc
  apply foldlM_ok
  intro ti hti acc2
  have hti2 : (ti : Int) < av.fdiv dm := by
    have h3 : ti < (max (av.fdiv dm) 1).toNat := List.mem_range.mp hti
    rw [hspd] at h3
    omega
  have h4 : ((ti : Int) + 1) * dm ≤ av :=
    le_trans (mul_le_mul_of_nonneg_right (by omega : (ti : Int) + 1 ≤ av.fdiv dm)
      (le_of_lt hdm_pos)) hqmul
  have h5 : (ti : Int) * dm + dm ≤ av := by
    rw [add_mul, one_mul] at h4
    exact h4
  dsimp only
  split
  · rename_i hcon
    exfalso
    omega
  · exact ⟨_, rfl⟩

/-- Concrete configuration for the C9 witness: 08:00-18:00, two-hour
matches. -/
def c9_config : ScheduleConfig := ⟨⟨8, 0⟩, ⟨18, 0⟩, 2, 0⟩

/-- Witness for C9: the theorem applied to a concrete valid configuration. -/
theorem c9_witness :
    (1 : Int) ≤ c9_config.duracion_horas ∧ (0 : Int) ≤ (0 : Int) ∧
    60 * c9_config.duracion_horas ≤ c9_config.hora_fin.minutes - c9_config.hora_inicio.minutes ∧
    ∃ slots, build_slots 0 0 c9_config [⟨1, "Cancha"⟩] = .ok slots :=
  ⟨by decide, le_refl 0, by decide,
    c9_build_slots_no_24h_error 0 0 c9_config [⟨1, "Cancha"⟩] (by decide) (le_refl 0)
      (by decide)⟩

/-- The membership test used by `solve_schedule` when building the day/time
and rest constraints: does the match involve the team with id `tid` on
either side? A placeholder side (id `None`) never matches a real id. -/
def matchHasTeam (tid : Int) (m : MatchDefinition) : Bool :=
  (match m.«local» with
   | some t => t.id == some tid
   | none => false) ||
  (match m.visitante with
   | some t => t.id == some tid
   | none => false)

/-- The ids contributed by one participant slot to the set of real team ids. -/
def teamRealId : Option Team → List Int
  | some t =>
    match t.id with
    | some i => [i]
    | none => []
  | none => []

/-- The real (non-placeholder) team ids of a match list (`solve_schedule`
builds a Python set; duplicates here only repeat identical constraints). -/
def realTeamIds (ms : List MatchDefinition) : List Int :=
  ms.flatMap (fun m => teamRealId m.«local» ++ teamRealId m.visitante)

/-- The number of `true`s in a list of booleans (the value of a CP-SAT sum
of 0/1 variables). -/
def countTrue (l : List Bool) : Nat := l.countP id

/-- `max(slot.day_index for slot in slots)` (0 for an empty slot list, in
which case the CP model is infeasible for any non-empty match list anyway). -/
def maxDayIndex (slots : List Slot) : Nat := (slots.map (fun s => s.day_index)).foldl max 0

/-- Feasibility of an assignment for the CP-SAT model of `solve_schedule`
(scheduling_service.py lines 538-643): `x mid sIdx` is the boolean variable
`assignment[(mid, sIdx)]` and `d mid` the integer variable `match_day[mid]`.
The conjuncts are, in source order: each match sits in exactly one slot;
each slot hosts at most one match; `match_day` domain and channeling; per
real team at most one assignment per `(day_index, time_index)` group; per
real team the pairwise rest constraint `|d i - d j| >= rest_days + 1` with
`rest_days = max(descanso_min_dias, 0)`; and, when group and playoff
matches are both present, a `last_group_day` value dominated by every group
day and strictly below every playoff day. A solution returned by the solver
is exactly a feasible assignment of these variables. -/
def CpFeasible (ms : List MatchDefinition) (slots : List Slot) (config : ScheduleConfig)
    (x : Nat → Nat → Bool) (d : Nat → Nat) : Prop :=
  (∀ m ∈ ms, countTrue (slots.map (fun s => x m.internal_id s.index)) = 1) ∧
  (∀ s ∈ slots, countTrue (ms.map (fun m => x m.internal_id s.index)) ≤ 1) ∧
  (∀ m ∈ ms, d m.internal_id ≤ maxDayIndex slots) ∧
  (∀ m ∈ ms, ∀ s ∈ slots, x m.internal_id s.index = true → d m.internal_id = s.day_index) ∧
  (∀ tid ∈ realTeamIds ms, ∀ s ∈ slots,
    countTrue ((ms.filter (matchHasTeam tid)).flatMap (fun m2 =>
      (slots.filter (fun s2 =>
        s2.day_index == s.day_index && s2.time_index == s.time_index)).map
        (fun s2 => x m2.internal_id s2.index))) ≤ 1) ∧
  (∀ tid ∈ realTeamIds ms,
    List.Pairwise (fun m1 m2 =>
      (max config.descanso_min_dias 0).toNat + 1 ≤
        ((d m1.internal_id : Int) - (d m2.internal_id : Int)).natAbs)
      (ms.filter (matchHasTeam tid))) ∧
  ((ms.filter (fun m => m.fase == "group")) ≠ [] →
    (ms.filter (fun m => m.is_playoff)) ≠ [] →
    ∃ lg ∈ List.range (maxDayIndex slots + 1),
      (∀ m ∈ ms.filter (fun m => m.fase == "group"), d m.internal_id ≤ lg) ∧
      (∀ m ∈ ms.filter (fun m => m.is_playoff), lg < d m.internal_id))

/-- The slot-extraction loop at the end of `solve_schedule`: the first slot
whose assignment variable is set. -/
def extractSlot (slots : List Slot) (x : Nat → Nat → Bool) (mid : Nat) : Option Slot :=
  slots.find? (fun s => x mid s.index)

instance decCpFeasible (ms : List MatchDefinition) (slots : List Slot)
    (config : ScheduleConfig) (x : Nat → Nat → Bool) (d : Nat → Nat) :
    Decidable (CpFeasible ms slots config x d) := by
  unfold CpFeasible
  exact inferInstance

/-- Two distinct members satisfying a predicate push its count to 2. -/
theorem two_le_countP_of_mem {l : List α} {a b : α} (p : α → Bool)
    (ha : a ∈ l) (hb : b ∈ l) (hne : a ≠ b) (hpa : p a = true) (hpb : p b = true) :
    2 ≤ l.countP p := by
  induction l with
  | nil => cases ha
  | cons q rest ih =>
    rw [List.countP_cons]
    rcases List.mem_cons.mp ha with haq | har
    · have hbr : b ∈ rest := by
        rcases List.mem_cons.mp hb with hbq | hbr
        · exact absurd (haq.trans hbq.symm) hne
        · exact hbr
      have h1 : 0 < rest.countP p := List.countP_pos.mpr ⟨b, hbr, hpb⟩
      rw [haq] at hpa
      rw [if_pos hpa]
      omega
    · rcases List.mem_cons.mp hb with hbq | hbr
      · have h1 : 0 < rest.countP p := List.countP_pos.mpr ⟨a, har, hpa⟩
        rw [hbq] at hpb
        rw [if_pos hpb]
        omega
      · have := ih har hbr
        omega

/-- A member contributes its whole count to the flattened count. -/
theorem countP_le_flatMap_of_mem {l : List α} {c : α} (f : α → List β) (p : β → Bool)
    (hc : c ∈ l) : (f c).countP p ≤ (l.flatMap f).countP p := by
  induction l with
  | nil => cases hc
  | cons q rest ih =>
    rw [List.flatMap_cons, List.countP_append]
    rcases List.mem_cons.mp hc with hq | hr
    · rw [hq]
      omega
    · have := ih hr
      omega

/-- Two distinct members each with a positive flattened count push the total
to 2. -/
theorem two_le_countP_flatMap {l : List α} {a b : α} (f : α → List β) (p : β → Bool)
    (ha : a ∈ l) (hb : b ∈ l) (hne : a ≠ b)
    (hpa : 1 ≤ (f a).countP p) (hpb : 1 ≤ (f b).countP p) :
    2 ≤ (l.flatMap f).countP p := by
  induction l with
  | nil => cases ha
  | cons q rest ih =>
    rw [List.flatMap_cons, List.countP_append]
    rcases List.mem_cons.mp ha with haq | har
    · have hbr : b ∈ rest := by
        rcases List.mem_cons.mp hb with hbq | hbr
        · exact absurd (haq.trans hbq.symm) hne
        · exact hbr
      have h1 := countP_le_flatMap_of_mem f p hbr
      rw [← haq]
      omega
    · rcases List.mem_cons.mp hb with hbq | hbr
      · have h1 := countP_le_flatMap_of_mem f p har
        rw [← hbq]
        omega
      · have := ih har hbr
        omega

/-- C1: any feasible solution of the `solve_schedule` CP model, read back
through the extraction loop, (a) assigns distinct slots to matches with
distinct internal ids, (b) never books a real team twice in the same
(day_index, time_index) group, and (c) separates any two matches of a real
team by at least `descanso_min_dias + 1` days. -/
theorem c1_solver_solution_properties (ms : List MatchDefinition) (slots : List Slot)
    (config : ScheduleConfig) (x : Nat → Nat → Bool) (d : Nat → Nat)
    (hf : CpFeasible ms slots config x d) :
    (∀ m1 ∈ ms, ∀ m2 ∈ ms, m1.internal_id ≠ m2.internal_id →
      ∀ s1 s2, extractSlot slots x m1.internal_id = some s1 →
        extractSlot slots x m2.internal_id = some s2 →
        s1.index ≠ s2.index ∧ s1 ≠ s2) ∧
    (∀ tid ∈ realTeamIds ms, ∀ m1 ∈ ms, ∀ m2 ∈ ms,
      matchHasTeam tid m1 = true → matchHasTeam tid m2 = true →
      m1.internal_id ≠ m2.internal_id →
      ∀ s1 s2, extractSlot slots x m1.internal_id = some s1 →
        extractSlot slots x m2.internal_id = some s2 →
        ¬(s1.day_index = s2.day_index ∧ s1.time_index = s2.time_index)) ∧
    (∀ tid ∈ realTeamIds ms, ∀ m1 ∈ ms, ∀ m2 ∈ ms,
      matchHasTeam tid m1 = true → matchHasTeam tid m2 = true →
      m1.internal_id ≠ m2.internal_id →
      ∀ s1 s2, extractSlot slots x m1.internal_id = some s1 →
        extractSlot slots x m2.internal_id = some s2 →
        config.descanso_min_dias + 1 ≤
          (((s1.day_index : Int) - (s2.day_index : Int)).natAbs : Int)) := by
  obtain ⟨hone, hcap, hdom, hchan, hdt, hrest, hord⟩ := hf
  have hext : ∀ (mid : Nat) (s : Slot), extractSlot slots x mid = some s →
      s ∈ slots ∧ x mid s.index = true := by
    intro mid s h
    unfold extractSlot at h
    have h2 := List.find?_some h
    exact ⟨List.mem_of_find?_eq_some h, h2⟩
  refine ⟨?_, ?_, ?_⟩
  · intro m1 hm1 m2 hm2 hne s1 s2 he1 he2
    obtain ⟨hs1mem, hx1⟩ := hext _ _ he1
    obtain ⟨hs2mem, hx2⟩ := hext _ _ he2
    have hidx : s1.index ≠ s2.index := by
      intro heq
      have hx2b : x m2.internal_id s1.index = true := by rw [heq]; exact hx2
      have hmne : m1 ≠ m2 := fun h => hne (congrArg MatchDefinition.internal_id h)
      have h2 := two_le_countP_of_mem (fun m => x m.internal_id s1.index) hm1 hm2 hmne hx1 hx2b
      have h3 := hcap s1 hs1mem
      unfold countTrue at h3
      rw [List.countP_map] at h3
      simp only [Function.comp_def, id_eq] at h3
      omega
    exact ⟨hidx, fun h => hidx (congrArg Slot.index h)⟩
  · intro tid htid m1 hm1 m2 hm2 ht1 ht2 hne s1 s2 he1 he2 hcon
    obtain ⟨hday, htime⟩ := hcon
    obtain ⟨hs1mem, hx1⟩ := hext _ _ he1
    obtain ⟨hs2mem, hx2⟩ := hext _ _ he2
    have hm1f : m1 ∈ ms.filter (matchHasTeam tid) := List.mem_filter.mpr ⟨hm1, ht1⟩
    have hm2f : m2 ∈ ms.filter (matchHasTeam tid) := List.mem_filter.mpr ⟨hm2, ht2⟩
    have hmne : m1 ≠ m2 := fun h => hne (congrArg MatchDefinition.internal_id h)
    have hcnt := hdt tid htid s1 hs1mem
    unfold countTrue at hcnt
    have hs1key : s1 ∈ slots.filter (fun s2b =>
        s2b.day_index == s1.day_index && s2b.time_index == s1.time_index) :=
      List.mem_filter.mpr ⟨hs1mem, by simp⟩
    have hs2key : s2 ∈ slots.filter (fun s2b =>
        s2b.day_index == s1.day_index && s2b.time_index == s1.time_index) :=
      List.mem_filter.mpr ⟨hs2mem, by simp [hday, htime]⟩
    have hc1 : 1 ≤ ((slots.filter (fun s2b =>
        s2b.day_index == s1.day_index && s2b.time_index == s1.time_index)).map
          (fun s2b => x m1.internal_id s2b.index)).countP id := by
      have h0 : 0 < ((slots.filter (fun s2b =>
          s2b.day_index == s1.day_index && s2b.time_index == s1.time_index)).map
            (fun s2b => x m1.internal_id s2b.index)).countP id :=
        List.countP_pos.mpr
          ⟨x m1.internal_id s1.index,
           List.mem_map_of_mem (fun s2b => x m1.internal_id s2b.index) hs1key,
           by simpa using hx1⟩
      omega
    have hc2 : 1 ≤ ((slots.filter (fun s2b =>
        s2b.day_index == s1.day_index && s2b.time_index == s1.time_index)).map
          (fun s2b => x m2.internal_id s2b.index)).countP id := by
      have h0 : 0 < ((slots.filter (fun s2b =>
          s2b.day_index == s1.day_index && s2b.time_index == s1.time_index)).map
            (fun s2b => x m2.internal_id s2b.index)).countP id :=
        List.countP_pos.mpr
          ⟨x m2.internal_id s2.index,
           List.mem_map_of_mem (fun s2b => x m2.internal_id s2b.index) hs2key,
           by simpa using hx2⟩
      omega
    have h2 := two_le_countP_flatMap
      (fun m2b => (slots.filter (fun s2b =>
        s2b.day_index == s1.day_index && s2b.time_index == s1.time_index)).map
          (fun s2b => x m2b.internal_id s2b.index)) id hm1f hm2f hmne hc1 hc2
    omega
  · intro tid htid m1 hm1 m2 hm2 ht1 ht2 hne s1 s2 he1 he2
    obtain ⟨hs1mem, hx1⟩ := hext _ _ he1
    obtain ⟨hs2mem, hx2⟩ := hext _ _ he2
    have hm1f : m1 ∈ ms.filter (matchHasTeam tid) := List.mem_filter.mpr ⟨hm1, ht1⟩
    have hm2f : m2 ∈ ms.filter (matchHasTeam tid) := List.mem_filter.mpr ⟨hm2, ht2⟩
    have hmne : m1 ≠ m2 := fun h => hne (congrArg MatchDefinition.internal_id h)
    have hpair := hrest tid htid
    have hsym : Symmetric (fun m1 m2 : MatchDefinition =>
        (max config.descanso_min_dias 0).toNat + 1 ≤
          ((d m1.internal_id : Int) - (d m2.internal_id : Int)).natAbs) := by
      intro a b h
      omega
    have hR := List.Pairwise.forall hsym hpair hm1f hm2f hmne
    have hd1 : d m1.internal_id = s1.day_index := hchan m1 hm1 s1 hs1mem hx1
    have hd2 : d m2.internal_id = s2.day_index := hchan m2 hm2 s2 hs2mem hx2
    rw [hd1, hd2] at hR
    have hmax1 : config.descanso_min_dias ≤ max config.descanso_min_dias 0 :=
      le_max_left _ _
    have hmax2 : ((max config.descanso_min_dias 0).toNat : Int) =
        max config.descanso_min_dias 0 :=
      Int.toNat_of_nonneg (le_max_right _ _)
    omega

/-- C2: in any feasible solution of the `solve_schedule` CP model for a
match list containing both a group-phase match and a playoff match, the
extracted day index of every playoff match strictly exceeds the extracted
day index of every group match. -/
theorem c2_playoff_after_group (ms : List MatchDefinition) (slots : List Slot)
    (config : ScheduleConfig) (x : Nat → Nat → Bool) (d : Nat → Nat)
    (hf : CpFeasible ms slots config x d)
    (mg : MatchDefinition) (hmg : mg ∈ ms) (hgfase : mg.fase = "group")
    (mp : MatchDefinition) (hmp : mp ∈ ms) (hpflag : mp.is_playoff = true)
    (sg sp : Slot)
    (heg : extractSlot slots x mg.internal_id = some sg)
    (hep : extractSlot slots x mp.internal_id = some sp) :
    sg.day_index < sp.day_index := by
  obtain ⟨hone, hcap, hdom, hchan, hdt, hrest, hord⟩ := hf
  have hgf : mg ∈ ms.filter (fun m => m.fase == "group") :=
    List.mem_filter.mpr ⟨hmg, by simp [hgfase]⟩
  have hpf : mp ∈ ms.filter (fun m => m.is_playoff) :=
    List.mem_filter.mpr ⟨hmp, by simp [hpflag]⟩
  obtain ⟨lg, _, hlg1, hlg2⟩ :=
    hord (List.ne_nil_of_mem hgf) (List.ne_nil_of_mem hpf)
  unfold extractSlot at heg hep
  have hsgmem := List.mem_of_find?_eq_some heg
  have hxg := List.find?_some heg
  have hspmem := List.mem_of_find?_eq_some hep
  have hxp := List.find?_some hep
  have hdg : d mg.internal_id = sg.day_index := hchan mg hmg sg hsgmem hxg
  have hdp : d mp.internal_id = sp.day_index := hchan mp hmp sp hspmem hxp
  have h1 := hlg1 mg hgf
  have h2 := hlg2 mp hpf
  omega

/-- Teams of the small solver-witness instance. -/
def w_team1 : Team := ⟨some 1, "T1"⟩

/-- Second team of the small solver-witness instance. -/
def w_team2 : Team := ⟨some 2, "T2"⟩

/-- A group match between two real teams, for the solver witness. -/
def w_m1 : MatchDefinition :=
  ⟨0, "GRP-Serie A-1-0", "group", some "Serie A", "Ronda 1",
    some w_team1, some w_team2, none, none, false⟩

/-- A playoff match with placeholder participants, for the solver witness. -/
def w_m2 : MatchDefinition :=
  ⟨1, "SF1", "semifinal", none, "Semifinal 1", none, none,
    some "1° Serie A", some "2° Serie A", true⟩

/-- Two slots on consecutive days, for the solver witness. -/
def w_slots : List Slot :=
  [⟨0, 0, 0, 0, 480, 600, ⟨1, "Cancha"⟩⟩, ⟨1, 1, 0, 1, 480, 600, ⟨1, "Cancha"⟩⟩]

/-- A feasible assignment for the solver witness: match 0 on day 0, match 1
on day 1. -/
def w_x : Nat → Nat → Bool := fun mid sIdx => (mid == 0 && sIdx == 0) || (mid == 1 && sIdx == 1)

/-- The day variables of the solver witness. -/
def w_d : Nat → Nat := fun mid => if mid == 0 then 0 else 1

/-- Witness for C1: the theorem applied to a concrete feasible assignment. -/
theorem c1_witness :
    CpFeasible [w_m1, w_m2] w_slots c9_config w_x w_d ∧
    (∀ m1 ∈ [w_m1, w_m2], ∀ m2 ∈ [w_m1, w_m2], m1.internal_id ≠ m2.internal_id →
      ∀ s1 s2, extractSlot w_slots w_x m1.internal_id = some s1 →
        extractSlot w_slots w_x m2.internal_id = some s2 →
        s1.index ≠ s2.index ∧ s1 ≠ s2) :=
  ⟨by decide,
   (c1_solver_solution_properties [w_m1, w_m2] w_slots c9_config w_x w_d (by decide)).1⟩

/-- Witness for C2: the theorem applied to the same concrete assignment; the
group match lands on day 0 and the playoff match on day 1. -/
theorem c2_witness :
    (0 : Nat) < 1 ∧
    extractSlot w_slots w_x w_m1.internal_id =
      some ⟨0, 0, 0, 0, 480, 600, ⟨1, "Cancha"⟩⟩ ∧
    extractSlot w_slots w_x w_m2.internal_id =
      some ⟨1, 1, 0, 1, 480, 600, ⟨1, "Cancha"⟩⟩ :=
  ⟨c2_playoff_after_group [w_m1, w_m2] w_slots c9_config w_x w_d (by decide)
      w_m1 (by decide) (by decide) w_m2 (by decide) (by decide)
      ⟨0, 0, 0, 0, 480, 600, ⟨1, "Cancha"⟩⟩ ⟨1, 1, 0, 1, 480, 600, ⟨1, "Cancha"⟩⟩
      (by decide) (by decide),
   by decide, by decide⟩

/-- Embeds the constant `SERIE_LABELS = "ABCDE"`. -/
def SERIE_LABELS : String := "ABCDE"

/-- Embeds the series-label choice of `_build_series_assignments`:
`f"Serie {SERIE_LABELS[index]}"` for the first five series, a numeric
fallback beyond (a defensive branch the supported bands never reach). -/
def serieLabelFor (index : Nat) : String :=
  if index < 5 then "Serie " ++ String.mk [SERIE_LABELS.data.getD index 'A']
  else "Serie " ++ toString (index + 1)

/-- Embeds `_build_series_assignments`: team `i` goes to series
`i % series_count`, preserving input order within each series. -/
def _build_series_assignments (teams : List Team) (series_count : Nat) :
    List (String × List Team) :=
  (List.range series_count).map (fun index =>
    (serieLabelFor index,
     (teams.enum.filter (fun p => p.1 % series_count == index)).map (fun p => p.2)))

/-- The synthetic bye team `Team(id=None, nombre="BYE")`. -/
def BYE_TEAM : Team := ⟨none, "BYE"⟩

/-- Embeds `ordered = [ordered[0]] + [ordered[-1]] + ordered[1:-1]`, the
rotation step of `_round_robin_pairs`. -/
def _rotate : List Team → List Team
  | [] => []
  | [t] => [t, t]
  | t :: u :: rest => t :: (u :: rest).getLast (by simp) :: (u :: rest).dropLast

/-- One round of the circle method: pair position `i` with position
`n - 1 - i`, skipping any side named `BYE` (`n` is the padded team count,
fixed before the loop). -/
def roundPairsAt (n : Nat) (l : List Team) : List (Team × Team) :=
  (List.range (n / 2)).filterMap (fun i =>
    match l.get? i, l.get? (n - 1 - i) with
    | some home, some away =>
      if home.nombre == "BYE" || away.nombre == "BYE" then none else some (home, away)
    | _, _ => none)

/-- The `for _round in range(n - 1)` loop of `_round_robin_pairs`. -/
def rrLoop (n : Nat) : Nat → List Team → List (List (Team × Team))
  | 0, _ => []
  | Nat.succ k, l => roundPairsAt n l :: rrLoop n k (_rotate l)

/-- Embeds `_round_robin_pairs` (scheduling_service.py lines 294-312). -/
def _round_robin_pairs (teams : List Team) : List (List (Team × Team)) :=
  let ordered := if teams.length % 2 = 1 then teams ++ [BYE_TEAM] else teams
  rrLoop ordered.length (ordered.length - 1) ordered

/-- Embeds `_seed_labels`: firsts of every series, seconds until the slot
count is reached, then `Clasificado #k` fillers, truncated to the slots. -/
def _seed_labels (series_names : List String) (total_slots : Nat) : List String :=
  let s1 := series_names.map (fun serie => "1° " ++ serie)
  let s2 := s1 ++ (series_names.take (total_slots - s1.length)).map
    (fun serie => "2° " ++ serie)
  let s3 := s2 ++ (List.range (total_slots - s2.length)).map
    (fun i => "Clasificado #" ++ toString (i + 1))
  s3.take total_slots

/-- Embeds `_placeholder_winner`. -/
def _placeholder_winner (code : String) : String := "Ganador " ++ code

/-- Embeds `_placeholder_loser`. -/
def _placeholder_loser (code : String) : String := "Perdedor " ++ code

/-- The (series, round index, pairing) triples of the group-stage loop of
`build_matches`, in emission order (the running `match_id` is the position
in this list). -/
def groupTriples (assignments : List (String × List Team)) :
    List (String × Nat × Team × Team) :=
  assignments.flatMap (fun a =>
    (_round_robin_pairs a.2).enum.flatMap (fun r =>
      r.2.map (fun pr => (a.1, r.1 + 1, pr.1, pr.2))))

/-- Embeds `build_matches` (scheduling_service.py lines 338-488): all group
matches in series/round order followed by the playoff skeleton for 4 or 8
playoff slots. -/
def build_matches (tstruct : TournamentStructure)
    (assignments : List (String × List Team)) : List MatchDefinition :=
  let gts := groupTriples assignments
  let groupMs : List MatchDefinition := gts.enum.map (fun p =>
    ⟨p.1, "GRP-" ++ p.2.1 ++ "-" ++ toString p.2.2.1 ++ "-" ++ toString p.1,
      "group", some p.2.1, "Ronda " ++ toString p.2.2.1,
      some p.2.2.2.1, some p.2.2.2.2, none, none, false⟩)
  let mid0 := groupMs.length
  let series_names := assignments.map (fun a => a.1)
  if tstruct.playoff_teams = 4 then
    let seeds := _seed_labels series_names 4
    groupMs ++
      [⟨mid0, "SF1", "semifinal", none, "Semifinal 1", none, none,
        some (seeds.getD 0 ""), some (seeds.getD 3 ""), true⟩,
       ⟨mid0 + 1, "SF2", "semifinal", none, "Semifinal 2", none, none,
        some (seeds.getD 1 ""), some (seeds.getD 2 ""), true⟩,
       ⟨mid0 + 2, "FINAL", "final", none, "Final", none, none,
        some (_placeholder_winner "SF1"), some (_placeholder_winner "SF2"), true⟩,
       ⟨mid0 + 3, "THIRD", "third_place", none, "Tercer puesto", none, none,
        some (_placeholder_loser "SF1"), some (_placeholder_loser "SF2"), true⟩]
  else if tstruct.playoff_teams = 8 then
    let seeds := _seed_labels series_names 8
    groupMs ++
      [⟨mid0, "QF1", "quarterfinal", none, "Cuartos de final 1", none, none,
        some (seeds.getD 0 ""), some (seeds.getD 7 ""), true⟩,
       ⟨mid0 + 1, "QF2", "quarterfinal", none, "Cuartos de final 2", none, none,
        some (seeds.getD 3 ""), some (seeds.getD 4 ""), true⟩,
       ⟨mid0 + 2, "QF3", "quarterfinal", none, "Cuartos de final 3", none, none,
        some (seeds.getD 1 ""), some (seeds.getD 6 ""), true⟩,
       ⟨mid0 + 3, "QF4", "quarterfinal", none, "Cuartos de final 4", none, none,
        some (seeds.getD 2 ""), some (seeds.getD 5 ""), true⟩,
       ⟨mid0 + 4, "SF1", "semifinal", none, "Semifinal 1", none, none,
        some (_placeholder_winner "QF1"), some (_placeholder_winner "QF4"), true⟩,
       ⟨mid0 + 5, "SF2", "semifinal", none, "Semifinal 2", none, none,
        some (_placeholder_winner "QF2"), some (_placeholder_winner "QF3"), true⟩,
       ⟨mid0 + 6, "FINAL", "final", none, "Final", none, none,
        some (_placeholder_winner "SF1"), some (_placeholder_winner "SF2"), true⟩,
       ⟨mid0 + 7, "THIRD", "third_place", none, "Tercer puesto", none, none,
        some (_placeholder_loser "SF1"), some (_placeholder_loser "SF2"), true⟩]
  else groupMs

/-- Embeds dataclass `PartidoDTO` (times as minutes, dates as ordinals). -/
structure PartidoDTO where
  fecha : Int
  hora_inicio : Int
  hora_fin : Int
  escenario_evento_id : Int
  fase : String
  serie : Option String
  ronda : String
  llave : Option String
  equipo_local_id : Option Int
  equipo_local_nombre : String
  equipo_visitante_id : Option Int
  equipo_visitante_nombre : String
  placeholder_local : Option String
  placeholder_visitante : Option String
  estado : String
deriving DecidableEq, Repr

/-- Embeds Python `a or b` on optional strings (`None` and the empty string
fall back to the default). -/
def pyOr (o : Option String) (dft : String) : String :=
  match o with
  | some s => if s = "" then dft else s
  | none => dft

/-- The DTO built for one solved match inside `build_event_schedule`
(scheduling_service.py lines 786-819). -/
def dtoForMatch (m : MatchDefinition) (slot : Slot) : PartidoDTO :=
  let local_id : Option Int :=
    match m.«local» with
    | some t => if t.is_placeholder then none else t.id
    | none => none
  let visitante_id : Option Int :=
    match m.visitante with
    | some t => if t.is_placeholder then none else t.id
    | none => none
  let local_name : String :=
    match m.«local» with
    | some t => if t.nombre ≠ "" then t.nombre else pyOr m.placeholder_local "Por definir"
    | none => pyOr m.placeholder_local "Por definir"
  let visitante_name : String :=
    match m.visitante with
    | some t => if t.nombre ≠ "" then t.nombre else pyOr m.placeholder_visitante "Por definir"
    | none => pyOr m.placeholder_visitante "Por definir"
  { fecha := slot.fecha
    hora_inicio := slot.hora_inicio
    hora_fin := slot.hora_fin
    escenario_evento_id := slot.venue.id
    fase := m.fase
    serie := m.serie
    ronda := m.ronda
    llave := some m.code
    equipo_local_id := local_id
    equipo_local_nombre := local_name
    equipo_visitante_id := visitante_id
    equipo_visitante_nombre := visitante_name
    placeholder_local :=
      match m.placeholder_local with
      | some s =>
        if s ≠ "" then some s else if local_id.isSome then none else some local_name
      | none => if local_id.isSome then none else some local_name
    placeholder_visitante :=
      match m.placeholder_visitante with
      | some s =>
        if s ≠ "" then some s else if visitante_id.isSome then none else some visitante_name
      | none => if visitante_id.isSome then none else some visitante_name
    estado := "programado" }

/-- The final DTO sort key `(fecha, hora_inicio, escenario_evento_id)`. -/
def dtoLe (a b : PartidoDTO) : Bool :=
  if a.fecha ≠ b.fecha then a.fecha < b.fecha
  else if a.hora_inicio ≠ b.hora_inicio then a.hora_inicio < b.hora_inicio
  else a.escenario_evento_id ≤ b.escenario_evento_id

/-- The DTO construction loop over the solver solution plus the final stable
sort of `build_event_schedule`. -/
def buildDTOs (ms : List MatchDefinition) (slots : List Slot) (x : Nat → Nat → Bool) :
    List PartidoDTO :=
  stableSort dtoLe (ms.filterMap (fun m =>
    (extractSlot slots x m.internal_id).map (fun slot => dtoForMatch m slot)))

/-- Pure core of `build_event_schedule` (scheduling_service.py lines
743-822), starting after `_map_teams` (so `teams` is the sorted mapped team
list): derive the structure from the team count, build all matches at once,
build the slots, check the slot count, and read the solver solution back as
DTOs. The CP solver itself is modelled by the assignment `x`; the claim
theorems take its feasibility (`CpFeasible`) as a hypothesis, which is
exactly the condition under which the real solver returns a solution. -/
def build_event_schedule_core (teams : List Team) (venues : List Venue)
    (start_date end_date : Int) (config : ScheduleConfig) (x : Nat → Nat → Bool) :
    Except String (List PartidoDTO) :=
  match determine_tournament_structure teams.length with
  | .error e => .error e
  | .ok tstruct =>
    let assignments := _build_series_assignments teams tstruct.series
    let ms := build_matches tstruct assignments
    match build_slots start_date end_date config venues with
    | .error e => .error e
    | .ok slots =>
      if slots.length < ms.length then
        .error "No hay suficientes franjas horarias para programar todos los partidos dentro del rango de fechas"
      else
        .ok (buildDTOs ms slots x)

/-- Teams of the concrete 8-team C5 instance (structure: 2 series,
playoff_teams = 4; 12 group matches and a 4-match playoff skeleton). -/
def c5_teams : List Team :=
  [⟨some 1, "T1"⟩, ⟨some 2, "T2"⟩, ⟨some 3, "T3"⟩, ⟨some 4, "T4"⟩,
   ⟨some 5, "T5"⟩, ⟨some 6, "T6"⟩, ⟨some 7, "T7"⟩, ⟨some 8, "T8"⟩]

/-- A feasible slot assignment for the 16 matches of the C5 instance,
found by hand: pairs are (internal match id, slot index). -/
def c5_x : Nat → Nat → Bool := fun mid sIdx =>
  (([(0, 0), (1, 1), (6, 2), (7, 3), (2, 5), (3, 6), (8, 7), (9, 8),
     (4, 10), (5, 11), (10, 12), (11, 13), (12, 15), (13, 16), (14, 17), (15, 18)]
    : List (Nat × Nat)).contains (mid, sIdx))

/-- The day variables matching `c5_x` (pairs are (match id, day index)). -/
def c5_d : Nat → Nat := fun mid =>
  ((([(0, 0), (1, 0), (6, 0), (7, 0), (2, 1), (3, 1), (8, 1), (9, 1),
      (4, 2), (5, 2), (10, 2), (11, 2), (12, 3), (13, 3), (14, 3), (15, 3)]
    : List (Nat × Nat)).lookup mid).getD 0)

/-- The slot list `build_slots` produces for the C5 instance: 4 days x 5
franjas on one venue. -/
def c5_slots : List Slot := (build_slots 0 3 c9_config [⟨1, "Cancha"⟩]).toOption.getD []

set_option maxRecDepth 10000

/-- When the structure carries a playoff bracket, `build_matches` contains a
`final`-phase match with no resolved participants (the placeholder skeleton). -/
theorem final_match_mem_build_matches (tstruct : TournamentStructure)
    (assignments : List (String × List Team))
    (hp : tstruct.playoff_teams = 4 ∨ tstruct.playoff_teams = 8) :
    ∃ m ∈ build_matches tstruct assignments,
      m.fase = "final" ∧ m.«local» = none ∧ m.visitante = none := by
  rcases hp with h | h
  · refine ⟨⟨((groupTriples assignments).enum.map (fun p =>
      (⟨p.1, "GRP-" ++ p.2.1 ++ "-" ++ toString p.2.2.1 ++ "-" ++ toString p.1,
        "group", some p.2.1, "Ronda " ++ toString p.2.2.1,
        some p.2.2.2.1, some p.2.2.2.2, none, none, false⟩ : MatchDefinition))).length + 2,
      "FINAL", "final", none, "Final", none, none,
      some (_placeholder_winner "SF1"), some (_placeholder_winner "SF2"), true⟩,
      ?_, rfl, rfl, rfl⟩
    unfold build_matches
    rw [if_pos h]
    refine List.mem_append_right _ ?_
    simp
  · refine ⟨⟨((groupTriples assignments).enum.map (fun p =>
      (⟨p.1, "GRP-" ++ p.2.1 ++ "-" ++ toString p.2.2.1 ++ "-" ++ toString p.1,
        "group", some p.2.1, "Ronda " ++ toString p.2.2.1,
        some p.2.2.2.1, some p.2.2.2.2, none, none, false⟩ : MatchDefinition))).length + 6,
      "FINAL", "final", none, "Final", none, none,
      some (_placeholder_winner "SF1"), some (_placeholder_winner "SF2"), true⟩,
      ?_, rfl, rfl, rfl⟩
    unfold build_matches
    rw [if_neg (by omega), if_pos h]
    refine List.mem_append_right _ ?_
    simp

/-- The exactly-one-slot constraint of the CP model makes the extraction
loop of `solve_schedule` succeed for that match. -/
theorem extractSlot_isSome_of_one (slots : List Slot) (x : Nat → Nat → Bool) (mid : Nat)
    (h : countTrue (slots.map (fun s => x mid s.index)) = 1) :
    ∃ s, extractSlot slots x mid = some s := by
  unfold countTrue at h
  rw [List.countP_map] at h
  simp only [Function.comp_def, id_eq] at h
  have hpos : 0 < slots.countP (fun s => x mid s.index) := by omega
  obtain ⟨s, hs, hx⟩ := List.countP_pos.mp hpos
  unfold extractSlot
  have hsome : (slots.find? (fun s => x mid s.index)).isSome := by
    rw [List.find?_isSome]
    exact ⟨s, hs, hx⟩
  obtain ⟨s2, hs2⟩ := Option.isSome_iff_exists.mp hsome
  exact ⟨s2, hs2⟩

/-- Counterexample for C5 as stated: an 8-team event (structure: 2 series,
playoff_teams = 4) run through the full-schedule pipeline on a feasible
solver assignment neither fails nor schedules only group matches — the
returned schedule contains exactly 4 non-group (playoff skeleton) DTOs. -/
theorem c5_counterexample :
    determine_tournament_structure c5_teams.length = .ok ⟨2, 4⟩ ∧
    CpFeasible (build_matches ⟨2, 4⟩ (_build_series_assignments c5_teams 2))
      c5_slots c9_config c5_x c5_d ∧
    (build_event_schedule_core c5_teams [⟨1, "Cancha"⟩] 0 3 c9_config c5_x).map
      (fun dtos => dtos.countP (fun dto => !(dto.fase == "group"))) = .ok 4 :=
  ⟨by decide, by decide, by decide⟩

/-- C5 (corrected): `build_event_schedule` does not restrict itself to the
group phase. Whenever the team count implies a playoff (playoff_teams 4 or
8), `build_matches` already contains the unresolvable playoff skeleton, and
on any feasible solver assignment the full-schedule pipeline succeeds and
its output contains a scheduled `final`-phase match whose participants are
both unresolved placeholders. -/
theorem c5_full_schedule_schedules_playoffs
    (teams : List Team) (venues : List Venue) (sd ed : Int)
    (config : ScheduleConfig) (x : Nat → Nat → Bool) (d : Nat → Nat)
    (tstruct : TournamentStructure)
    (hts : determine_tournament_structure teams.length = .ok tstruct)
    (hp : tstruct.playoff_teams = 4 ∨ tstruct.playoff_teams = 8)
    (slots : List Slot)
    (hslots : build_slots sd ed config venues = .ok slots)
    (hlen : ¬ slots.length <
      (build_matches tstruct (_build_series_assignments teams tstruct.series)).length)
    (hcp : CpFeasible
      (build_matches tstruct (_build_series_assignments teams tstruct.series))
      slots config x d) :
    ∃ dtos, build_event_schedule_core teams venues sd ed config x = .ok dtos ∧
      ∃ dto ∈ dtos, dto.fase = "final" ∧
        dto.equipo_local_id = none ∧ dto.equipo_visitante_id = none := by
  obtain ⟨mf, hmf, hfase, hloc, hvis⟩ :=
    final_match_mem_build_matches tstruct (_build_series_assignments teams tstruct.series) hp
  obtain ⟨s, hs⟩ := extractSlot_isSome_of_one slots x mf.internal_id (hcp.1 mf hmf)
  refine ⟨buildDTOs (build_matches tstruct (_build_series_assignments teams tstruct.series))
    slots x, ?_, ?_⟩
  · unfold build_event_schedule_core
    rw [hts]
    dsimp only
    rw [hslots]
    dsimp only
    rw [if_neg hlen]
  · refine ⟨dtoForMatch mf s, ?_, ?_, ?_, ?_⟩
    · unfold buildDTOs
      rw [mem_stableSort]
      exact List.mem_filterMap.mpr ⟨mf, hmf, by rw [hs]; rfl⟩
    · simp [dtoForMatch, hfase]
    · simp [dtoForMatch, hloc]
    · simp [dtoForMatch, hvis]

/-- Witness for the amended C5 theorem at the concrete 8-team instance. -/
theorem c5_witness :
    ∃ dtos, build_event_schedule_core c5_teams [⟨1, "Cancha"⟩] 0 3 c9_config c5_x =
      .ok dtos ∧
      ∃ dto ∈ dtos, dto.fase = "final" ∧
        dto.equipo_local_id = none ∧ dto.equipo_visitante_id = none :=
  c5_full_schedule_schedules_playoffs c5_teams [⟨1, "Cancha"⟩] 0 3 c9_config c5_x c5_d
    ⟨2, 4⟩ (by decide) (Or.inl rfl) c5_slots (by decide) (by decide) (by decide)

/-- The phase filter shared by `_is_phase_complete` and `_resolve_next_stage`
(data_service.py): matches of the given phase, with `third_place` counting
as part of the `final` phase. -/
def phaseMatches (ms : List Partido) (phase : String) : List Partido :=
  ms.filter (fun m => strLower (m.fase.getD "") == phase ||
    (phase == "final" && strLower (m.fase.getD "") == "third_place"))

/-- Embeds `_is_phase_complete` (data_service.py lines 1318-1328). -/
def _is_phase_complete (ms : List Partido) (phase : String) : Bool :=
  let pm := phaseMatches ms (strLower phase)
  !pm.isEmpty && pm.all (fun m => strLower (m.estado.getD "") == "finalizado")

/-- The `for idx, phase in enumerate(sequence)` loop of `_resolve_next_stage`. -/
def resolveNextLoop (ms : List Partido) (seq : List String) :
    List (Nat × String) → Option String
  | [] => none
  | (idx, phase) :: rest =>
    if (phaseMatches ms phase).isEmpty then
      if idx = 0 then some phase
      else if _is_phase_complete ms (seq.getD (idx - 1) "") then some phase
      else none
    else if !(_is_phase_complete ms phase) then none
    else resolveNextLoop ms seq rest

/-- Embeds `_resolve_next_stage` (data_service.py lines 1331-1352). -/
def _resolve_next_stage (tstruct : TournamentStructure) (ms : List Partido) :
    Option String :=
  let seq := resolve_stage_sequence tstruct.playoff_teams
  if ms.isEmpty then seq.head?
  else resolveNextLoop ms seq seq.enum

/-- Embeds the `target_phases` filter of `generate_event_schedule`:
definitions of the next stage, with `third_place` added when the next stage
is `final`. -/
def stage_definitions_of (full : List MatchDefinition) (next_stage : String) :
    List MatchDefinition :=
  full.filter (fun d => strLower d.fase == next_stage ||
    (next_stage == "final" && strLower d.fase == "third_place"))

/-- Embeds `team_lookup = {team.id: team for team in teams if team.id is not None}`. -/
def teamLookupOf (teams : List Team) : List (Int × Team) :=
  teams.foldl (fun acc t =>
    match t.id with
    | some i => dictSet acc i t
    | none => acc) []

/-- Embeds the `global_rankings` construction of `generate_event_schedule`:
all series standings concatenated and sorted with the standing sort key. -/
def global_rankings_of (standings : List (String × List TeamStanding)) :
    List TeamStanding :=
  stableSort _standing_sort_le (standings.flatMap (fun p => p.2))

/-- Embeds `team_lookup.get(tid, Team(id=tid, nombre=fallback))`. -/
def lookupTeamW (lookup : List (Int × Team)) (tid : Int) (fallback : String) : Team :=
  (dictGet lookup tid).getD ⟨some tid, fallback⟩

/-- One iteration of the `winners_map` loop of `generate_event_schedule`
(Python truthiness: a missing or empty `llave`, a falsy winner id, and a
falsy loser id all skip their entry). -/
def winnersMapStep (team_lookup : List (Int × Team)) (wm : List (String × Team))
    (m : Partido) : List (String × Team) :=
  match m.llave with
  | none => wm
  | some code =>
    if code = "" then wm
    else if strLower (m.estado.getD "") ≠ "finalizado" then wm
    else
      match m.ganador_inscripcion_id with
      | none => wm
      | some winner_id =>
        if winner_id = 0 then wm
        else
          let winner := lookupTeamW team_lookup winner_id "Ganador"
          let wm2 := dictSet wm ("Ganador " ++ code) winner
          match (if m.equipo_local_id == some winner_id then m.equipo_visitante_id
                 else m.equipo_local_id) with
          | none => wm2
          | some loser_id =>
            if loser_id = 0 then wm2
            else dictSet wm2 ("Perdedor " ++ code) (lookupTeamW team_lookup loser_id "Perdedor")

/-- The whole `winners_map` of one `generate_event_schedule` run. -/
def winners_map_of (team_lookup : List (Int × Team)) (ms : List Partido) :
    List (String × Team) :=
  ms.foldl (winnersMapStep team_lookup) []

/-- Embeds the final-fallback block of `generate_event_schedule` (reached only
when the next stage is `final` and no skeleton definition survives the phase
filter): rank everyone and pit the top two in a synthetic FINAL. -/
def finalFallback (next_stage : String) (stage_defs : List MatchDefinition)
    (global : List TeamStanding) (team_lookup : List (Int × Team)) (teams : List Team) :
    Except String (List MatchDefinition) :=
  if stage_defs.isEmpty && next_stage == "final" then
    let all_ranked := if global.isEmpty then
        teams.map (fun t =>
          (⟨match t.id with
            | some i => (dictGet team_lookup i).getD t
            | none => t, none, 0, 0, 0, 0, 0, 0⟩ : TeamStanding))
      else global
    match stableSort _standing_sort_le all_ranked with
    | t0 :: t1 :: _ =>
      .ok (stage_defs ++ [⟨9999, "FINAL", "final", none, "Final",
        some t0.team, some t1.team, none, none, true⟩])
    | _ => .error "Se requieren al menos dos equipos para disputar la final"
  else .ok stage_defs

/-- One iteration of the `for definition in stage_definitions` loop of
`generate_event_schedule`: winners-map lookup (`winners_map.get(...) or
resolve_seed_team(...)`), the threaded `used_seed_ids`, the 409 check for a
playoff match with an undefinable side, and the rebuilt `MatchDefinition`. -/
def prepare_definition (next_stage : String)
    (standings : List (String × List TeamStanding)) (global : List TeamStanding)
    (wm : List (String × Team))
    (acc : List MatchDefinition × List (Option Int)) (d : MatchDefinition) :
    Except String (List MatchDefinition × List (Option Int)) :=
  let r1 : Option Team × Option String × List (Option Int) :=
    match d.placeholder_local with
    | some pl =>
      if pl = "" then (d.«local», d.placeholder_local, acc.2)
      else
        match dictGet wm pl with
        | some w => (some w, none, acc.2)
        | none =>
          match resolve_seed_team pl standings global acc.2 with
          | (some t, used2) => (some t, none, used2)
          | (none, used2) => (d.«local», d.placeholder_local, used2)
    | none => (d.«local», d.placeholder_local, acc.2)
  let r2 : Option Team × Option String × List (Option Int) :=
    match d.placeholder_visitante with
    | some pv =>
      if pv = "" then (d.visitante, d.placeholder_visitante, r1.2.2)
      else
        match dictGet wm pv with
        | some w => (some w, none, r1.2.2)
        | none =>
          match resolve_seed_team pv standings global r1.2.2 with
          | (some t, used2) => (some t, none, used2)
          | (none, used2) => (d.visitante, d.placeholder_visitante, used2)
    | none => (d.visitante, d.placeholder_visitante, r1.2.2)
  if next_stage ≠ "group" ∧
      ((r1.1 = none ∧ r1.2.1 = none) ∨ (r2.1 = none ∧ r2.2.1 = none)) then
    .error "Aún no se pueden definir los equipos clasificados para la siguiente fase"
  else
    .ok (acc.1 ++ [⟨d.internal_id, d.code, d.fase, d.serie, d.ronda,
      r1.1, r2.1, r1.2.1, r2.2.1, d.is_playoff⟩], r2.2.2)

/-- Pure core of the stage-generation slice of `generate_event_schedule`
(data_service.py lines 4005-4120): structure from the team count, next stage
from the existing fixture, phase filter over `build_matches`, standings and
global rankings from the stored rows, the final fallback, the winners map,
and the preparation loop; the two `ApplicationError` raises become
`Except.error`. It returns the next stage together with the prepared
definitions handed to `schedule_stage_matches`. -/
def generate_event_schedule_core (teams : List Team) (existing : List Partido) :
    Except String (String × List MatchDefinition) :=
  match determine_tournament_structure teams.length with
  | .error e => .error e
  | .ok tstruct =>
    match _resolve_next_stage tstruct existing with
    | none => .error "No hay etapas pendientes o la fase actual aún no concluye"
    | some next_stage =>
      let assignments := _build_series_assignments teams tstruct.series
      let full_definitions := build_matches tstruct assignments
      let stage_defs := stage_definitions_of full_definitions next_stage
      let team_lookup := teamLookupOf teams
      let standings := compute_group_standings existing team_lookup
      let global := global_rankings_of standings
      match finalFallback next_stage stage_defs global team_lookup teams with
      | .error e => .error e
      | .ok stage_defs2 =>
        let wm := winners_map_of team_lookup existing
        match stage_defs2.foldlM (prepare_definition next_stage standings global wm)
            ([], []) with
        | .error e => .error e
        | .ok acc => .ok (next_stage, acc.1)

/-- Teams of the concrete C6 instance: 8 teams, so the structure is 2 series
with playoff_teams = 4 (Serie A gets ids 1,3,5,7; Serie B gets 2,4,6,8). -/
def c6_teams : List Team :=
  [⟨some 1, "E1"⟩, ⟨some 2, "E2"⟩, ⟨some 3, "E3"⟩, ⟨some 4, "E4"⟩,
   ⟨some 5, "E5"⟩, ⟨some 6, "E6"⟩, ⟨some 7, "E7"⟩, ⟨some 8, "E8"⟩]

/-- A stored group-match row of the C6 instance: the listed `local` team
beats the visitor 2-1. -/
def c6_row (serie : String) (l v : Int) (code estado : String) : Partido :=
  ⟨some "group", some serie, some l, some v, some 2, some 1, some estado,
   some code, some l, none, none, none⟩

/-- The 12 group matches of the C6 instance (the exact round-robin pairings
`build_matches` emits for 8 teams in 2 series), all finalized. -/
def c6_finalized : List Partido :=
  [c6_row "Serie A" 1 7 "GRP-Serie A-1-0" "Finalizado",
   c6_row "Serie A" 3 5 "GRP-Serie A-1-1" "Finalizado",
   c6_row "Serie A" 1 5 "GRP-Serie A-2-2" "Finalizado",
   c6_row "Serie A" 7 3 "GRP-Serie A-2-3" "Finalizado",
   c6_row "Serie A" 1 3 "GRP-Serie A-3-4" "Finalizado",
   c6_row "Serie A" 5 7 "GRP-Serie A-3-5" "Finalizado",
   c6_row "Serie B" 2 8 "GRP-Serie B-1-6" "Finalizado",
   c6_row "Serie B" 4 6 "GRP-Serie B-1-7" "Finalizado",
   c6_row "Serie B" 2 6 "GRP-Serie B-2-8" "Finalizado",
   c6_row "Serie B" 8 4 "GRP-Serie B-2-9" "Finalizado",
   c6_row "Serie B" 2 4 "GRP-Serie B-3-10" "Finalizado",
   c6_row "Serie B" 6 8 "GRP-Serie B-3-11" "Finalizado"]

/-- The same fixture with the first group match still pending. -/
def c6_unfinished : List Partido :=
  c6_row "Serie A" 1 7 "GRP-Serie A-1-0" "Programado" :: c6_finalized.tail

set_option maxRecDepth 4000 in
/-- C6: on an 8-team tournament (playoff_teams = 4) whose 12 group matches
are all finalized, the next-stage slice of `generate_event_schedule` does
return exactly 2 semifinal matches, but their participants are NOT resolved:
both sides stay `None` with the seed placeholders intact, because the
standings are keyed by the full series labels (`Serie A`, `Serie B`) while
`resolve_seed_team` strips `"1° Serie "` from the label and looks up the
bare letter (`A`), so every seed lookup misses. And with one group match
still pending, the slice raises the 409 error instead of returning zero
matches. -/
theorem c6_next_stage_semifinals_unresolved :
    generate_event_schedule_core c6_teams c6_finalized =
      .ok ("semifinal",
        [⟨12, "SF1", "semifinal", none, "Semifinal 1", none, none,
          some "1° Serie A", some "2° Serie B", true⟩,
         ⟨13, "SF2", "semifinal", none, "Semifinal 2", none, none,
          some "1° Serie B", some "2° Serie A", true⟩]) ∧
    (compute_group_standings c6_finalized (teamLookupOf c6_teams)).map
      (fun p => p.1) = ["Serie A", "Serie B"] ∧
    resolve_seed_team "1° Serie A"
      (compute_group_standings c6_finalized (teamLookupOf c6_teams))
      (global_rankings_of (compute_group_standings c6_finalized (teamLookupOf c6_teams)))
      [] = (none, []) ∧
    generate_event_schedule_core c6_teams c6_unfinished =
      .error "No hay etapas pendientes o la fase actual aún no concluye" :=
  ⟨by decide, by decide, by decide, by decide⟩

/-- The number of rounds the loop emits is its counter. -/
theorem rrLoop_length (n : Nat) : ∀ (k : Nat) (l : List Team), (rrLoop n k l).length = k := by
  intro k
  induction k with
  | zero => intro l; rfl
  | succ k ih => intro l; simp [rrLoop, ih]

/-- No side of an emitted pairing is named BYE (the skip in the inner loop). -/
theorem roundPairsAt_no_bye (n : Nat) (l : List Team) :
    ∀ pr ∈ roundPairsAt n l, pr.1.nombre ≠ "BYE" ∧ pr.2.nombre ≠ "BYE" := by
  intro pr hpr
  obtain ⟨i, _, hF⟩ := List.mem_filterMap.mp hpr
  rcases h1 : l.get? i with _ | home
  · rw [h1] at hF; cases hF
  · rcases h2 : l.get? (n - 1 - i) with _ | away
    · rw [h1, h2] at hF; cases hF
    · rw [h1, h2] at hF
      dsimp only at hF
      by_cases hb : (home.nombre == "BYE" || away.nombre == "BYE") = true
      · rw [if_pos hb] at hF; cases hF
      · rw [if_neg hb] at hF
        cases hF
        simp only [Bool.or_eq_true, beq_iff_eq, not_or] at hb
        exact hb

/-- Every round the loop produces is a `roundPairsAt` of some list. -/
theorem rrLoop_rounds (n : Nat) : ∀ (k : Nat) (l : List Team) (round : List (Team × Team)),
    round ∈ rrLoop n k l → ∃ l2, round = roundPairsAt n l2 := by
  intro k
  induction k with
  | zero => intro l round h; cases h
  | succ k ih =>
    intro l round h
    rcases List.mem_cons.mp h with h1 | h2
    · exact ⟨l, h1⟩
    · exact ih (_rotate l) round h2


/-- Iterating the rotation step of `_round_robin_pairs`. -/
def rotIter : Nat → List Team → List Team
  | 0, l => l
  | Nat.succ k, l => rotIter k (_rotate l)

/-- The rotation preserves the length of lists with at least two elements. -/
theorem _rotate_length (l : List Team) (h : 2 ≤ l.length) :
    (_rotate l).length = l.length := by
  match l, h with
  | t :: u :: rest, _ => simp [_rotate]

/-- Every element of the rotated list was in the original list. -/
theorem _rotate_mem (l : List Team) : ∀ z ∈ _rotate l, z ∈ l := by
  match l with
  | [] => intro z h; cases h
  | [t] =>
    intro z h
    rcases List.mem_cons.mp h with h1 | h2
    · rw [h1]; exact List.mem_singleton_self t
    · rcases List.mem_cons.mp h2 with h3 | h4
      · rw [h3]; exact List.mem_singleton_self t
      · cases h4
  | t :: u :: rest =>
    intro z h
    rcases List.mem_cons.mp h with h1 | h2
    · rw [h1]; exact List.mem_cons_self t _
    · rcases List.mem_cons.mp h2 with h3 | h4
      · rw [h3]
        exact List.mem_cons_of_mem t (List.getLast_mem (by simp))
      · exact List.mem_cons_of_mem t (List.dropLast_subset _ h4)

/-- Iterated rotation preserves the length. -/
theorem rotIter_length (j : Nat) : ∀ (l : List Team), 2 ≤ l.length →
    (rotIter j l).length = l.length := by
  induction j with
  | zero => intro l _; rfl
  | succ j ih =>
    intro l h
    rw [rotIter, ih (_rotate l) (by rw [_rotate_length l h]; exact h),
      _rotate_length l h]

/-- Every element of an iterated rotation was in the original list. -/
theorem rotIter_mem (j : Nat) : ∀ (l : List Team), ∀ z ∈ rotIter j l, z ∈ l := by
  induction j with
  | zero => intro l z h; exact h
  | succ j ih =>
    intro l z h
    exact _rotate_mem l z (ih (_rotate l) z h)

/-- Unfolding one rotation from the outside. -/
theorem rotIter_succ_comm (j : Nat) : ∀ (l : List Team),
    rotIter (j + 1) l = _rotate (rotIter j l) := by
  induction j with
  | zero => intro l; rfl
  | succ j ih =>
    intro l
    rw [rotIter, ih (_rotate l)]
    rfl

/-- The position permutation of one rotation step: position 0 is fixed,
position 1 reads the old last position, and every later position shifts by
one. -/
def sigmaPos (n p : Nat) : Nat :=
  if p = 0 then 0 else if p = 1 then n - 1 else p - 1

/-- `dropLast` agrees with the original list away from the last position. -/
theorem get?_dropLast (l : List Team) : ∀ (q : Nat), q + 1 < l.length →
    l.dropLast.get? q = l.get? q := by
  match l with
  | [] => intro q h; simp at h
  | [a] => intro q h; simp at h
  | a :: b :: t =>
    intro q h
    show (a :: (b :: t).dropLast).get? q = (a :: b :: t).get? q
    match q with
    | 0 => rfl
    | Nat.succ q2 =>
      rw [List.get?_cons_succ, List.get?_cons_succ]
      exact get?_dropLast (b :: t) q2 (by simp only [List.length_cons] at h ⊢; omega)

/-- Reading the rotated list at a position within bounds. -/
theorem _rotate_get (l : List Team) (h2 : 2 ≤ l.length) (p : Nat) (hp : p < l.length) :
    (_rotate l).get? p = l.get? (sigmaPos l.length p) := by
  match l, h2 with
  | t :: u :: rest, _ =>
    match p with
    | 0 => rfl
    | 1 =>
      show some ((u :: rest).getLast (by simp)) = (t :: u :: rest).get? ((u :: rest).length)
      have hlen : (u :: rest).length = rest.length + 1 := by simp
      rw [hlen, List.get?_cons_succ,
        List.get?_eq_get (show rest.length < (u :: rest).length by simp)]
      congr 1
      rw [List.getLast_eq_get]
      congr 1
      try simp
    | Nat.succ (Nat.succ q) =>
      show ((u :: rest).dropLast).get? q = (t :: u :: rest).get? (q + 1)
      rw [List.get?_cons_succ]
      exact get?_dropLast (u :: rest) q
        (by simp only [List.length_cons] at hp ⊢; omega)

/-- The position of original data read by round `r`: position 0 is fixed and
position `p ≥ 1` reads original position `1 + ((p - 1) + ((n-1) - r)) % (n-1)`. -/
def posOf (n r p : Nat) : Nat :=
  if p = 0 then 0 else 1 + ((p - 1) + ((n - 1) - r)) % (n - 1)

/-- `posOf` composed with one rotation step advances the round. -/
theorem posOf_sigma (n j p : Nat) (h2 : 2 ≤ n) (hj : j + 1 ≤ n - 1) (hp : p < n) :
    posOf n j (sigmaPos n p) = posOf n (j + 1) p := by
  match p with
  | 0 => rfl
  | 1 =>
    show posOf n j (n - 1) = posOf n (j + 1) 1
    unfold posOf
    rw [if_neg (by omega), if_neg (by omega)]
    have harg : (n - 1 - 1) + ((n - 1) - j) = ((n - 1) - (j + 1)) + (n - 1) := by omega
    rw [harg, Nat.add_mod_right]
    have h0 : 1 - 1 + ((n - 1) - (j + 1)) = (n - 1) - (j + 1) := by omega
    rw [h0]
  | Nat.succ (Nat.succ q) =>
    show posOf n j (q + 1) = posOf n (j + 1) (q + 2)
    unfold posOf
    rw [if_neg (by omega), if_neg (by omega)]
    have harg : (q + 1 - 1) + ((n - 1) - j) = (q + 2 - 1) + ((n - 1) - (j + 1)) := by
      omega
    rw [harg]

/-- `posOf` stays within bounds. -/
theorem posOf_lt (n r p : Nat) (h2 : 2 ≤ n) : posOf n r p < n := by
  unfold posOf
  split
  · omega
  · have := Nat.mod_lt ((p - 1) + ((n - 1) - r)) (show 0 < n - 1 by omega)
    omega

/-- Reading an iterated rotation through `posOf`. -/
theorem rotIter_get (l : List Team) (h2 : 2 ≤ l.length) :
    ∀ (j : Nat), j ≤ l.length - 1 - 1 + 1 → ∀ (p : Nat), p < l.length →
      (rotIter j l).get? p = l.get? (posOf l.length j p) := by
  intro j
  induction j with
  | zero =>
    intro _ p hp
    show l.get? p = l.get? (posOf l.length 0 p)
    congr 1
    unfold posOf
    split
    · omega
    · have h1 : (p - 1) + (l.length - 1 - 0) = (p - 1) + (l.length - 1) := by omega
      rw [h1, Nat.add_mod_right,
        Nat.mod_eq_of_lt (show p - 1 < l.length - 1 by omega)]
      omega
  | succ j ih =>
    intro hj p hp
    rw [rotIter_succ_comm]
    rw [_rotate_get (rotIter j l) (by rw [rotIter_length j l h2]; exact h2) p
      (by rw [rotIter_length j l h2]; exact hp)]
    rw [rotIter_length j l h2]
    have hsig : sigmaPos l.length p < l.length := by
      unfold sigmaPos
      split
      · omega
      · split <;> omega
    rw [ih (by omega) (sigmaPos l.length p) hsig]
    rw [posOf_sigma l.length j p h2 (by omega) hp]


/-- A `filterMap` whose function always fires is a `map`. -/
theorem filterMap_all_some {α β : Type} (f : α → Option β) (g : α → β) :
    ∀ (l : List α), (∀ a ∈ l, f a = some (g a)) → l.filterMap f = l.map g := by
  intro l
  induction l with
  | nil => intro _; rfl
  | cons a rest ih =>
    intro h
    rw [List.filterMap_cons, h a (List.mem_cons_self a rest), List.map_cons,
      ih (fun b hb => h b (List.mem_cons_of_mem a hb))]

/-- `get?` within bounds through `getD`. -/
theorem get?_eq_getD (l : List Team) (k : Nat) (d : Team) (h : k < l.length) :
    l.get? k = some (l.getD k d) := by
  rcases hx : l.get? k with _ | t
  · have := List.get?_eq_none.mp hx
    omega
  · rw [List.getD_eq_get?, hx]
    rfl

/-- `getD` within bounds is a member. -/
theorem getD_mem (l : List Team) (k : Nat) (d : Team) (h : k < l.length) :
    l.getD k d ∈ l := by
  have hx := get?_eq_getD l k d h
  exact List.get?_mem hx

/-- Reference description of round `r` of the circle method on a BYE-free
even-length list: slot `i` pits the team at original position `posOf n r i`
against the one at `posOf n r (n - 1 - i)`. -/
def modelRound (teams : List Team) (r : Nat) : List (Team × Team) :=
  (List.range (teams.length / 2)).map (fun i =>
    (teams.getD (posOf teams.length r i) BYE_TEAM,
     teams.getD (posOf teams.length r (teams.length - 1 - i)) BYE_TEAM))

/-- On a BYE-free list, round `r` of the loop is exactly the reference round. -/
theorem roundPairsAt_rotIter (teams : List Team) (h2 : 2 ≤ teams.length)
    (hnobye : ∀ t ∈ teams, t.nombre ≠ "BYE") (j : Nat) (hj : j ≤ teams.length - 2) :
    roundPairsAt teams.length (rotIter j teams) = modelRound teams j := by
  unfold roundPairsAt modelRound
  apply filterMap_all_some
  intro i hi
  have hihalf : i < teams.length / 2 := List.mem_range.mp hi
  have hi_lt : i < teams.length := by omega
  have hni_lt : teams.length - 1 - i < teams.length := by omega
  have hjb : j ≤ teams.length - 1 - 1 + 1 := by omega
  have hget1 := rotIter_get teams h2 j hjb i hi_lt
  have hget2 := rotIter_get teams h2 j hjb (teams.length - 1 - i) hni_lt
  rw [get?_eq_getD teams _ BYE_TEAM (posOf_lt teams.length j i h2)] at hget1
  rw [get?_eq_getD teams _ BYE_TEAM
    (posOf_lt teams.length j (teams.length - 1 - i) h2)] at hget2
  rw [hget1, hget2]
  dsimp only
  rw [if_neg]
  simp only [Bool.or_eq_true, beq_iff_eq]
  push_neg
  constructor
  · exact hnobye _ (getD_mem teams _ BYE_TEAM (posOf_lt teams.length j i h2))
  · exact hnobye _ (getD_mem teams _ BYE_TEAM
      (posOf_lt teams.length j (teams.length - 1 - i) h2))

/-- The loop from round `j` onwards emits the reference rounds `j ≤ r < n-1`. -/
theorem rrLoop_model (teams : List Team) (h2 : 2 ≤ teams.length)
    (hnobye : ∀ t ∈ teams, t.nombre ≠ "BYE") :
    ∀ (k j : Nat), j + k = teams.length - 1 →
      rrLoop teams.length k (rotIter j teams) =
        (List.range' j k).map (modelRound teams) := by
  intro k
  induction k with
  | zero => intro j _; rfl
  | succ k ih =>
    intro j hjk
    show roundPairsAt teams.length (rotIter j teams) ::
      rrLoop teams.length k (_rotate (rotIter j teams)) = _
    rw [← rotIter_succ_comm, roundPairsAt_rotIter teams h2 hnobye j (by omega),
      ih (j + 1) (by omega)]
    rfl

/-- For an even, BYE-free team list the whole loop output is the reference
round list. -/
theorem round_robin_model (teams : List Team) (h2 : 2 ≤ teams.length)
    (heven : teams.length % 2 = 0)
    (hnobye : ∀ t ∈ teams, t.nombre ≠ "BYE") :
    _round_robin_pairs teams =
      (List.range (teams.length - 1)).map (modelRound teams) := by
  unfold _round_robin_pairs
  rw [if_neg (by omega)]
  show rrLoop teams.length (teams.length - 1) teams =
    (List.range (teams.length - 1)).map (modelRound teams)
  rw [List.range_eq_range']
  exact rrLoop_model teams h2 hnobye (teams.length - 1) 0 (by omega)


/-- The emitted position pairs of the whole reference schedule. -/
def modelIdx (n : Nat) : List (Nat × Nat) :=
  (List.range (n - 1)).flatMap (fun r =>
    (List.range (n / 2)).map (fun i => (posOf n r i, posOf n r (n - 1 - i))))

/-- Unordered-pair membership test against the positions `x` and `y`. -/
def pairMatch (x y : Nat) (q : Nat × Nat) : Bool :=
  (q.1 == x && q.2 == y) || (q.1 == y && q.2 == x)

/-- The two sought positions play a symmetric role. -/
theorem pairMatch_comm (x y : Nat) (q : Nat × Nat) :
    pairMatch x y q = pairMatch y x q := by
  unfold pairMatch
  exact Bool.or_comm _ _

/-- Equal numbers with equal remainders, bounded by the modulus, coincide. -/
theorem modeq_eq_of_lt {a b m : Nat} (h : a ≡ b [MOD m]) (ha : a < m) (hb : b < m) :
    a = b := by
  have h2 : a % m = b % m := h
  rwa [Nat.mod_eq_of_lt ha, Nat.mod_eq_of_lt hb] at h2

/-- Every emitted position pair is a pair of distinct in-range positions. -/
theorem modelIdx_valid (n : Nat) (h2 : 2 ≤ n) (heven : n % 2 = 0) :
    ∀ q ∈ modelIdx n, q.1 < n ∧ q.2 < n ∧ q.1 ≠ q.2 := by
  intro q hq
  obtain ⟨r, hr, hq2⟩ := List.mem_flatMap.mp hq
  obtain ⟨i, hi, hq3⟩ := List.mem_map.mp hq2
  have hi2 : i < n / 2 := List.mem_range.mp hi
  subst hq3
  refine ⟨posOf_lt n r i h2, posOf_lt n r (n - 1 - i) h2, ?_⟩
  intro heq
  unfold posOf at heq
  by_cases hz : i = 0
  · rw [if_pos hz, if_neg (by omega)] at heq
    omega
  · rw [if_neg hz, if_neg (by omega)] at heq
    have hmod : (i - 1) + ((n - 1) - r) ≡ ((n - 1 - i) - 1) + ((n - 1) - r)
        [MOD (n - 1)] := by
      have : (i - 1 + ((n - 1) - r)) % (n - 1) =
          ((n - 1 - i - 1) + ((n - 1) - r)) % (n - 1) := by omega
      exact this
    have hcan := Nat.ModEq.add_right_cancel' ((n - 1) - r) hmod
    have heq2 : i - 1 = (n - 1 - i) - 1 :=
      modeq_eq_of_lt hcan (by omega) (by omega)
    omega

/-- The sum of a constant over a list. -/
theorem sum_map_const {α : Type} (l : List α) (c : Nat) :
    (l.map (fun _ => c)).sum = l.length * c := by
  induction l with
  | nil => simp
  | cons a rest ih =>
    rw [List.map_cons, List.sum_cons, ih, List.length_cons]
    ring

/-- The reference schedule emits `(n-1) * (n/2)` position pairs. -/
theorem modelIdx_length (n : Nat) : (modelIdx n).length = (n - 1) * (n / 2) := by
  unfold modelIdx
  rw [List.length_flatMap]
  simp only [Function.comp_def, List.length_map, List.length_range]
  rw [sum_map_const, List.length_range]

/-- All unordered pairs of positions below `n`, each exactly once, in
lexicographic order. -/
def allIdxPairs : Nat → List (Nat × Nat)
  | 0 => []
  | Nat.succ k => allIdxPairs k ++ (List.range k).map (fun x => (x, k))

/-- Entries of the pair enumeration are sorted and in range. -/
theorem allIdxPairs_valid (n : Nat) : ∀ q ∈ allIdxPairs n, q.1 < q.2 ∧ q.2 < n := by
  induction n with
  | zero => intro q h; cases h
  | succ k ih =>
    intro q h
    rcases List.mem_append.mp h with h1 | h2
    · have := ih q h1
      omega
    · obtain ⟨x, hx, hq⟩ := List.mem_map.mp h2
      have := List.mem_range.mp hx
      subst hq
      omega

/-- Every sorted in-range pair is enumerated. -/
theorem allIdxPairs_mem (n : Nat) : ∀ (x y : Nat), x < y → y < n →
    (x, y) ∈ allIdxPairs n := by
  induction n with
  | zero => intro x y _ h; omega
  | succ k ih =>
    intro x y hxy hy
    by_cases hk : y = k
    · refine List.mem_append_right _ ?_
      exact List.mem_map.mpr ⟨x, List.mem_range.mpr (by omega), by rw [hk]⟩
    · exact List.mem_append_left _ (ih x y hxy (by omega))

/-- Twice the number of enumerated pairs is `n * (n - 1)`. -/
theorem allIdxPairs_length (n : Nat) : 2 * (allIdxPairs n).length = n * (n - 1) := by
  induction n with
  | zero => rfl
  | succ k ih =>
    show 2 * (allIdxPairs k ++ (List.range k).map (fun x => (x, k))).length = _
    rw [List.length_append, List.length_map, List.length_range, Nat.mul_add, ih]
    cases k with
    | zero => rfl
    | succ k2 =>
      show (k2 + 1) * (k2 + 1 - 1) + 2 * (k2 + 1) = (k2 + 1 + 1) * (k2 + 1 + 1 - 1)
      have e1 : k2 + 1 - 1 = k2 := rfl
      have e2 : k2 + 1 + 1 - 1 = k2 + 1 := rfl
      rw [e1, e2]
      ring

/-- `countP` only depends on values taken on members. -/
theorem countP_congr_mem {α : Type} (l : List α) (p q : α → Bool)
    (h : ∀ a ∈ l, p a = q a) : l.countP p = l.countP q := by
  induction l with
  | nil => rfl
  | cons a rest ih =>
    rw [List.countP_cons, List.countP_cons, h a (List.mem_cons_self a rest),
      ih (fun b hb => h b (List.mem_cons_of_mem a hb))]

/-- `==` on natural numbers is symmetric. -/
theorem nat_beq_comm (a b : Nat) : (a == b) = (b == a) := by
  by_cases h : a = b
  · rw [h]
  · have h0 : ¬b = a := fun hc => h hc.symm
    have h1 : (a == b) = false := by simp [h]
    have h2 : (b == a) = false := by simp [h0]
    rw [h1, h2]

/-- The enumeration contains each unordered pair exactly once. -/
theorem allIdxPairs_count (n : Nat) : ∀ (x y : Nat), x < n → y < n → x ≠ y →
    (allIdxPairs n).countP (pairMatch x y) = 1 := by
  induction n with
  | zero => intro x y hx _ _; omega
  | succ k ih =>
    intro x y hx hy hxy
    show (allIdxPairs k ++ (List.range k).map (fun x0 => (x0, k))).countP _ = 1
    rw [List.countP_append, List.countP_map]
    by_cases hxk : x = k
    · have hyk : y < k := by omega
      have hz : (allIdxPairs k).countP (pairMatch x y) = 0 := by
        rw [List.countP_eq_zero]
        intro q hq
        have hv := allIdxPairs_valid k q hq
        unfold pairMatch
        simp only [Bool.or_eq_true, Bool.and_eq_true, beq_iff_eq, not_or, not_and]
        omega
      have hc : (List.range k).countP ((pairMatch x y) ∘ (fun x0 => (x0, k))) =
          (List.range k).countP (fun x0 => x0 == y) := by
        apply countP_congr_mem
        intro a ha
        have halt := List.mem_range.mp ha
        unfold pairMatch
        show ((a == x && k == y) || (a == y && k == x)) = (a == y)
        have h1 : (k == y) = false := by
          simp only [beq_eq_false_iff_ne, ne_eq]
          omega
        have h2 : (k == x) = true := by simp [hxk.symm]
        rw [h1, h2, Bool.and_false, Bool.false_or, Bool.and_true]
      rw [hz, hc]
      have : (List.range k).countP (fun x0 => x0 == y) = List.count y (List.range k) := by
        apply countP_congr_mem
        intro a _
        rfl
      rw [this, List.count_eq_one_of_mem (List.nodup_range k)
        (List.mem_range.mpr hyk)]
    · by_cases hyk : y = k
      · have hxk2 : x < k := by omega
        have hz : (allIdxPairs k).countP (pairMatch x y) = 0 := by
          rw [List.countP_eq_zero]
          intro q hq
          have hv := allIdxPairs_valid k q hq
          unfold pairMatch
          simp only [Bool.or_eq_true, Bool.and_eq_true, beq_iff_eq, not_or, not_and]
          omega
        have hc : (List.range k).countP ((pairMatch x y) ∘ (fun x0 => (x0, k))) =
            (List.range k).countP (fun x0 => x0 == x) := by
          apply countP_congr_mem
          intro a ha
          unfold pairMatch
          show ((a == x && k == y) || (a == y && k == x)) = (a == x)
          have h1 : (k == y) = true := by simp [hyk.symm]
          have h2 : (k == x) = false := by
            simp only [beq_eq_false_iff_ne, ne_eq]
            omega
          rw [h1, h2, Bool.and_false, Bool.or_false, Bool.and_true]
        rw [hz, hc]
        have : (List.range k).countP (fun x0 => x0 == x) =
            List.count x (List.range k) := by
          apply countP_congr_mem
          intro a _
          rfl
        rw [this, List.count_eq_one_of_mem (List.nodup_range k)
          (List.mem_range.mpr hxk2)]
      · have hc : (List.range k).countP ((pairMatch x y) ∘ (fun x0 => (x0, k))) = 0 := by
          rw [List.countP_eq_zero]
          intro a ha
          unfold pairMatch
          simp only [Function.comp_apply, Bool.or_eq_true, Bool.and_eq_true,
            beq_iff_eq, not_or, not_and]
          omega
        rw [hc, ih x y (by omega) (by omega) hxy]


/-- Sums of pointwise sums split. -/
theorem sum_map_add {α : Type} (L : List α) (f g : α → Nat) :
    (L.map (fun a => f a + g a)).sum = (L.map f).sum + (L.map g).sum := by
  induction L with
  | nil => rfl
  | cons a rest ih =>
    simp only [List.map_cons, List.sum_cons, ih]
    omega

/-- Summing an indicator counts the satisfying members. -/
theorem sum_indicator {α : Type} (L : List α) (p : α → Bool) :
    (L.map (fun a => if p a then 1 else 0)).sum = L.countP p := by
  induction L with
  | nil => rfl
  | cons a rest ih =>
    rw [List.map_cons, List.sum_cons, ih, List.countP_cons]
    omega

/-- If every entry of `l` matches exactly one enumerated pair, the counts of
all enumerated pairs over `l` sum to the length of `l`. -/
theorem sum_counts (L : List (Nat × Nat)) :
    ∀ (l : List (Nat × Nat)),
      (∀ e ∈ l, L.countP (fun q => pairMatch q.1 q.2 e) = 1) →
      (L.map (fun q => l.countP (pairMatch q.1 q.2))).sum = l.length := by
  intro l
  induction l with
  | nil => simp
  | cons e rest ih =>
    intro h
    have hstep : (L.map (fun q => (e :: rest).countP (pairMatch q.1 q.2))) =
        (L.map (fun q => rest.countP (pairMatch q.1 q.2) +
          (if pairMatch q.1 q.2 e then 1 else 0))) := by
      apply List.map_congr_left
      intro q _
      rw [List.countP_cons]
    rw [hstep, sum_map_add, ih (fun b hb => h b (List.mem_cons_of_mem e hb)),
      sum_indicator, h e (List.mem_cons_self e rest), List.length_cons]

/-- A pointwise lower bound of one bounds the sum by the length. -/
theorem length_le_sum_map {α : Type} (L : List α) (f : α → Nat)
    (h : ∀ a ∈ L, 1 ≤ f a) : L.length ≤ (L.map f).sum := by
  induction L with
  | nil => exact Nat.le_refl 0
  | cons a rest ih =>
    rw [List.map_cons, List.sum_cons, List.length_cons]
    have h1 := h a (List.mem_cons_self a rest)
    have h2 := ih (fun b hb => h b (List.mem_cons_of_mem a hb))
    omega

/-- Entries all at least one summing exactly to the length are all one. -/
theorem all_eq_one_of_sum {α : Type} (L : List α) (f : α → Nat)
    (h1 : ∀ a ∈ L, 1 ≤ f a) (h2 : (L.map f).sum = L.length) :
    ∀ a ∈ L, f a = 1 := by
  induction L with
  | nil => intro a ha; cases ha
  | cons a rest ih =>
    intro b hb
    rw [List.map_cons, List.sum_cons, List.length_cons] at h2
    have ha1 := h1 a (List.mem_cons_self a rest)
    have hge := length_le_sum_map rest f (fun c hc => h1 c (List.mem_cons_of_mem a hc))
    rcases List.mem_cons.mp hb with hba | hbr
    · rw [hba]
      omega
    · exact ih (fun c hc => h1 c (List.mem_cons_of_mem a hc)) (by omega) b hbr

/-- The round and slot that pit original positions `1 + c` and `1 + d`
against each other in the reference schedule: the slot `i0` solves
`2 * i0 ≡ c - d (mod n-1)` and the round is then forced. -/
theorem posOf_witness (n c d i0 : Nat) (h2 : 2 ≤ n) (heven : n % 2 = 0)
    (hc : c < n - 1) (hd : d < n - 1) (hi1 : 1 ≤ i0) (hi2 : 2 * i0 ≤ n - 2)
    (hkey : d + 2 * i0 = c ∨ d + 2 * i0 = (n - 1) + c) :
    posOf n ((i0 - 1 + ((n - 1) - c)) % (n - 1)) i0 = 1 + c ∧
    posOf n ((i0 - 1 + ((n - 1) - c)) % (n - 1)) (n - 1 - i0) = 1 + d := by
  have hm : 0 < n - 1 := by omega
  have hr0lt : (i0 - 1 + ((n - 1) - c)) % (n - 1) < n - 1 :=
    Nat.mod_lt _ hm
  have hse : (i0 - 1 + ((n - 1) - c)) % (n - 1) ≡ i0 - 1 + ((n - 1) - c)
      [MOD (n - 1)] := Nat.mod_modEq _ _
  constructor
  · unfold posOf
    rw [if_neg (by omega)]
    have hX : i0 - 1 + ((n - 1) - (i0 - 1 + ((n - 1) - c)) % (n - 1)) +
        ((i0 - 1 + ((n - 1) - c)) % (n - 1)) = i0 - 1 + (n - 1) := by omega
    have hC : c + (i0 - 1 + ((n - 1) - c)) = i0 - 1 + (n - 1) := by omega
    have step1 : c + ((i0 - 1 + ((n - 1) - c)) % (n - 1)) ≡
        i0 - 1 + (n - 1) [MOD (n - 1)] := by
      have := Nat.ModEq.add_left c hse
      rw [hC] at this
      exact this
    have step2 : i0 - 1 + ((n - 1) - (i0 - 1 + ((n - 1) - c)) % (n - 1)) +
        ((i0 - 1 + ((n - 1) - c)) % (n - 1)) ≡
        c + ((i0 - 1 + ((n - 1) - c)) % (n - 1)) [MOD (n - 1)] := by
      rw [hX]
      exact step1.symm
    have step3 := Nat.ModEq.add_right_cancel' _ step2
    have step4 : (i0 - 1 + ((n - 1) - (i0 - 1 + ((n - 1) - c)) % (n - 1))) %
        (n - 1) ≡ c [MOD (n - 1)] :=
      (Nat.mod_modEq _ _).trans step3
    have hfin := modeq_eq_of_lt step4 (Nat.mod_lt _ hm) hc
    omega
  · unfold posOf
    rw [if_neg (by omega)]
    have hX : n - 1 - i0 - 1 + ((n - 1) - (i0 - 1 + ((n - 1) - c)) % (n - 1)) +
        ((i0 - 1 + ((n - 1) - c)) % (n - 1)) = n - 1 - i0 - 1 + (n - 1) := by omega
    have hD : d + (i0 - 1 + ((n - 1) - c)) ≡ n - 1 - i0 - 1 + (n - 1)
        [MOD (n - 1)] := by
      rcases hkey with hk | hk
      · have hval : d + (i0 - 1 + ((n - 1) - c)) = n - 1 - i0 - 1 := by omega
        rw [hval]
        have : n - 1 - i0 - 1 + (n - 1) ≡ n - 1 - i0 - 1 [MOD (n - 1)] :=
          Nat.add_mod_right _ _
        exact this.symm
      · have hval : d + (i0 - 1 + ((n - 1) - c)) = n - 1 - i0 - 1 + (n - 1) := by
          omega
        rw [hval]
    have step1 : d + ((i0 - 1 + ((n - 1) - c)) % (n - 1)) ≡
        n - 1 - i0 - 1 + (n - 1) [MOD (n - 1)] :=
      (Nat.ModEq.add_left d hse).trans hD
    have step2 : n - 1 - i0 - 1 + ((n - 1) - (i0 - 1 + ((n - 1) - c)) % (n - 1)) +
        ((i0 - 1 + ((n - 1) - c)) % (n - 1)) ≡
        d + ((i0 - 1 + ((n - 1) - c)) % (n - 1)) [MOD (n - 1)] := by
      rw [hX]
      exact step1.symm
    have step3 := Nat.ModEq.add_right_cancel' _ step2
    have step4 : (n - 1 - i0 - 1 + ((n - 1) - (i0 - 1 + ((n - 1) - c)) % (n - 1))) %
        (n - 1) ≡ d [MOD (n - 1)] :=
      (Nat.mod_modEq _ _).trans step3
    have hfin := modeq_eq_of_lt step4 (Nat.mod_lt _ hm) hd
    omega


/-- The emitted pair of round `r`, slot `i` is in the reference schedule. -/
theorem mem_modelIdx (n r i : Nat) (hr : r < n - 1) (hi : i < n / 2) :
    (posOf n r i, posOf n r (n - 1 - i)) ∈ modelIdx n :=
  List.mem_flatMap.mpr ⟨r, List.mem_range.mpr hr,
    List.mem_map.mpr ⟨i, List.mem_range.mpr hi, rfl⟩⟩

/-- Every unordered pair of distinct positions is emitted by some round and
slot of the reference schedule. -/
theorem modelIdx_has_pair (n x y : Nat) (h2 : 2 ≤ n) (heven : n % 2 = 0)
    (hx : x < n) (hy : y < n) (hxy : x ≠ y) :
    ∃ q ∈ modelIdx n, pairMatch x y q = true := by
  by_cases hx0 : x = 0
  · subst hx0
    refine ⟨(posOf n ((n - 1) - y) 0, posOf n ((n - 1) - y) (n - 1 - 0)),
      mem_modelIdx n ((n - 1) - y) 0 (by omega) (by omega), ?_⟩
    have hp1 : posOf n ((n - 1) - y) 0 = 0 := by
      unfold posOf
      rw [if_pos rfl]
    have hp2 : posOf n ((n - 1) - y) (n - 1 - 0) = y := by
      unfold posOf
      rw [if_neg (by omega)]
      have harg : (n - 1 - 0 - 1) + ((n - 1) - ((n - 1) - y)) =
          (y - 1) + (n - 1) := by omega
      rw [harg, Nat.add_mod_right,
        Nat.mod_eq_of_lt (show y - 1 < n - 1 by omega)]
      omega
    rw [hp1, hp2]
    simp [pairMatch]
  · by_cases hy0 : y = 0
    · subst hy0
      refine ⟨(posOf n ((n - 1) - x) 0, posOf n ((n - 1) - x) (n - 1 - 0)),
        mem_modelIdx n ((n - 1) - x) 0 (by omega) (by omega), ?_⟩
      have hp1 : posOf n ((n - 1) - x) 0 = 0 := by
        unfold posOf
        rw [if_pos rfl]
      have hp2 : posOf n ((n - 1) - x) (n - 1 - 0) = x := by
        unfold posOf
        rw [if_neg (by omega)]
        have harg : (n - 1 - 0 - 1) + ((n - 1) - ((n - 1) - x)) =
            (x - 1) + (n - 1) := by omega
        rw [harg, Nat.add_mod_right,
          Nat.mod_eq_of_lt (show x - 1 < n - 1 by omega)]
        omega
      rw [hp1, hp2]
      simp [pairMatch]
    · have e1x : 1 + (x - 1) = x := by omega
      have e1y : 1 + (y - 1) = y := by omega
      rcases Nat.lt_or_ge x y with hlt | hge
      · by_cases hde : (y - x) % 2 = 0
        · obtain ⟨hu, hv⟩ := posOf_witness n (y - 1) (x - 1) ((y - x) / 2) h2 heven
            (by omega) (by omega) (by omega) (by omega) (Or.inl (by omega))
          refine ⟨_, mem_modelIdx n (((y - x) / 2 - 1 + ((n - 1) - (y - 1))) % (n - 1))
            ((y - x) / 2) (Nat.mod_lt _ (by omega)) (by omega), ?_⟩
          rw [hu, hv, e1x, e1y]
          unfold pairMatch
          simp
        · obtain ⟨hu, hv⟩ := posOf_witness n (x - 1) (y - 1)
            (((n - 1) - (y - x)) / 2) h2 heven
            (by omega) (by omega) (by omega) (by omega) (Or.inr (by omega))
          refine ⟨_, mem_modelIdx n
            ((((n - 1) - (y - x)) / 2 - 1 + ((n - 1) - (x - 1))) % (n - 1))
            (((n - 1) - (y - x)) / 2) (Nat.mod_lt _ (by omega)) (by omega), ?_⟩
          rw [hu, hv, e1x, e1y]
          unfold pairMatch
          simp
      · have hlt2 : y < x := by omega
        by_cases hde : (x - y) % 2 = 0
        · obtain ⟨hu, hv⟩ := posOf_witness n (x - 1) (y - 1) ((x - y) / 2) h2 heven
            (by omega) (by omega) (by omega) (by omega) (Or.inl (by omega))
          refine ⟨_, mem_modelIdx n (((x - y) / 2 - 1 + ((n - 1) - (x - 1))) % (n - 1))
            ((x - y) / 2) (Nat.mod_lt _ (by omega)) (by omega), ?_⟩
          rw [hu, hv, e1x, e1y]
          unfold pairMatch
          simp
        · obtain ⟨hu, hv⟩ := posOf_witness n (y - 1) (x - 1)
            (((n - 1) - (x - y)) / 2) h2 heven
            (by omega) (by omega) (by omega) (by omega) (Or.inr (by omega))
          refine ⟨_, mem_modelIdx n
            ((((n - 1) - (x - y)) / 2 - 1 + ((n - 1) - (y - 1))) % (n - 1))
            (((n - 1) - (x - y)) / 2) (Nat.mod_lt _ (by omega)) (by omega), ?_⟩
          rw [hu, hv, e1x, e1y]
          unfold pairMatch
          simp

/-- The reference schedule emits each unordered pair of distinct positions
exactly once. -/
theorem modelIdx_count (n x y : Nat) (h2 : 2 ≤ n) (heven : n % 2 = 0)
    (hx : x < n) (hy : y < n) (hxy : x ≠ y) :
    (modelIdx n).countP (pairMatch x y) = 1 := by
  have heach : ∀ e ∈ modelIdx n,
      (allIdxPairs n).countP (fun q => pairMatch q.1 q.2 e) = 1 := by
    intro e he
    obtain ⟨he1, he2, hne⟩ := modelIdx_valid n h2 heven e he
    have hcong : (allIdxPairs n).countP (fun q => pairMatch q.1 q.2 e) =
        (allIdxPairs n).countP (pairMatch e.1 e.2) := by
      apply countP_congr_mem
      intro q _
      show ((e.1 == q.1 && e.2 == q.2) || (e.1 == q.2 && e.2 == q.1)) =
        ((q.1 == e.1 && q.2 == e.2) || (q.1 == e.2 && q.2 == e.1))
      rw [nat_beq_comm e.1 q.1, nat_beq_comm e.2 q.2, nat_beq_comm e.1 q.2,
        nat_beq_comm e.2 q.1, Bool.and_comm (q.2 == e.1) (q.1 == e.2)]
    rw [hcong]
    exact allIdxPairs_count n e.1 e.2 he1 he2 hne
  have hsum := sum_counts (allIdxPairs n) (modelIdx n) heach
  have hge : ∀ q ∈ allIdxPairs n, 1 ≤ (modelIdx n).countP (pairMatch q.1 q.2) := by
    intro q hq
    obtain ⟨hlt, hq2⟩ := allIdxPairs_valid n q hq
    obtain ⟨e, he, hpe⟩ := modelIdx_has_pair n q.1 q.2 h2 heven (by omega) hq2
      (by omega)
    have := List.countP_pos.mpr ⟨e, he, hpe⟩
    omega
  have hlen : (modelIdx n).length = (allIdxPairs n).length := by
    have h1 := modelIdx_length n
    have hall := allIdxPairs_length n
    have h3 : 2 * ((n - 1) * (n / 2)) = (n - 1) * (2 * (n / 2)) := by ring
    have h4 : 2 * (n / 2) = n := by omega
    have h5 : 2 * (modelIdx n).length = 2 * (allIdxPairs n).length := by
      rw [h1, h3, h4, hall]
      ring
    omega
  have hall1 := all_eq_one_of_sum (allIdxPairs n)
    (fun q => (modelIdx n).countP (pairMatch q.1 q.2)) hge (hsum.trans hlen)
  rcases Nat.lt_or_ge x y with hlt | hge2
  · exact hall1 (x, y) (allIdxPairs_mem n x y hlt hy)
  · have hlt2 : y < x := by omega
    have h1 := hall1 (y, x) (allIdxPairs_mem n y x hlt2 hx)
    rw [← h1]
    apply countP_congr_mem
    intro q _
    exact pairMatch_comm x y q


/-- `getD` within bounds reads the list. -/
theorem getD_eq_getElem_of_lt (l : List Team) (k : Nat) (d : Team)
    (h : k < l.length) : l.getD k d = l[k] := by
  have h1 := get?_eq_getD l k d h
  rw [List.get?_eq_getElem?, List.getElem?_eq_getElem h] at h1
  exact (Option.some.inj h1).symm

/-- The flattened loop output on an even BYE-free list reads the reference
position pairs through the team list. -/
theorem flatten_round_robin (teams : List Team) (h2 : 2 ≤ teams.length)
    (heven : teams.length % 2 = 0)
    (hnobye : ∀ t ∈ teams, t.nombre ≠ "BYE") :
    (_round_robin_pairs teams).flatten =
      (modelIdx teams.length).map (fun q =>
        (teams.getD q.1 BYE_TEAM, teams.getD q.2 BYE_TEAM)) := by
  rw [round_robin_model teams h2 heven hnobye]
  unfold modelIdx modelRound
  rw [← List.flatMap_def, List.map_flatMap]
  simp only [List.map_map, Function.comp_def]

/-- Each unordered pair of distinct teams from an even, duplicate-free,
BYE-free list is emitted exactly once across all rounds. -/
theorem count_pairs_team (teams : List Team)
    (heven : teams.length % 2 = 0) (hnodup : teams.Nodup)
    (hnobye : ∀ t ∈ teams, t.nombre ≠ "BYE")
    (t1 t2 : Team) (hmem1 : t1 ∈ teams) (hmem2 : t2 ∈ teams) (hne : t1 ≠ t2) :
    (_round_robin_pairs teams).flatten.countP
      (fun pr => (pr.1 == t1 && pr.2 == t2) || (pr.1 == t2 && pr.2 == t1)) = 1 := by
  obtain ⟨a, halt, hta⟩ := List.mem_iff_getElem.mp hmem1
  obtain ⟨b, hblt, htb⟩ := List.mem_iff_getElem.mp hmem2
  have hab : a ≠ b := by
    intro h
    apply hne
    rw [← hta, ← htb]
    congr 1
  have h2 : 2 ≤ teams.length := by omega
  rw [flatten_round_robin teams h2 heven hnobye, List.countP_map]
  have key : ∀ (k c : Nat) (hk : k < teams.length) (hc : c < teams.length),
      (teams.getD k BYE_TEAM == teams[c]) = (k == c) := by
    intro k c hk hc
    rw [getD_eq_getElem_of_lt teams k BYE_TEAM hk]
    by_cases hkc : k = c
    · subst hkc
      rw [beq_self_eq_true, beq_self_eq_true]
    · have hne2 : teams[k] ≠ teams[c] := by
        intro hcontra
        exact hkc ((List.Nodup.getElem_inj_iff hnodup).mp hcontra)
      rw [show (teams[k] == teams[c]) = false from beq_eq_false_iff_ne.mpr hne2,
        show (k == c) = false from beq_eq_false_iff_ne.mpr hkc]
  have hcong : ∀ q ∈ modelIdx teams.length,
      ((fun pr => (pr.1 == t1 && pr.2 == t2) || (pr.1 == t2 && pr.2 == t1)) ∘
        (fun q => (teams.getD q.1 BYE_TEAM, teams.getD q.2 BYE_TEAM))) q =
      pairMatch a b q := by
    intro q hq
    obtain ⟨hq1, hq2, _⟩ := modelIdx_valid teams.length h2 heven q hq
    show ((teams.getD q.1 BYE_TEAM == t1 && teams.getD q.2 BYE_TEAM == t2) ||
      (teams.getD q.1 BYE_TEAM == t2 && teams.getD q.2 BYE_TEAM == t1)) = _
    rw [← hta, ← htb]
    rw [key q.1 a hq1 halt, key q.2 b hq2 hblt, key q.1 b hq1 hblt,
      key q.2 a hq2 halt]
    rfl
  rw [countP_congr_mem _ _ _ hcong]
  exact modelIdx_count teams.length a b h2 heven halt hblt hab


/-- Teams for the C4 witness instance (4 distinct teams, none named BYE). -/
def c4_teams : List Team :=
  [⟨some 1, "A1"⟩, ⟨some 2, "A2"⟩, ⟨some 3, "A3"⟩, ⟨some 4, "A4"⟩]

/-- Counterexample for C4 as stated: two distinct teams, one literally named
`BYE` — an even-length duplicate-free list — produce the expected single
round, but the pairing between the two teams is emitted zero times, not
once, because the skip in `_round_robin_pairs` tests the *name* `BYE`. -/
theorem c4_counterexample :
    ([⟨some 1, "BYE"⟩, ⟨some 2, "X"⟩] : List Team).Nodup ∧
    ([⟨some 1, "BYE"⟩, ⟨some 2, "X"⟩] : List Team).length % 2 = 0 ∧
    (_round_robin_pairs [⟨some 1, "BYE"⟩, ⟨some 2, "X"⟩]).length = 1 ∧
    (_round_robin_pairs [⟨some 1, "BYE"⟩, ⟨some 2, "X"⟩]).flatten.countP
      (fun pr => (pr.1 == (⟨some 1, "BYE"⟩ : Team) && pr.2 == (⟨some 2, "X"⟩ : Team)) ||
        (pr.1 == (⟨some 2, "X"⟩ : Team) && pr.2 == (⟨some 1, "BYE"⟩ : Team))) = 0 :=
  ⟨by decide, by decide, by decide, by decide⟩

/-- C4 (amended): no emitted pairing ever involves a side named `BYE` (in
particular the synthetic bye team added for odd team counts never appears);
for an even number of teams the loop produces exactly `S - 1` rounds; and
if moreover the teams are pairwise distinct and none is *named* `BYE`, every
unordered pair of distinct teams is emitted in exactly one match. The
no-BYE-name proviso is necessary: the skip is name-based, so a real team
named `BYE` loses all its pairings. -/
theorem c4_round_robin_pairs (teams : List Team) :
    (∀ round ∈ _round_robin_pairs teams, ∀ pr ∈ round,
      pr.1.nombre ≠ "BYE" ∧ pr.2.nombre ≠ "BYE") ∧
    (teams.length % 2 = 0 →
      (_round_robin_pairs teams).length = teams.length - 1 ∧
      (teams.Nodup → (∀ t ∈ teams, t.nombre ≠ "BYE") →
        ∀ t1 ∈ teams, ∀ t2 ∈ teams, t1 ≠ t2 →
          (_round_robin_pairs teams).flatten.countP
            (fun pr => (pr.1 == t1 && pr.2 == t2) ||
              (pr.1 == t2 && pr.2 == t1)) = 1)) := by
  constructor
  · intro round hround pr hpr
    unfold _round_robin_pairs at hround
    obtain ⟨l2, hl2⟩ := rrLoop_rounds _ _ _ round hround
    exact roundPairsAt_no_bye _ l2 pr (hl2 ▸ hpr)
  · intro heven
    constructor
    · unfold _round_robin_pairs
      simp only [rrLoop_length]
      rw [if_neg (by omega)]
    · intro hnodup hnobye t1 h1 t2 ht2 hne
      exact count_pairs_team teams heven hnodup hnobye t1 t2 h1 ht2 hne

/-- Witness for the amended C4 theorem on four concrete teams: three rounds
and the pair (A1, A2) emitted exactly once. -/
theorem c4_witness :
    (_round_robin_pairs c4_teams).length = c4_teams.length - 1 ∧
    (_round_robin_pairs c4_teams).flatten.countP
      (fun pr => (pr.1 == (⟨some 1, "A1"⟩ : Team) && pr.2 == (⟨some 2, "A2"⟩ : Team)) ||
        (pr.1 == (⟨some 2, "A2"⟩ : Team) && pr.2 == (⟨some 1, "A1"⟩ : Team))) = 1 :=
  ⟨((c4_round_robin_pairs c4_teams).2 (by decide)).1,
   ((c4_round_robin_pairs c4_teams).2 (by decide)).2 (by decide) (by decide)
     ⟨some 1, "A1"⟩ (by decide) ⟨some 2, "A2"⟩ (by decide) (by decide)⟩

end Scheduling
